import Mathlib

/-!
# Update client: application header codec, validation and candidate selection

A shallow embedding of `mbed_application.cpp` and `candidate_applications.cpp`.

* Machine integers are natural numbers; a reduction `% 2 ^ w` is written wherever the
  C++ operation can wrap or a conversion truncates.
* A byte buffer is a `List Nat`; every byte load goes through `byteAt`, which reduces the
  element modulo 256 (a `uint8_t` load).
* An object with mutable members is a structure; a member function returns its result
  together with the updated object(s).
* The flash driver (`FlashIAP`) and the SHA-256 implementation (`mbedtls`) are external
  libraries: the flash is a structure of functions, the digest is a function parameter
  `sha256`.
-/

namespace update_client

/-! ## Error codes -/

/-- Modelled from the spec: `uc_error_codes.hpp` is not among the sources. The codes the two
translation units use are taken as pairwise distinct constants (spec section 7 names them
`InvalidHeader`, `InvalidChecksum`, `ReadError`, `HashMismatch`, `FirmwareEmpty`). -/
inductive UCError where
  | UC_ERR_NONE
  | UC_ERR_INVALID_HEADER
  | UC_ERR_INVALID_CHECKSUM
  | UC_ERR_READING_FLASH
  | UC_ERR_HASH_INVALID
  | UC_ERR_FIRMWARE_EMPTY
  deriving DecidableEq, Repr

open UCError

/-! ## Flash -/

/-- The part of `FlashUpdater` (an extension of the mbed `FlashIAP` driver) that the embedded
code uses. `mem` is the flash content, `readFails addr size` tells whether
`read(buffer, addr, size)` reports an error, and `alignAddressToSector` is the member function
declared in `flash_updater.hpp` (its body is not among the sources). -/
structure FlashUpdater where
  mem : Nat → Nat
  readFails : Nat → Nat → Bool
  alignAddressToSector : Nat → Bool → Nat

/-- The driver call `read(buffer, addr, size)`: `none` is a non-zero return code, `some bytes`
is the buffer content after a successful read. -/
def FlashUpdater.read (flash : FlashUpdater) (addr size : Nat) : Option (List Nat) :=
  if flash.readFails addr size then none
  else some ((List.range size).map (fun k => flash.mem (addr + k) % 256))

/-! ## Constants of `mbed_application.hpp` -/

def kHeaderVersionV2 : Nat := 2
def KheaderMagicV2 : Nat := 0x5a51b3d4
def kHeaderSizeV2 : Nat := 112
def kFirmwareVersionOffsetV2 : Nat := 8
def kFirmwareSizeOffsetV2 : Nat := 16
def kHashOffsetV2 : Nat := 24
def kCampaingOffetV2 : Nat := 88
def kSignatureSizeOffsetV2 : Nat := 104
def kHeaderCrcOffsetV2 : Nat := 108
def GUID_SIZE : Nat := 128 / 8
def SHA256_SIZE : Nat := 256 / 8
def kSizeOfSHA256 : Nat := 256 / 8
def kBufferSize : Nat := 256

/-! ## Application objects -/

inductive ApplicationState where
  | NOT_CHECKED
  | VALID
  | NOT_VALID
  deriving DecidableEq, Repr

open ApplicationState

structure ApplicationHeader where
  initialized : Bool
  magic : Nat
  headerVersion : Nat
  firmwareVersion : Nat
  firmwareSize : Nat
  hash : List Nat
  campaign : List Nat
  signatureSize : Nat
  state : ApplicationState
  deriving DecidableEq, Repr

/-- The data members of `MbedApplication` (the scratch `_buffer` is not observable and is
left out; the flash reference is passed to every member function). -/
structure MbedApplication where
  _applicationHeaderAddress : Nat
  _applicationAddress : Nat
  _applicationHeader : ApplicationHeader
  deriving DecidableEq, Repr

/-- The constructor `MbedApplication::MbedApplication`: the header is zeroed, not initialized
and not checked. -/
def MbedApplication.new (applicationHeaderAddress applicationAddress : Nat) : MbedApplication :=
  { _applicationHeaderAddress := applicationHeaderAddress
    _applicationAddress := applicationAddress
    _applicationHeader :=
      { initialized := false
        magic := 0
        headerVersion := 0
        firmwareVersion := 0
        firmwareSize := 0
        hash := List.replicate SHA256_SIZE 0
        campaign := List.replicate GUID_SIZE 0
        signatureSize := 0
        state := NOT_CHECKED } }

/-! ## Header codec -/

/-- A `uint8_t` load `p[i]`. -/
def byteAt (p : List Nat) (i : Nat) : Nat := p.getD i 0 % 256

/-- `MbedApplication::parseUint32` on a non-null pointer `pBuffer`. -/
def parseUint32 (pBuffer : List Nat) : Nat :=
  let result := byteAt pBuffer 0
  let result := ((result <<< 8) % 2 ^ 32) ||| byteAt pBuffer 1
  let result := ((result <<< 8) % 2 ^ 32) ||| byteAt pBuffer 2
  let result := ((result <<< 8) % 2 ^ 32) ||| byteAt pBuffer 3
  result

/-- `MbedApplication::parseUint64` on a non-null pointer `pBuffer`. -/
def parseUint64 (pBuffer : List Nat) : Nat :=
  let result := byteAt pBuffer 0
  let result := ((result <<< 8) % 2 ^ 64) ||| byteAt pBuffer 1
  let result := ((result <<< 8) % 2 ^ 64) ||| byteAt pBuffer 2
  let result := ((result <<< 8) % 2 ^ 64) ||| byteAt pBuffer 3
  let result := ((result <<< 8) % 2 ^ 64) ||| byteAt pBuffer 4
  let result := ((result <<< 8) % 2 ^ 64) ||| byteAt pBuffer 5
  let result := ((result <<< 8) % 2 ^ 64) ||| byteAt pBuffer 6
  let result := ((result <<< 8) % 2 ^ 64) ||| byteAt pBuffer 7
  result

/-- One turn of the inner `for` loop of `crc32`. -/
def crc32Bit (crc : Nat) : Nat :=
  if crc &&& 1 ≠ 0 then (crc >>> 1) ^^^ 0xEDB88320 else crc >>> 1

/-- The inner `for (counter = 0; counter < 8; counter++)` loop of `crc32`, `n` turns. -/
def crc32Bits : Nat → Nat → Nat
  | 0, crc => crc
  | n + 1, crc => crc32Bits n (crc32Bit crc)

/-- The body of the `while (length--)` loop of `crc32` for the byte `b` under `pCurrent`. -/
def crc32Byte (crc b : Nat) : Nat := crc32Bits 8 (crc ^^^ b)

/-- The `while (length--)` loop of `crc32` over the bytes under `pCurrent`. -/
def crc32Loop : List Nat → Nat → Nat
  | [], crc => crc
  | b :: rest, crc => crc32Loop rest (crc32Byte crc b)

/-- The first `length` bytes of the buffer, as `uint8_t` loads. -/
def bytesOf (pBuffer : List Nat) (length : Nat) : List Nat :=
  (List.range length).map (byteAt pBuffer)

/-- `MbedApplication::crc32`. -/
def crc32 (pBuffer : List Nat) (length : Nat) : Nat :=
  crc32Loop (bytesOf pBuffer length) 0xFFFFFFFF ^^^ 0xFFFFFFFF

/-- `MbedApplication::parseInternalHeaderV2` on a non-null buffer. -/
def parseInternalHeaderV2 (app : MbedApplication) (pBuffer : List Nat) :
    UCError × MbedApplication :=
  let calculatedChecksum := crc32 pBuffer kHeaderCrcOffsetV2
  let temp32 := parseUint32 (pBuffer.drop kHeaderCrcOffsetV2)
  if temp32 = calculatedChecksum then
    (UC_ERR_NONE,
      { app with
        _applicationHeader :=
          { app._applicationHeader with
            firmwareVersion := parseUint64 (pBuffer.drop kFirmwareVersionOffsetV2)
            firmwareSize := parseUint64 (pBuffer.drop kFirmwareSizeOffsetV2)
            hash := bytesOf (pBuffer.drop kHashOffsetV2) SHA256_SIZE
            campaign := bytesOf (pBuffer.drop kCampaingOffetV2) GUID_SIZE } })
  else
    (UC_ERR_INVALID_CHECKSUM, app)

/-- The tail of `readApplicationHeader`: the header becomes initialized and the state is set
from the result code. -/
def finishReadHeader (result : UCError) (app : MbedApplication) : UCError × MbedApplication :=
  (result,
    { app with
      _applicationHeader :=
        { app._applicationHeader with
          initialized := true
          state := if result = UC_ERR_NONE then VALID else NOT_VALID } })

/-- `MbedApplication::readApplicationHeader`. -/
def readApplicationHeader (flash : FlashUpdater) (app : MbedApplication) :
    UCError × MbedApplication :=
  match flash.read app._applicationHeaderAddress 8 with
  | some version_buffer =>
    let app1 : MbedApplication :=
      { app with
        _applicationHeader :=
          { app._applicationHeader with
            magic := parseUint32 version_buffer
            headerVersion := parseUint32 (version_buffer.drop 4) } }
    if app1._applicationHeader.headerVersion = kHeaderVersionV2 then
      if app1._applicationHeader.magic = KheaderMagicV2 then
        match flash.read app._applicationHeaderAddress kHeaderSizeV2 with
        | some read_buffer =>
          let r := parseInternalHeaderV2 app1 read_buffer
          finishReadHeader r.1 r.2
        | none => finishReadHeader UC_ERR_READING_FLASH app1
      else finishReadHeader UC_ERR_INVALID_HEADER app1
    else finishReadHeader UC_ERR_INVALID_HEADER app1
  | none => finishReadHeader UC_ERR_READING_FLASH app

/-! ## Validation -/

/-- The `while (remaining > 0)` loop of `checkApplication`. The result is the flag "a read
failed (`result = UC_ERR_READING_FLASH; break`)" and the bytes passed to
`mbedtls_sha256_update`, in order. `remaining` decreases by at least one per turn, so the
first argument (the number of turns allowed) is never exhausted when it starts at
`remaining`. The address `_applicationAddress + (firmwareSize - remaining)` is a 64-bit sum
converted to the 32-bit address parameter of `read`. -/
def hashLoop (flash : FlashUpdater) (applicationAddress firmwareSize : Nat) :
    Nat → Nat → List Nat → Bool × List Nat
  | 0, _, fed => (false, fed)
  | fuel + 1, remaining, fed =>
    if remaining > 0 then
      let readSize := if remaining > kBufferSize then kBufferSize else remaining
      match flash.read
          (((applicationAddress + (firmwareSize - remaining)) % 2 ^ 64) % 2 ^ 32) readSize with
      | none => (true, fed)
      | some buffer => hashLoop flash applicationAddress firmwareSize fuel
          (remaining - readSize) (fed ++ buffer)
    else (false, fed)

/-- The bytes `checkApplication` feeds to the SHA-256 context for an application whose header
fields are already read: `remaining` starts as the 32-bit truncation of `firmwareSize`. -/
def hashedBytes (flash : FlashUpdater) (app : MbedApplication) : Bool × List Nat :=
  let remaining := app._applicationHeader.firmwareSize % 2 ^ 32
  hashLoop flash app._applicationAddress app._applicationHeader.firmwareSize
    remaining remaining []

/-- Set the cached validation state. -/
def MbedApplication.setState (app : MbedApplication) (s : ApplicationState) : MbedApplication :=
  { app with _applicationHeader := { app._applicationHeader with state := s } }

/-- `MbedApplication::checkApplication`. The code returned after the hashing loop is decided
by the digest comparison alone: the assignment `result = UC_ERR_READING_FLASH` made before
`break` is overwritten by the `if (diff == 0)` statement. -/
def checkApplication (sha256 : List Nat → List Nat) (flash : FlashUpdater)
    (app : MbedApplication) : UCError × MbedApplication :=
  let r := readApplicationHeader flash app
  if r.1 ≠ UC_ERR_NONE then
    (r.1, r.2.setState NOT_VALID)
  else
    let result :=
      if r.2._applicationHeader.firmwareSize > 0 then
        let SHA := sha256 (hashedBytes flash r.2).2
        if r.2._applicationHeader.hash = SHA then UC_ERR_NONE else UC_ERR_HASH_INVALID
      else UC_ERR_FIRMWARE_EMPTY
    if result = UC_ERR_NONE then (result, r.2.setState VALID)
    else (result, r.2.setState NOT_VALID)

/-- `MbedApplication::isValid`. -/
def isValid (sha256 : List Nat → List Nat) (flash : FlashUpdater) (app : MbedApplication) :
    Bool × MbedApplication :=
  let app1 :=
    if ¬ app._applicationHeader.initialized then
      let r := readApplicationHeader flash app
      if r.1 ≠ UC_ERR_NONE then r.2.setState NOT_VALID else r.2
    else app
  let app2 :=
    if app1._applicationHeader.state = NOT_CHECKED then
      let c := checkApplication sha256 flash app1
      if c.1 ≠ UC_ERR_NONE then c.2.setState NOT_VALID else c.2
    else app1
  (decide (app2._applicationHeader.state ≠ NOT_VALID), app2)

/-- `MbedApplication::getFirmwareVersion`. -/
def getFirmwareVersion (flash : FlashUpdater) (app : MbedApplication) : Nat × MbedApplication :=
  if ¬ app._applicationHeader.initialized then
    let r := readApplicationHeader flash app
    if r.1 ≠ UC_ERR_NONE then (0, r.2.setState NOT_VALID)
    else (r.2._applicationHeader.firmwareVersion, r.2)
  else (app._applicationHeader.firmwareVersion, app)

/-- `MbedApplication::getFirmwareSize`. -/
def getFirmwareSize (flash : FlashUpdater) (app : MbedApplication) : Nat × MbedApplication :=
  if ¬ app._applicationHeader.initialized then
    let r := readApplicationHeader flash app
    if r.1 ≠ UC_ERR_NONE then (0, r.2.setState NOT_VALID)
    else (r.2._applicationHeader.firmwareSize, r.2)
  else (app._applicationHeader.firmwareSize, app)

/-! ## Version comparison -/

/-- The three `return` statements of `isNewerThan`, on the two headers once they are read. -/
def newerHeader (self other : ApplicationHeader) : Bool :=
  if self.headerVersion < kHeaderVersionV2 ∨ self.firmwareSize = 0 ∨ self.state = NOT_VALID then
    false
  else if other.headerVersion < kHeaderVersionV2 ∨ other.firmwareSize = 0 ∨
      other.state = NOT_VALID then
    true
  else
    decide (other.firmwareVersion < self.firmwareVersion)

/-- The statement `if (! _applicationHeader.initialized) readApplicationHeader();`. -/
def ensureHeader (flash : FlashUpdater) (app : MbedApplication) : MbedApplication :=
  if app._applicationHeader.initialized then app else (readApplicationHeader flash app).2

/-- `MbedApplication::isNewerThan`: the result, this application and the other application
(two distinct objects). -/
def isNewerThan (flash : FlashUpdater) (self other : MbedApplication) :
    Bool × MbedApplication × MbedApplication :=
  let self1 := ensureHeader flash self
  let other1 := ensureHeader flash other
  (newerHeader self1._applicationHeader other1._applicationHeader, self1, other1)

/-! ## Candidate slots -/

/-- The data members of `CandidateApplications`. An entry of the pointer array is `none` when
it does not point to a constructed `MbedApplication`; the array has
`MBED_CONF_UPDATE_CLIENT_STORAGE_LOCATIONS` entries. -/
structure CandidateApplications where
  _storageAddress : Nat
  _storageSize : Nat
  _nbrOfSlots : Nat
  _candidateApplicationArray : List (Option MbedApplication)
  deriving DecidableEq, Repr

/-- `CandidateApplications::getCandidateAddress` in 32-bit unsigned arithmetic: the result
code, `candidateAddress` and `slotSize`. The division by `_nbrOfSlots` is undefined for zero
slots (`none`). -/
def getCandidateAddress (flash : FlashUpdater) (ca : CandidateApplications) (slotIndex : Nat) :
    Option (UCError × Nat × Nat) :=
  if ca._nbrOfSlots = 0 then none
  else
    let storageStartAddr := flash.alignAddressToSector ca._storageAddress false % 2 ^ 32
    let storageEndAddr :=
      flash.alignAddressToSector ((ca._storageAddress + ca._storageSize) % 2 ^ 32) true % 2 ^ 32
    let maxSlotSize := ((storageEndAddr + 2 ^ 32 - storageStartAddr) % 2 ^ 32) / ca._nbrOfSlots
    let slotStartAddr :=
      flash.alignAddressToSector
        ((storageStartAddr + (slotIndex * maxSlotSize) % 2 ^ 32) % 2 ^ 32) true % 2 ^ 32
    let slotEndAddr :=
      flash.alignAddressToSector ((slotStartAddr + maxSlotSize) % 2 ^ 32) true % 2 ^ 32
    some (UC_ERR_NONE, slotStartAddr, (slotEndAddr + 2 ^ 32 - slotStartAddr) % 2 ^ 32)

/-- The body of the constructor loop for one `slotIndex`. -/
def constructSlot (flash : FlashUpdater) (headerSize : Nat) (this : CandidateApplications)
    (slotIndex : Nat) : CandidateApplications :=
  match getCandidateAddress flash this slotIndex with
  | some (UC_ERR_NONE, candidateAddress, _) =>
    { this with
      _candidateApplicationArray :=
        this._candidateApplicationArray.set slotIndex
          (some (MbedApplication.new candidateAddress ((candidateAddress + headerSize) % 2 ^ 32))) }
  | _ => this

/-- The constructor `CandidateApplications::CandidateApplications`; `maxSlots` is the build
configuration value `MBED_CONF_UPDATE_CLIENT_STORAGE_LOCATIONS`. -/
def CandidateApplications.new (maxSlots : Nat) (flash : FlashUpdater)
    (storageAddress storageSize headerSize nbrOfSlots : Nat) : CandidateApplications :=
  let this : CandidateApplications :=
    { _storageAddress := storageAddress
      _storageSize := storageSize
      _nbrOfSlots := nbrOfSlots
      _candidateApplicationArray := List.replicate maxSlots none }
  if nbrOfSlots ≤ maxSlots then
    (List.range nbrOfSlots).foldl (constructSlot flash headerSize) this
  else this

/-- `CandidateApplications::getNbrOfSlots`. -/
def getNbrOfSlots (ca : CandidateApplications) : Nat := ca._nbrOfSlots

/-- The objects a scan of `hasValidNewerApplication` works on: the pointed-to candidates, the
active application and the output parameter `newestSlotIndex`. -/
structure ScanState where
  candidates : List (Option MbedApplication)
  active : MbedApplication
  newestSlotIndex : Nat
  deriving DecidableEq, Repr

/-- The statements after the comparison in the loop body of `hasValidNewerApplication`:
when `newer` holds the candidate is checked and, on success, becomes the newest slot. -/
def scanCheck (sha256 : List Nat → List Nat) (flash : FlashUpdater) (newer : Bool)
    (candidate : MbedApplication) (st : ScanState) (slotIndex : Nat) : ScanState :=
  if newer then
    let c := checkApplication sha256 flash candidate
    let st1 := { st with candidates := st.candidates.set slotIndex (some c.2) }
    if c.1 ≠ UC_ERR_NONE then st1 else { st1 with newestSlotIndex := slotIndex }
  else st

/-- The loop body of `hasValidNewerApplication` for one `slotIndex`; `none` is the
dereference of an entry that is not a constructed application. -/
def scanStep (sha256 : List Nat → List Nat) (flash : FlashUpdater) (nbrOfSlots : Nat)
    (st : ScanState) (slotIndex : Nat) : Option ScanState :=
  if st.newestSlotIndex = nbrOfSlots then
    match st.candidates.getD slotIndex none with
    | none => none
    | some candidate =>
      let r := isNewerThan flash candidate st.active
      scanCheck sha256 flash r.1 r.2.1
        { st with candidates := st.candidates.set slotIndex (some r.2.1), active := r.2.2 }
        slotIndex
  else
    match st.candidates.getD st.newestSlotIndex none, st.candidates.getD slotIndex none with
    | some newestApplication, some candidate =>
      let r := isNewerThan flash candidate newestApplication
      scanCheck sha256 flash r.1 r.2.1
        { st with
          candidates :=
            (st.candidates.set st.newestSlotIndex (some r.2.2)).set slotIndex (some r.2.1) }
        slotIndex
    | _, _ => none

/-- The `for` loop of `hasValidNewerApplication` over the given slot indices. -/
def scanSlots (sha256 : List Nat → List Nat) (flash : FlashUpdater) (nbrOfSlots : Nat) :
    List Nat → ScanState → Option ScanState
  | [], st => some st
  | slotIndex :: rest, st =>
    match scanStep sha256 flash nbrOfSlots st slotIndex with
    | none => none
    | some st1 => scanSlots sha256 flash nbrOfSlots rest st1

/-- `CandidateApplications::hasValidNewerApplication`: the returned flag, the output
`newestSlotIndex`, and the candidates and the active application after the scan. -/
def hasValidNewerApplication (sha256 : List Nat → List Nat) (flash : FlashUpdater)
    (ca : CandidateApplications) (activeApplication : MbedApplication) :
    Option (Bool × Nat × List (Option MbedApplication) × MbedApplication) :=
  match scanSlots sha256 flash ca._nbrOfSlots (List.range ca._nbrOfSlots)
      { candidates := ca._candidateApplicationArray
        active := activeApplication
        newestSlotIndex := ca._nbrOfSlots } with
  | none => none
  | some st =>
    some (decide (st.newestSlotIndex ≠ ca._nbrOfSlots), st.newestSlotIndex, st.candidates,
      st.active)

/-! ## Sector alignment -/

/-- Modelled from the spec: the round-down walk of `FlashUpdater::alignAddressToSector`
(`flash_updater.cpp` is not among the sources). Section 4.1: the flash is a sequence of
sectors of possibly non-uniform size, walked from the flash origin; the result is the
nearest sector boundary at or below the address and never lies outside the flash.
`boundary` is the boundary reached so far, the list holds the sizes of the sectors after
it. -/
def alignDownFrom (boundary : Nat) : List Nat → Nat → Nat
  | [], _ => boundary
  | size :: rest, address =>
    if boundary + size ≤ address then alignDownFrom (boundary + size) rest address
    else boundary

/-- Modelled from the spec: the round-up walk of `FlashUpdater::alignAddressToSector`: the
nearest sector boundary at or above the address, never outside the flash. -/
def alignUpFrom (boundary : Nat) : List Nat → Nat → Nat
  | [], _ => boundary
  | size :: rest, address =>
    if address ≤ boundary then boundary else alignUpFrom (boundary + size) rest address

/-- Modelled from the spec: `FlashUpdater::alignAddressToSector` for a flash that starts at
`origin` and is made of sectors of the given sizes. -/
def alignToSector (origin : Nat) (sectors : List Nat) (address : Nat) (roundDown : Bool) : Nat :=
  if roundDown then alignDownFrom origin sectors address else alignUpFrom origin sectors address

/-! ## Installation -/

/-- Modelled from the spec: the page-level part of `FlashUpdater` that `installApplication`
uses (`flash_updater.cpp` and the `FlashIAP` driver are not among the sources):
`get_page_size`, `get_sector_size`, and the result codes of the primitives behind `readPage`
and `writePage` (section 6: page read, sector erase and page program each report success,
`UC_ERR_NONE`, or a failure) at an address. -/
structure PagedFlash extends FlashUpdater where
  get_page_size : Nat
  get_sector_size : Nat → Nat
  readPageCode : Nat → UCError
  eraseCode : Nat → UCError
  programCode : Nat → UCError

/-- Modelled from the spec: `FlashUpdater::readPage(pageSize, buffer, addr)`, declared in
`flash_updater.hpp` as "read a page from a specified address and update the address for
reading from the next page": the result code and the updated address. -/
def readPage (flash : PagedFlash) (pageSize addr : Nat) : UCError × Nat :=
  if flash.readPageCode addr = UC_ERR_NONE then (UC_ERR_NONE, (addr + pageSize) % 2 ^ 32)
  else (flash.readPageCode addr, addr)

/-- The reference parameters of `writePage`. -/
structure WriteCursor where
  addr : Nat
  sectorErased : Bool
  pagesFlashed : Nat
  nextSectorAddress : Nat
  deriving DecidableEq, Repr

/-- Modelled from the spec: `FlashUpdater::writePage` (section 4.1). When the address has
reached `nextSectorAddress` or the current sector is not yet erased, the sector is erased
first; then the page is programmed; then the address advances by `pageSize`, and when it
reaches `nextSectorAddress` the erased flag is reset and the boundary advances by the size of
the sector at the new address. A failing erase or program is returned at once. -/
def writePage (flash : PagedFlash) (pageSize : Nat) (w : WriteCursor) : UCError × WriteCursor :=
  let needErase := decide (w.nextSectorAddress ≤ w.addr) || !w.sectorErased
  let eraseResult := if needErase then flash.eraseCode w.addr else UC_ERR_NONE
  if eraseResult ≠ UC_ERR_NONE then (eraseResult, w)
  else
    let w1 : WriteCursor := if needErase then { w with sectorErased := true } else w
    if flash.programCode w.addr ≠ UC_ERR_NONE then (flash.programCode w.addr, w1)
    else
      let w2 : WriteCursor :=
        { w1 with addr := (w.addr + pageSize) % 2 ^ 32, pagesFlashed := w1.pagesFlashed + 1 }
      if w2.nextSectorAddress ≤ w2.addr then
        (UC_ERR_NONE,
          { w2 with
            sectorErased := false
            nextSectorAddress := (w2.nextSectorAddress + flash.get_sector_size w2.addr) % 2 ^ 32 })
      else (UC_ERR_NONE, w2)

/-- A call of `readPage` or `writePage` made by `installApplication`: the address it was
given and the code it returned. -/
inductive PageOp where
  | read (addr : Nat) (code : UCError)
  | write (addr : Nat) (code : UCError)
  deriving DecidableEq, Repr

/-- The code a page operation returned. -/
def PageOp.code : PageOp → UCError
  | PageOp.read _ c => c
  | PageOp.write _ c => c

/-- The local variables of the copy loop of `installApplication` and the calls made so far. -/
structure CopyState where
  sourceAddr : Nat
  dest : WriteCursor
  nbrOfBytes : Nat
  trace : List PageOp
  deriving DecidableEq, Repr

/-- The loop `while (nbrOfBytes < copySize)` of `installApplication`, for at most the given
number of turns: the returned code (`none` when the loop has not ended within the turns) and
the state reached. `nbrOfBytes` is a 32-bit counter, `copySize` a 64-bit value. -/
def copyLoop (flash : PagedFlash) (pageSize copySize : Nat) :
    Nat → CopyState → Option UCError × CopyState
  | 0, st => if st.nbrOfBytes < copySize then (none, st) else (some UC_ERR_NONE, st)
  | fuel + 1, st =>
    if st.nbrOfBytes < copySize then
      let r := readPage flash pageSize st.sourceAddr
      let st1 : CopyState :=
        { st with sourceAddr := r.2, trace := st.trace ++ [PageOp.read st.sourceAddr r.1] }
      if r.1 ≠ UC_ERR_NONE then (some r.1, st1)
      else
        let w := writePage flash pageSize st1.dest
        let st2 : CopyState :=
          { st1 with dest := w.2, trace := st1.trace ++ [PageOp.write st1.dest.addr w.1] }
        if w.1 ≠ UC_ERR_NONE then (some w.1, st2)
        else copyLoop flash pageSize copySize fuel
          { st2 with nbrOfBytes := (st2.nbrOfBytes + pageSize) % 2 ^ 32 }
    else (some UC_ERR_NONE, st)

/-- What a call of `installApplication` does within a number of loop turns, with the page
operations made: not defined, still in the copy loop, or returned with a code. -/
inductive InstallOutcome where
  | undefined
  | running (trace : List PageOp)
  | returned (code : UCError) (trace : List PageOp)
  deriving DecidableEq, Repr

/-- `CandidateApplications::installApplication` (compiled when `POST_APPLICATION_ADDR` is
defined); `headerSize` is the build value `POST_APPLICATION_ADDR - HEADER_ADDR` and `fuel`
bounds the turns of the copy loop. `undefined` is the division by zero slots in
`getCandidateAddress` or the dereference of an entry that is not a constructed application,
`running` a loop that has not ended within `fuel` turns. -/
def installApplication (flash : PagedFlash) (ca : CandidateApplications) (headerSize fuel : Nat)
    (slotIndex destHeaderAddress : Nat) : InstallOutcome :=
  let pageSize := flash.get_page_size
  match getCandidateAddress flash.toFlashUpdater ca slotIndex with
  | none => InstallOutcome.undefined
  | some (result, sourceAddr, _) =>
    if result ≠ UC_ERR_NONE then InstallOutcome.returned result []
    else
      let destSectorSize := flash.get_sector_size destHeaderAddress
      let dest : WriteCursor :=
        { addr := destHeaderAddress
          sectorErased := false
          pagesFlashed := 0
          nextSectorAddress := (destHeaderAddress + destSectorSize) % 2 ^ 32 }
      match ca._candidateApplicationArray.getD slotIndex none with
      | none => InstallOutcome.undefined
      | some candidate =>
        let copySize := ((getFirmwareSize flash.toFlashUpdater candidate).1 + headerSize) % 2 ^ 64
        match copyLoop flash pageSize copySize fuel
            { sourceAddr := sourceAddr, dest := dest, nbrOfBytes := 0, trace := [] } with
        | (none, st) => InstallOutcome.running st.trace
        | (some code, st) => InstallOutcome.returned code st.trace

/-! ## The scan with its calls of `checkApplication` recorded -/

/-- The statements of `scanCheck` together with the record of the call of `checkApplication`
they make: the slot index and the returned code when the call is made, nothing otherwise. -/
def scanCheckLog (sha256 : List Nat → List Nat) (flash : FlashUpdater) (newer : Bool)
    (candidate : MbedApplication) (st : ScanState) (slotIndex : Nat) :
    ScanState × List (Nat × UCError) :=
  if newer then
    let c := checkApplication sha256 flash candidate
    let st1 := { st with candidates := st.candidates.set slotIndex (some c.2) }
    if c.1 ≠ UC_ERR_NONE then (st1, [(slotIndex, c.1)])
    else ({ st1 with newestSlotIndex := slotIndex }, [(slotIndex, c.1)])
  else (st, [])

/-- The loop body `scanStep` together with the record of the call of `checkApplication` it
makes. -/
def scanStepLog (sha256 : List Nat → List Nat) (flash : FlashUpdater) (nbrOfSlots : Nat)
    (st : ScanState) (slotIndex : Nat) : Option (ScanState × List (Nat × UCError)) :=
  if st.newestSlotIndex = nbrOfSlots then
    match st.candidates.getD slotIndex none with
    | none => none
    | some candidate =>
      let r := isNewerThan flash candidate st.active
      some (scanCheckLog sha256 flash r.1 r.2.1
        { st with candidates := st.candidates.set slotIndex (some r.2.1), active := r.2.2 }
        slotIndex)
  else
    match st.candidates.getD st.newestSlotIndex none, st.candidates.getD slotIndex none with
    | some newestApplication, some candidate =>
      let r := isNewerThan flash candidate newestApplication
      some (scanCheckLog sha256 flash r.1 r.2.1
        { st with
          candidates :=
            (st.candidates.set st.newestSlotIndex (some r.2.2)).set slotIndex (some r.2.1) }
        slotIndex)
    | _, _ => none

/-- The application the loop body compares the candidate with: the active application while
no slot is selected, the selected slot afterwards. -/
def runningBest (nbrOfSlots : Nat) (st : ScanState) : Option MbedApplication :=
  if st.newestSlotIndex = nbrOfSlots then some st.active
  else st.candidates.getD st.newestSlotIndex none

/-- The `for` loop `scanSlots` together with the record of its visits: for each visited slot,
the state before the visit, the slot index, and the record of the call of
`checkApplication` made during the visit. -/
def scanSlotsLog (sha256 : List Nat → List Nat) (flash : FlashUpdater) (nbrOfSlots : Nat) :
    List Nat → ScanState → Option (ScanState × List (ScanState × Nat × List (Nat × UCError)))
  | [], st => some (st, [])
  | slotIndex :: rest, st =>
    match scanStepLog sha256 flash nbrOfSlots st slotIndex with
    | none => none
    | some (st1, log) =>
      match scanSlotsLog sha256 flash nbrOfSlots rest st1 with
      | none => none
      | some (st2, visits) => some (st2, (st, slotIndex, log) :: visits)

/-! ## Sequences of public operations -/

/-- The first `if` statement of `isValid`: the application when the test
`_applicationHeader.state == NOT_CHECKED` of the second `if` is evaluated. -/
def isValidAfterHeader (flash : FlashUpdater) (app : MbedApplication) : MbedApplication :=
  if ¬ app._applicationHeader.initialized then
    let r := readApplicationHeader flash app
    if r.1 ≠ UC_ERR_NONE then r.2.setState NOT_VALID else r.2
  else app

/-- A call of a public member function of `MbedApplication` that can change the
application, seen from one application: a call on it, or a call of `isNewerThan` on another
application with it as the argument. -/
inductive PublicOp where
  | isValid
  | getFirmwareVersion
  | getFirmwareSize
  | isNewerThan (otherApplication : MbedApplication)
  | argumentOfIsNewerThan (caller : MbedApplication)
  | checkApplication

/-- The application after one public operation on the given flash. -/
def applyOp (sha256 : List Nat → List Nat) (flash : FlashUpdater) :
    PublicOp → MbedApplication → MbedApplication
  | PublicOp.isValid, app => (isValid sha256 flash app).2
  | PublicOp.getFirmwareVersion, app => (getFirmwareVersion flash app).2
  | PublicOp.getFirmwareSize, app => (getFirmwareSize flash app).2
  | PublicOp.isNewerThan otherApplication, app => (isNewerThan flash app otherApplication).2.1
  | PublicOp.argumentOfIsNewerThan caller, app => (isNewerThan flash caller app).2.2
  | PublicOp.checkApplication, app => (checkApplication sha256 flash app).2

/-- The application after a sequence of public operations, each on the flash content of its
time. -/
def applyOps (sha256 : List Nat → List Nat) :
    List (FlashUpdater × PublicOp) → MbedApplication → MbedApplication
  | [], app => app
  | (flash, op) :: rest, app => applyOps sha256 rest (applyOp sha256 flash op app)

/-! ## Reference definitions used by the statements -/

/-- The 256-entry lookup table of the standard CRC-32 (CRC-32/ISO-HDLC, reflected polynomial
`0xEDB88320`), as published with the table-driven algorithm. -/
def crc32Table : List Nat :=
  [
    0x00000000, 0x77073096, 0xEE0E612C, 0x990951BA, 0x076DC419, 0x706AF48F,
    0xE963A535, 0x9E6495A3, 0x0EDB8832, 0x79DCB8A4, 0xE0D5E91E, 0x97D2D988,
    0x09B64C2B, 0x7EB17CBD, 0xE7B82D07, 0x90BF1D91, 0x1DB71064, 0x6AB020F2,
    0xF3B97148, 0x84BE41DE, 0x1ADAD47D, 0x6DDDE4EB, 0xF4D4B551, 0x83D385C7,
    0x136C9856, 0x646BA8C0, 0xFD62F97A, 0x8A65C9EC, 0x14015C4F, 0x63066CD9,
    0xFA0F3D63, 0x8D080DF5, 0x3B6E20C8, 0x4C69105E, 0xD56041E4, 0xA2677172,
    0x3C03E4D1, 0x4B04D447, 0xD20D85FD, 0xA50AB56B, 0x35B5A8FA, 0x42B2986C,
    0xDBBBC9D6, 0xACBCF940, 0x32D86CE3, 0x45DF5C75, 0xDCD60DCF, 0xABD13D59,
    0x26D930AC, 0x51DE003A, 0xC8D75180, 0xBFD06116, 0x21B4F4B5, 0x56B3C423,
    0xCFBA9599, 0xB8BDA50F, 0x2802B89E, 0x5F058808, 0xC60CD9B2, 0xB10BE924,
    0x2F6F7C87, 0x58684C11, 0xC1611DAB, 0xB6662D3D, 0x76DC4190, 0x01DB7106,
    0x98D220BC, 0xEFD5102A, 0x71B18589, 0x06B6B51F, 0x9FBFE4A5, 0xE8B8D433,
    0x7807C9A2, 0x0F00F934, 0x9609A88E, 0xE10E9818, 0x7F6A0DBB, 0x086D3D2D,
    0x91646C97, 0xE6635C01, 0x6B6B51F4, 0x1C6C6162, 0x856530D8, 0xF262004E,
    0x6C0695ED, 0x1B01A57B, 0x8208F4C1, 0xF50FC457, 0x65B0D9C6, 0x12B7E950,
    0x8BBEB8EA, 0xFCB9887C, 0x62DD1DDF, 0x15DA2D49, 0x8CD37CF3, 0xFBD44C65,
    0x4DB26158, 0x3AB551CE, 0xA3BC0074, 0xD4BB30E2, 0x4ADFA541, 0x3DD895D7,
    0xA4D1C46D, 0xD3D6F4FB, 0x4369E96A, 0x346ED9FC, 0xAD678846, 0xDA60B8D0,
    0x44042D73, 0x33031DE5, 0xAA0A4C5F, 0xDD0D7CC9, 0x5005713C, 0x270241AA,
    0xBE0B1010, 0xC90C2086, 0x5768B525, 0x206F85B3, 0xB966D409, 0xCE61E49F,
    0x5EDEF90E, 0x29D9C998, 0xB0D09822, 0xC7D7A8B4, 0x59B33D17, 0x2EB40D81,
    0xB7BD5C3B, 0xC0BA6CAD, 0xEDB88320, 0x9ABFB3B6, 0x03B6E20C, 0x74B1D29A,
    0xEAD54739, 0x9DD277AF, 0x04DB2615, 0x73DC1683, 0xE3630B12, 0x94643B84,
    0x0D6D6A3E, 0x7A6A5AA8, 0xE40ECF0B, 0x9309FF9D, 0x0A00AE27, 0x7D079EB1,
    0xF00F9344, 0x8708A3D2, 0x1E01F268, 0x6906C2FE, 0xF762575D, 0x806567CB,
    0x196C3671, 0x6E6B06E7, 0xFED41B76, 0x89D32BE0, 0x10DA7A5A, 0x67DD4ACC,
    0xF9B9DF6F, 0x8EBEEFF9, 0x17B7BE43, 0x60B08ED5, 0xD6D6A3E8, 0xA1D1937E,
    0x38D8C2C4, 0x4FDFF252, 0xD1BB67F1, 0xA6BC5767, 0x3FB506DD, 0x48B2364B,
    0xD80D2BDA, 0xAF0A1B4C, 0x36034AF6, 0x41047A60, 0xDF60EFC3, 0xA867DF55,
    0x316E8EEF, 0x4669BE79, 0xCB61B38C, 0xBC66831A, 0x256FD2A0, 0x5268E236,
    0xCC0C7795, 0xBB0B4703, 0x220216B9, 0x5505262F, 0xC5BA3BBE, 0xB2BD0B28,
    0x2BB45A92, 0x5CB36A04, 0xC2D7FFA7, 0xB5D0CF31, 0x2CD99E8B, 0x5BDEAE1D,
    0x9B64C2B0, 0xEC63F226, 0x756AA39C, 0x026D930A, 0x9C0906A9, 0xEB0E363F,
    0x72076785, 0x05005713, 0x95BF4A82, 0xE2B87A14, 0x7BB12BAE, 0x0CB61B38,
    0x92D28E9B, 0xE5D5BE0D, 0x7CDCEFB7, 0x0BDBDF21, 0x86D3D2D4, 0xF1D4E242,
    0x68DDB3F8, 0x1FDA836E, 0x81BE16CD, 0xF6B9265B, 0x6FB077E1, 0x18B74777,
    0x88085AE6, 0xFF0F6A70, 0x66063BCA, 0x11010B5C, 0x8F659EFF, 0xF862AE69,
    0x616BFFD3, 0x166CCF45, 0xA00AE278, 0xD70DD2EE, 0x4E048354, 0x3903B3C2,
    0xA7672661, 0xD06016F7, 0x4969474D, 0x3E6E77DB, 0xAED16A4A, 0xD9D65ADC,
    0x40DF0B66, 0x37D83BF0, 0xA9BCAE53, 0xDEBB9EC5, 0x47B2CF7F, 0x30B5FFE9,
    0xBDBDF21C, 0xCABAC28A, 0x53B39330, 0x24B4A3A6, 0xBAD03605, 0xCDD70693,
    0x54DE5729, 0x23D967BF, 0xB3667A2E, 0xC4614AB8, 0x5D681B02, 0x2A6F2B94,
    0xB40BBE37, 0xC30C8EA1, 0x5A05DF1B, 0x2D02EF8D
  ]

/-- One byte of the table-driven CRC-32: `table[(crc ^ b) & 0xFF] ^ (crc >> 8)`. -/
def crc32ReferenceByte (crc b : Nat) : Nat :=
  crc32Table.getD ((crc ^^^ b) &&& 0xFF) 0 ^^^ (crc >>> 8)

/-- The table-driven reference CRC-32 of a byte sequence: initial register `0xFFFFFFFF`,
final XOR `0xFFFFFFFF`. -/
def crc32Reference (data : List Nat) : Nat :=
  data.foldl crc32ReferenceByte 0xFFFFFFFF ^^^ 0xFFFFFFFF

/-- The value of a byte sequence read as a big-endian unsigned integer. -/
def bigEndian (bytes : List Nat) : Nat := bytes.foldl (fun acc b => acc * 256 + b) 0

/-- The big-endian encoding of `n` on `width` bytes. -/
def encodeBE (width n : Nat) : List Nat :=
  (List.range width).map (fun k => n / 256 ^ (width - 1 - k) % 256)

/-- The bytes `off .. off + len - 1` of a buffer. -/
def slice (buf : List Nat) (off len : Nat) : List Nat := (buf.drop off).take len

/-- The 112 bytes of flash that start at `addr`. -/
def headerRegion (flash : FlashUpdater) (addr : Nat) : List Nat :=
  (List.range 112).map (fun k => flash.mem (addr + k) % 256)

/-- A version-2 header as an image builder lays it out: magic, header version, firmware
version, firmware size, hash, 32 unused bytes, campaign and signature size at the offsets
0, 4, 8, 16, 24, 56, 88 and 104, followed at offset 108 by the standard CRC-32 of the 108
bytes before it; all integers big-endian. -/
def encodeHeaderV2 (firmwareVersion firmwareSize : Nat) (hash unused campaign : List Nat)
    (signatureSize : Nat) : List Nat :=
  let fields :=
    encodeBE 4 0x5a51b3d4 ++ (encodeBE 4 2 ++ (encodeBE 8 firmwareVersion ++
      (encodeBE 8 firmwareSize ++ (hash ++ (unused ++ (campaign ++ encodeBE 4 signatureSize))))))
  fields ++ encodeBE 4 (crc32Reference fields)

/-- The flash with the bit `bit` of the byte at address `addr` inverted. -/
def flipBit (flash : FlashUpdater) (addr bit : Nat) : FlashUpdater :=
  { flash with mem := fun a => if a = addr then (flash.mem a % 256) ^^^ 2 ^ bit else flash.mem a }

/-- The header after a successful decode of `region`. -/
def decodedHeader (h : ApplicationHeader) (region : List Nat) : ApplicationHeader :=
  { h with
    initialized := true
    magic := parseUint32 region
    headerVersion := parseUint32 (region.drop 4)
    firmwareVersion := parseUint64 (region.drop 8)
    firmwareSize := parseUint64 (region.drop 16)
    hash := bytesOf (region.drop 24) 32
    campaign := bytesOf (region.drop 88) 16
    state := VALID }

/-- The header after a decode of `region` that fails on the magic, the version or the
checksum. -/
def rejectedHeader (h : ApplicationHeader) (region : List Nat) : ApplicationHeader :=
  { h with
    initialized := true
    magic := parseUint32 region
    headerVersion := parseUint32 (region.drop 4)
    state := NOT_VALID }

/-- An application that `isNewerThan` treats as a baseline to compare versions with: header
version at least 2, non-zero firmware size, state not `NOT_VALID`. -/
def usable (h : ApplicationHeader) : Prop :=
  ¬ (h.headerVersion < kHeaderVersionV2 ∨ h.firmwareSize = 0 ∨ h.state = NOT_VALID)

instance (h : ApplicationHeader) : Decidable (usable h) := by
  unfold usable
  exact inferInstance

/-- The property of the scan state of `hasValidNewerApplication` before slot `k` is visited.
`arr` is the candidate array at the start of the scan and `act` the active application with
its header read. -/
def ScanInv (sha256 : List Nat → List Nat) (flash : FlashUpdater) (n : Nat)
    (arr : List (Option MbedApplication)) (act : MbedApplication) (k : Nat) (st : ScanState) :
    Prop :=
  (∀ j, k ≤ j → st.candidates.getD j none = arr.getD j none) ∧
  ensureHeader flash st.active = act ∧
  (0 < k → st.active = act) ∧
  ((st.newestSlotIndex = n ∧
      ∀ j a, j < k → arr.getD j none = some a →
        ¬ (newerHeader (readApplicationHeader flash a).2._applicationHeader
              act._applicationHeader = true ∧
            (checkApplication sha256 flash a).1 = UC_ERR_NONE)) ∨
    (∃ b ab, st.newestSlotIndex = b ∧ b < k ∧ arr.getD b none = some ab ∧
      st.candidates.getD b none = some (readApplicationHeader flash ab).2 ∧
      (checkApplication sha256 flash ab).1 = UC_ERR_NONE ∧
      newerHeader (readApplicationHeader flash ab).2._applicationHeader
        act._applicationHeader = true ∧
      ∀ j a, j < k → arr.getD j none = some a →
        (checkApplication sha256 flash a).1 = UC_ERR_NONE →
        (readApplicationHeader flash a).2._applicationHeader.firmwareVersion ≤
            (readApplicationHeader flash ab).2._applicationHeader.firmwareVersion ∧
          ((readApplicationHeader flash a).2._applicationHeader.firmwareVersion =
              (readApplicationHeader flash ab).2._applicationHeader.firmwareVersion → b ≤ j)))

/-- The declared firmware body of an application whose header is read: the `firmwareSize`
bytes of flash that start at the body address. -/
def bodyBytes (flash : FlashUpdater) (app : MbedApplication) : List Nat :=
  (List.range app._applicationHeader.firmwareSize).map
    (fun k => flash.mem (app._applicationAddress + k) % 256)

/-- The page operations of a copy of `count` pages of `pageSize` bytes in which every
operation succeeds, from page number `k` on: for each page a read at the source address and
then a write at the destination address of that page (32-bit addresses). -/
def copyTrace (sourceAddr destAddr pageSize : Nat) : Nat → Nat → List PageOp
  | 0, _ => []
  | count + 1, k =>
    PageOp.read ((sourceAddr + k * pageSize) % 2 ^ 32) UC_ERR_NONE ::
      PageOp.write ((destAddr + k * pageSize) % 2 ^ 32) UC_ERR_NONE ::
      copyTrace sourceAddr destAddr pageSize count (k + 1)
/-! ## Concrete inputs -/

/-- A stand-in for the SHA-256 digest, used only to evaluate the definitions on concrete
inputs: 32 copies of the sum of the bytes modulo 256. -/
def sumDigest (bytes : List Nat) : List Nat :=
  List.replicate 32 (bytes.foldl (fun acc b => acc + b) 0 % 256)

/-- A stored image: the version-2 header of `body` (digest `sumDigest body`, zero campaign),
followed by the body. -/
def imageOf (firmwareVersion : Nat) (body : List Nat) : List Nat :=
  encodeHeaderV2 firmwareVersion body.length (sumDigest body) (List.replicate 32 0)
    (List.replicate 16 0) 0 ++ body

/-- A stored image whose header carries a digest that is not the digest of its body. -/
def imageWrongHash (firmwareVersion : Nat) (body : List Nat) : List Nat :=
  encodeHeaderV2 firmwareVersion body.length (sumDigest (1 :: body)) (List.replicate 32 0)
    (List.replicate 16 0) 0 ++ body

/-- A flash without read failures and with uniform 4096-byte sectors that holds the given
`(address, bytes)` images and is erased (`0xFF`) elsewhere. -/
def flashOf (images : List (Nat × List Nat)) : FlashUpdater :=
  { mem := fun a =>
      match images.find? (fun im => decide (im.1 ≤ a ∧ a < im.1 + im.2.length)) with
      | some im => im.2.getD (a - im.1) 0
      | none => 0xFF
    readFails := fun _ _ => false
    alignAddressToSector := fun address roundDown =>
      if roundDown then address / 4096 * 4096 else (address + 4095) / 4096 * 4096 }

/-- A flash holding one image of version 5 with the body `[1, 2, 3]` at address 0. -/
def flashOneImage : FlashUpdater := flashOf [(0, imageOf 5 [1, 2, 3])]

/-- The active image used in the scan examples: version 3 with the body `[9]`, header at
address 0 and body at address 112. -/
def activeImage : Nat × List Nat := (0, imageOf 3 [9])

/-- Three slots of one sector each from address 65536: slot 0 holds version 5 with a digest
that is not the digest of its body, slot 1 holds a valid version 4, slot 2 a valid
version 6. -/
def flashThreeSlots : FlashUpdater :=
  flashOf [activeImage, (65536, imageWrongHash 5 [1]), (69632, imageOf 4 [2]),
    (73728, imageOf 6 [3])]

/-- One slot at address 65536 holding a valid image of version 2. -/
def flashSlotOlder : FlashUpdater := flashOf [activeImage, (65536, imageOf 2 [1])]

/-- One slot at address 65536 holding version 5 with a digest that is not the digest of its
body. -/
def flashSlotWrongHash : FlashUpdater := flashOf [activeImage, (65536, imageWrongHash 5 [1])]

/-- One slot at address 65536 holding a valid image of version 5. -/
def flashSlotNewer : FlashUpdater := flashOf [activeImage, (65536, imageOf 5 [1])]

/-- No active image (erased flash at address 0) and one slot at address 65536 holding a valid
image of version 0. -/
def flashNoActive : FlashUpdater := flashOf [(65536, imageOf 0 [1])]

/-- One slot at address 65536 whose header declares version 5, a body of 300 bytes and the
digest of the first 256 of them; the read of the second chunk of the body (address
65536 + 112 + 256) fails. -/
def flashReadFailure : FlashUpdater :=
  { flashOf [activeImage,
      (65536, encodeHeaderV2 5 300 (sumDigest (List.replicate 256 1)) (List.replicate 32 0)
        (List.replicate 16 0) 0 ++ List.replicate 300 1)] with
    readFails := fun addr _ => decide (addr = 65536 + 112 + 256) }

/-- The single-slot collection of the examples: storage of one 4096-byte sector at address
65536, header size 112. -/
def oneSlot (flash : FlashUpdater) : CandidateApplications :=
  CandidateApplications.new 1 flash 65536 4096 112 1

/-- The result of a scan without the objects: the returned flag and `newestSlotIndex`. -/
def scanOutcome (r : Option (Bool × Nat × List (Option MbedApplication) × MbedApplication)) :
    Option (Bool × Nat) :=
  r.map (fun x => (x.1, x.2.1))

/-- Two images for the version comparison: version 5 at address 0, version 3 at address
4096. -/
def flashTwoImages : FlashUpdater := flashOf [(0, imageOf 5 [1, 2, 3]), (4096, imageOf 3 [9])]

/-- One slot at address 65536 holding a valid image of version 5 with a body of 300 bytes;
the read of the second chunk of the body (address 65536 + 112 + 256) fails. -/
def flashReadFailureValid : FlashUpdater :=
  { flashOf [activeImage, (65536, imageOf 5 (List.replicate 300 1))] with
    readFails := fun addr _ => decide (addr = 65536 + 112 + 256) }

/-- An image whose header declares a body of `2 ^ 32 + 1` bytes and carries the digest of
the single byte `[1]`, followed by the two stored bytes `[1, 1]`. -/
def hugeImage : List Nat :=
  encodeHeaderV2 5 (2 ^ 32 + 1) (sumDigest [1]) (List.replicate 32 0) (List.replicate 16 0) 0 ++
    [1, 1]

/-- A flash without read failures that holds `hugeImage` at address 0 and is erased (`0xFF`)
elsewhere. -/
def flashHuge : FlashUpdater :=
  { mem := fun a => hugeImage.getD a 0xFF
    readFails := fun _ _ => false
    alignAddressToSector := fun address roundDown =>
      if roundDown then address / 4096 * 4096 else (address + 4095) / 4096 * 4096 }

/-- Three slots of one sector each from address 65536: slot 0 holds a valid version 5, slot 1
a valid version 4, slot 2 holds version 6 with a digest that is not the digest of its
body. -/
def flashSkipSlot : FlashUpdater :=
  flashOf [activeImage, (65536, imageOf 5 [1]), (69632, imageOf 4 [2]),
    (73728, imageWrongHash 6 [3])]

/-- A paged flash over the given flash: uniform 4096-byte sectors, the given page size and
page read codes, and erase and program operations that always succeed. -/
def pagedOf (flash : FlashUpdater) (pageSize : Nat) (readPageCode : Nat → UCError) :
    PagedFlash :=
  { toFlashUpdater := flash
    get_page_size := pageSize
    get_sector_size := fun _ => 4096
    readPageCode := readPageCode
    eraseCode := fun _ => UC_ERR_NONE
    programCode := fun _ => UC_ERR_NONE }

/-- The flash `flashHuge` with pages of 256 bytes on which every page operation succeeds. -/
def pagedHuge : PagedFlash := pagedOf flashHuge 256 (fun _ => UC_ERR_NONE)

/-- The flash `flashSlotNewer` with pages of 64 bytes on which every page operation
succeeds. -/
def pagedSlotNewer : PagedFlash := pagedOf flashSlotNewer 64 (fun _ => UC_ERR_NONE)

/-- The flash `flashSlotNewer` with pages of 64 bytes on which the page read at address
65600, the second page of slot 0, fails. -/
def pagedReadFailure : PagedFlash :=
  pagedOf flashSlotNewer 64
    (fun addr => if addr = 65600 then UC_ERR_READING_FLASH else UC_ERR_NONE)

/-- A flash that starts at `origin`, is made of sectors of the given sizes, is erased
(`0xFF`) everywhere and has no read failures. -/
def sectorFlash (origin : Nat) (sectors : List Nat) : FlashUpdater :=
  { mem := fun _ => 0xFF
    readFails := fun _ _ => false
    alignAddressToSector := alignToSector origin sectors }

/-- The application object constructed at `addr` with its body at `bodyAddr` after a
successful read of a version-2 header with the given firmware version, firmware size and
hash and a zero campaign. -/
def decodedApplication (addr bodyAddr firmwareVersion firmwareSize : Nat) (hash : List Nat) :
    MbedApplication :=
  { _applicationHeaderAddress := addr
    _applicationAddress := bodyAddr
    _applicationHeader :=
      { initialized := true
        magic := 0x5a51b3d4
        headerVersion := 2
        firmwareVersion := firmwareVersion
        firmwareSize := firmwareSize
        hash := hash
        campaign := List.replicate 16 0
        signatureSize := 0
        state := VALID } }

/-! # Properties -/

/-! ## CRC-32: the bit step is linear and injective -/

theorem crc32Bit_eq (x : Nat) :
    crc32Bit x = (x / 2) ^^^ (if x % 2 = 1 then 0xEDB88320 else 0) := by
  unfold crc32Bit
  rw [Nat.and_one_is_mod, Nat.shiftRight_eq_div_pow]
  rcases Nat.mod_two_eq_zero_or_one x with h | h <;> simp [h]

theorem xor_xor_xor_swap (a p b q : Nat) : (a ^^^ p) ^^^ (b ^^^ q) = (a ^^^ b) ^^^ (p ^^^ q) := by
  apply Nat.eq_of_testBit_eq
  intro i
  simp only [Nat.testBit_xor]
  cases a.testBit i <;> cases p.testBit i <;> cases b.testBit i <;> cases q.testBit i <;> rfl

theorem crc32Bit_xor (x y : Nat) : crc32Bit (x ^^^ y) = crc32Bit x ^^^ crc32Bit y := by
  simp only [crc32Bit_eq, Nat.xor_div_two]
  rw [xor_xor_xor_swap]
  congr 1
  have hm : (x ^^^ y) % 2 = (x % 2 + y % 2) % 2 := by rw [Nat.xor_mod_two_eq, Nat.add_mod]
  rw [hm]
  rcases Nat.mod_two_eq_zero_or_one x with hx | hx <;>
    rcases Nat.mod_two_eq_zero_or_one y with hy | hy <;> simp [hx, hy]

theorem crc32Bit_lt {x : Nat} (h : x < 2 ^ 32) : crc32Bit x < 2 ^ 32 := by
  rw [crc32Bit_eq]
  apply Nat.xor_lt_two_pow
  · omega
  · split <;> decide

theorem crc32Bits_xor (n x y : Nat) : crc32Bits n (x ^^^ y) = crc32Bits n x ^^^ crc32Bits n y := by
  induction n generalizing x y with
  | zero => rfl
  | succ n ih => simp only [crc32Bits, crc32Bit_xor, ih]

theorem crc32Bits_lt (n : Nat) {x : Nat} (h : x < 2 ^ 32) : crc32Bits n x < 2 ^ 32 := by
  induction n generalizing x with
  | zero => exact h
  | succ n ih => exact ih (crc32Bit_lt h)

/-- Bit 31 of the register after one turn tells whether the polynomial was applied. -/
theorem crc32Bit_testBit31 {x : Nat} (h : x < 2 ^ 32) :
    (crc32Bit x).testBit 31 = decide (x % 2 = 1) := by
  rw [crc32Bit_eq, Nat.testBit_xor]
  have h1 : (x / 2).testBit 31 = false := Nat.testBit_lt_two_pow (by omega)
  rw [h1]
  have hP : Nat.testBit 3988292384 31 = true := by decide
  split
  · simp_all
  · simp_all

theorem crc32Bit_injective {x y : Nat} (hx : x < 2 ^ 32) (hy : y < 2 ^ 32)
    (h : crc32Bit x = crc32Bit y) : x = y := by
  have hp : decide (x % 2 = 1) = decide (y % 2 = 1) := by
    rw [← crc32Bit_testBit31 hx, ← crc32Bit_testBit31 hy, h]
  have hp2 : (x % 2 = 1) ↔ (y % 2 = 1) := by simpa using hp
  rw [crc32Bit_eq, crc32Bit_eq] at h
  have hd : x / 2 = y / 2 := by
    by_cases hx1 : x % 2 = 1
    · have hy1 := hp2.mp hx1
      rw [if_pos hx1, if_pos hy1] at h
      exact Nat.xor_left_injective h
    · have hy1 : ¬ y % 2 = 1 := fun hh => hx1 (hp2.mpr hh)
      rw [if_neg hx1, if_neg hy1] at h
      simpa using h
  omega

theorem crc32Bits_injective (n : Nat) {x y : Nat} (hx : x < 2 ^ 32) (hy : y < 2 ^ 32)
    (h : crc32Bits n x = crc32Bits n y) : x = y := by
  induction n generalizing x y with
  | zero => exact h
  | succ n ih => exact crc32Bit_injective hx hy (ih (crc32Bit_lt hx) (crc32Bit_lt hy) h)

theorem crc32Bit_double (k : Nat) : crc32Bit (2 * k) = k := by
  rw [crc32Bit_eq]
  have h1 : 2 * k % 2 = 0 := by omega
  have h2 : 2 * k / 2 = k := by omega
  simp [h1, h2]

theorem crc32Bits_shiftLeft (n h : Nat) : crc32Bits n (h <<< n) = h := by
  induction n with
  | zero => simp [crc32Bits]
  | succ n ih => rw [crc32Bits, Nat.shiftLeft_succ, crc32Bit_double, ih]

theorem split_low_high (x : Nat) : x = (x % 2 ^ 8) ^^^ ((x >>> 8) <<< 8) := by
  apply Nat.eq_of_testBit_eq
  intro i
  rw [Nat.testBit_xor, Nat.testBit_mod_two_pow, Nat.testBit_shiftLeft, Nat.testBit_shiftRight]
  by_cases h : i < 8
  · have h2 : ¬ i ≥ 8 := by omega
    simp [h, h2]
  · have h2 : i ≥ 8 := by omega
    have h3 : 8 + (i - 8) = i := by omega
    simp [h, h2, h3]

theorem crc32Bits_split (x : Nat) : crc32Bits 8 x = crc32Bits 8 (x % 2 ^ 8) ^^^ (x >>> 8) := by
  conv_lhs => rw [split_low_high x]
  rw [crc32Bits_xor, crc32Bits_shiftLeft]

theorem xor_byte_shiftRight (crc b : Nat) (hb : b < 256) : (crc ^^^ b) >>> 8 = crc >>> 8 := by
  apply Nat.eq_of_testBit_eq
  intro i
  rw [Nat.testBit_shiftRight, Nat.testBit_shiftRight, Nat.testBit_xor]
  have : b.testBit (8 + i) = false := by
    apply Nat.testBit_lt_two_pow
    calc b < 2 ^ 8 := hb
      _ ≤ 2 ^ (8 + i) := Nat.pow_le_pow_right (by decide) (by omega)
  simp [this]

theorem crc32Loop_append (l1 l2 : List Nat) (c : Nat) :
    crc32Loop (l1 ++ l2) c = crc32Loop l2 (crc32Loop l1 c) := by
  induction l1 generalizing c with
  | nil => rfl
  | cons b l ih => exact ih (crc32Byte c b)

theorem crc32Byte_lt {c b : Nat} (hc : c < 2 ^ 32) (hb : b < 256) : crc32Byte c b < 2 ^ 32 := by
  unfold crc32Byte
  apply crc32Bits_lt
  exact Nat.xor_lt_two_pow hc (by omega)

theorem crc32Byte_ne_left {c1 c2 b : Nat} (h1 : c1 < 2 ^ 32) (h2 : c2 < 2 ^ 32) (hb : b < 256)
    (hne : c1 ≠ c2) : crc32Byte c1 b ≠ crc32Byte c2 b := by
  intro h
  unfold crc32Byte at h
  have hb32 : b < 2 ^ 32 := by omega
  have := crc32Bits_injective 8 (Nat.xor_lt_two_pow h1 hb32) (Nat.xor_lt_two_pow h2 hb32) h
  exact hne (Nat.xor_left_injective this)

theorem crc32Byte_ne_right {c b1 b2 : Nat} (hc : c < 2 ^ 32) (hb1 : b1 < 256) (hb2 : b2 < 256)
    (hne : b1 ≠ b2) : crc32Byte c b1 ≠ crc32Byte c b2 := by
  intro h
  unfold crc32Byte at h
  have h1 : b1 < 2 ^ 32 := by omega
  have h2 : b2 < 2 ^ 32 := by omega
  have := crc32Bits_injective 8 (Nat.xor_lt_two_pow hc h1) (Nat.xor_lt_two_pow hc h2) h
  exact hne (Nat.xor_right_injective this)

theorem crc32Loop_ne_of_ne (l : List Nat) (hl : ∀ b ∈ l, b < 256) {c1 c2 : Nat}
    (h1 : c1 < 2 ^ 32) (h2 : c2 < 2 ^ 32) (hne : c1 ≠ c2) :
    crc32Loop l c1 ≠ crc32Loop l c2 := by
  induction l generalizing c1 c2 with
  | nil => exact hne
  | cons b l ih =>
    have hb : b < 256 := hl b (List.mem_cons_self _ _)
    simp only [crc32Loop]
    exact ih (fun x hx => hl x (List.mem_cons_of_mem _ hx)) (crc32Byte_lt h1 hb)
      (crc32Byte_lt h2 hb) (crc32Byte_ne_left h1 h2 hb hne)

/-- Two byte sequences of the same length that differ in exactly one position leave the
register of the `crc32` loop in different values. -/
theorem crc32Loop_single_diff (l1 l2 : List Nat) (hlen : l1.length = l2.length) (k : Nat)
    (hk : k < l1.length) (hne : l1.getD k 0 ≠ l2.getD k 0)
    (heq : ∀ i, i ≠ k → l1.getD i 0 = l2.getD i 0)
    (hb1 : ∀ b ∈ l1, b < 256) (hb2 : ∀ b ∈ l2, b < 256) (c : Nat) (hc : c < 2 ^ 32) :
    crc32Loop l1 c ≠ crc32Loop l2 c := by
  induction l1 generalizing l2 k c with
  | nil => simp at hk
  | cons a l1 ih =>
    cases l2 with
    | nil => simp at hlen
    | cons b l2 =>
      have ha : a < 256 := hb1 a (List.mem_cons_self _ _)
      have hb : b < 256 := hb2 b (List.mem_cons_self _ _)
      have hl1 : ∀ x ∈ l1, x < 256 := fun x hx => hb1 x (List.mem_cons_of_mem _ hx)
      have hl2 : ∀ x ∈ l2, x < 256 := fun x hx => hb2 x (List.mem_cons_of_mem _ hx)
      simp only [crc32Loop]
      cases k with
      | zero =>
        have hab : a ≠ b := by simpa using hne
        have htl : l1 = l2 := by
          apply List.ext_getElem (by simpa using hlen)
          intro i h1 h2
          have := heq (i + 1) (by omega)
          simpa [List.getD_eq_getElem?_getD, h1, h2] using this
        rw [htl]
        exact crc32Loop_ne_of_ne l2 hl2 (crc32Byte_lt hc ha) (crc32Byte_lt hc hb)
          (crc32Byte_ne_right hc ha hb hab)
      | succ k =>
        have hab : a = b := by simpa using heq 0 (by omega)
        subst hab
        apply ih l2 (by simpa using hlen) k (by simpa using hk)
        · simpa using hne
        · intro i hi
          have := heq (i + 1) (by omega)
          simpa using this
        · exact hl1
        · exact hl2
        · exact crc32Byte_lt hc ha

theorem crc32Table_eq : crc32Table = (List.range 256).map (crc32Bits 8) := by decide!

theorem crc32Table_getD (i : Nat) (h : i < 256) : crc32Table.getD i 0 = crc32Bits 8 i := by
  rw [crc32Table_eq, List.getD_eq_getElem?_getD, List.getElem?_map,
    List.getElem?_range h]
  rfl

theorem crc32Byte_eq_reference (crc b : Nat) (hb : b < 256) :
    crc32Byte crc b = crc32ReferenceByte crc b := by
  unfold crc32Byte crc32ReferenceByte
  rw [crc32Bits_split, xor_byte_shiftRight crc b hb]
  have hidx : (crc ^^^ b) &&& 0xFF = (crc ^^^ b) % 2 ^ 8 :=
    Nat.and_pow_two_sub_one_eq_mod (crc ^^^ b) 8
  rw [hidx, crc32Table_getD ((crc ^^^ b) % 2 ^ 8) (Nat.mod_lt _ (by decide))]

theorem crc32Loop_eq_foldl_reference (data : List Nat) (hd : ∀ b ∈ data, b < 256) (c : Nat) :
    crc32Loop data c = data.foldl crc32ReferenceByte c := by
  induction data generalizing c with
  | nil => rfl
  | cons b l ih =>
    rw [crc32Loop, List.foldl_cons,
      crc32Byte_eq_reference c b (hd b (List.mem_cons_self _ _))]
    exact ih (fun x hx => hd x (List.mem_cons_of_mem _ hx)) _

theorem byteAt_lt (p : List Nat) (i : Nat) : byteAt p i < 256 := Nat.mod_lt _ (by decide)

theorem bytesOf_lt (p : List Nat) (n : Nat) : ∀ b ∈ bytesOf p n, b < 256 := by
  intro b hb
  simp only [bytesOf, List.mem_map] at hb
  obtain ⟨i, _, rfl⟩ := hb
  exact byteAt_lt p i

theorem bytesOf_length (p : List Nat) (n : Nat) : (bytesOf p n).length = n := by
  simp [bytesOf]

/-- A sequence of bytes is returned unchanged by the byte loads over its full length. -/
theorem bytesOf_self (data : List Nat) (hd : ∀ b ∈ data, b < 256) :
    bytesOf data data.length = data := by
  apply List.ext_getElem (by simp [bytesOf])
  intro i h1 h2
  have hlt : data[i] < 256 := hd _ (List.getElem_mem _)
  simp [bytesOf, byteAt, List.getD_eq_getElem?_getD, h2, Nat.mod_eq_of_lt hlt]

/-- C10: `crc32` is the standard CRC-32/ISO-HDLC: on every buffer and length it equals the
table-driven reference CRC-32 (reflected polynomial `0xEDB88320`, initial register
`0xFFFFFFFF`, final XOR `0xFFFFFFFF`) of the bytes it is given, a sequence of bytes is what
the byte loads return, the CRC of the empty sequence is 0 and the CRC of the ASCII bytes
"123456789" is `0xCBF43926`. -/
theorem crc32_eq_reference :
    (∀ (pBuffer : List Nat) (length : Nat),
        crc32 pBuffer length = crc32Reference (bytesOf pBuffer length)) ∧
    (∀ data : List Nat, (∀ b ∈ data, b < 256) →
        crc32 data data.length = crc32Reference data) ∧
    crc32 [] 0 = 0 ∧
    crc32 [0x31, 0x32, 0x33, 0x34, 0x35, 0x36, 0x37, 0x38, 0x39] 9 = 0xCBF43926 := by
  have h1 : ∀ (pBuffer : List Nat) (length : Nat),
      crc32 pBuffer length = crc32Reference (bytesOf pBuffer length) := by
    intro pBuffer length
    unfold crc32 crc32Reference
    rw [crc32Loop_eq_foldl_reference _ (bytesOf_lt pBuffer length)]
  refine ⟨h1, ?_, by decide!, by decide!⟩
  intro data hd
  rw [h1, bytesOf_self data hd]

/-! ## Byte loads and big-endian values -/

theorem byteAt_drop (p : List Nat) (k i : Nat) : byteAt (p.drop k) i = byteAt p (k + i) := by
  simp [byteAt, List.getD_eq_getElem?_getD, List.getElem?_drop]

theorem byteAt_map_range (f : Nat → Nat) (n i : Nat) (h : i < n) :
    byteAt ((List.range n).map f) i = f i % 256 := by
  simp [byteAt, List.getD_eq_getElem?_getD, h]

theorem shl8_or (m r b : Nat) (hb : b < 256) (hr : r * 256 < m) :
    ((r <<< 8) % m) ||| b = r * 256 + b := by
  rw [Nat.shiftLeft_eq, Nat.mod_eq_of_lt (by simpa using hr)]
  have h := Nat.mul_add_lt_is_or (i := 8) (by simpa using hb) r
  rw [Nat.mul_comm] at h
  simpa using h.symm

theorem parseUint32_eq (p : List Nat) :
    parseUint32 p =
      byteAt p 0 * 2 ^ 24 + byteAt p 1 * 2 ^ 16 + byteAt p 2 * 2 ^ 8 + byteAt p 3 := by
  have h0 := byteAt_lt p 0
  have h1 := byteAt_lt p 1
  have h2 := byteAt_lt p 2
  have h3 := byteAt_lt p 3
  unfold parseUint32
  simp only []
  rw [shl8_or _ _ _ h1 (by omega), shl8_or _ _ _ h2 (by omega), shl8_or _ _ _ h3 (by omega)]
  omega

theorem parseUint64_eq (p : List Nat) :
    parseUint64 p =
      byteAt p 0 * 2 ^ 56 + byteAt p 1 * 2 ^ 48 + byteAt p 2 * 2 ^ 40 + byteAt p 3 * 2 ^ 32 +
        byteAt p 4 * 2 ^ 24 + byteAt p 5 * 2 ^ 16 + byteAt p 6 * 2 ^ 8 + byteAt p 7 := by
  have h0 := byteAt_lt p 0
  have h1 := byteAt_lt p 1
  have h2 := byteAt_lt p 2
  have h3 := byteAt_lt p 3
  have h4 := byteAt_lt p 4
  have h5 := byteAt_lt p 5
  have h6 := byteAt_lt p 6
  have h7 := byteAt_lt p 7
  unfold parseUint64
  simp only []
  rw [shl8_or _ _ _ h1 (by omega), shl8_or _ _ _ h2 (by omega), shl8_or _ _ _ h3 (by omega),
    shl8_or _ _ _ h4 (by omega), shl8_or _ _ _ h5 (by omega), shl8_or _ _ _ h6 (by omega),
    shl8_or _ _ _ h7 (by omega)]
  omega

theorem slice_eq_map (buf : List Nat) (off len : Nat) (h : off + len ≤ buf.length) :
    slice buf off len = (List.range len).map (fun i => buf.getD (off + i) 0) := by
  apply List.ext_getElem
  · simp [slice]; omega
  · intro i h1 h2
    have hi : i < len := by simpa using h2
    have : off + i < buf.length := by omega
    simp [slice, List.getD_eq_getElem?_getD, this]

theorem slice_bytes (buf : List Nat) (hb : ∀ b ∈ buf, b < 256) (off len : Nat)
    (h : off + len ≤ buf.length) :
    slice buf off len = (List.range len).map (fun i => byteAt buf (off + i)) := by
  rw [slice_eq_map buf off len h]
  apply List.map_congr_left
  intro i hi
  have hi2 : i < len := by simpa using hi
  have hlt : off + i < buf.length := by omega
  have : buf[off + i] < 256 := hb _ (List.getElem_mem _)
  simp [byteAt, List.getD_eq_getElem?_getD, hlt, Nat.mod_eq_of_lt this]

theorem bigEndian_slice4 (buf : List Nat) (hb : ∀ b ∈ buf, b < 256) (off : Nat)
    (h : off + 4 ≤ buf.length) : bigEndian (slice buf off 4) = parseUint32 (buf.drop off) := by
  rw [slice_bytes buf hb off 4 h, parseUint32_eq]
  simp only [byteAt_drop]
  simp [bigEndian, List.range_succ]
  omega

theorem bigEndian_slice8 (buf : List Nat) (hb : ∀ b ∈ buf, b < 256) (off : Nat)
    (h : off + 8 ≤ buf.length) : bigEndian (slice buf off 8) = parseUint64 (buf.drop off) := by
  rw [slice_bytes buf hb off 8 h, parseUint64_eq]
  simp only [byteAt_drop]
  simp [bigEndian, List.range_succ]
  omega

theorem slice_eq_bytesOf (buf : List Nat) (hb : ∀ b ∈ buf, b < 256) (off len : Nat)
    (h : off + len ≤ buf.length) : slice buf off len = bytesOf (buf.drop off) len := by
  rw [slice_bytes buf hb off len h]
  simp [bytesOf, byteAt_drop]

/-! ## Header decoding -/

theorem read_of_not_fails (flash : FlashUpdater) (addr size : Nat)
    (h : flash.readFails addr size = false) :
    flash.read addr size = some ((List.range size).map (fun k => flash.mem (addr + k) % 256)) := by
  simp [FlashUpdater.read, h]

theorem headerRegion_lt (flash : FlashUpdater) (addr : Nat) :
    ∀ b ∈ headerRegion flash addr, b < 256 := by
  intro b hb
  simp only [headerRegion, List.mem_map] at hb
  obtain ⟨i, _, rfl⟩ := hb
  exact Nat.mod_lt _ (by decide)

theorem headerRegion_length (flash : FlashUpdater) (addr : Nat) :
    (headerRegion flash addr).length = 112 := by
  simp [headerRegion]

theorem byteAt_headerRegion (flash : FlashUpdater) (addr i : Nat) (h : i < 112) :
    byteAt (headerRegion flash addr) i = flash.mem (addr + i) % 256 := by
  rw [headerRegion, byteAt_map_range _ _ _ h, Nat.mod_mod]

/-- The first read of `readApplicationHeader` (8 bytes) sees the first 8 bytes of the region. -/
theorem parse_version_buffer (flash : FlashUpdater) (addr : Nat) :
    parseUint32 ((List.range 8).map (fun k => flash.mem (addr + k) % 256)) =
        parseUint32 (headerRegion flash addr) ∧
    parseUint32 (((List.range 8).map (fun k => flash.mem (addr + k) % 256)).drop 4) =
        parseUint32 ((headerRegion flash addr).drop 4) := by
  simp only [parseUint32_eq, byteAt_drop]
  constructor
  · rw [byteAt_map_range _ _ _ (by decide), byteAt_map_range _ _ _ (by decide),
      byteAt_map_range _ _ _ (by decide), byteAt_map_range _ _ _ (by decide),
      byteAt_headerRegion _ _ _ (by decide), byteAt_headerRegion _ _ _ (by decide),
      byteAt_headerRegion _ _ _ (by decide), byteAt_headerRegion _ _ _ (by decide)]
    simp
  · rw [byteAt_map_range _ _ _ (by decide), byteAt_map_range _ _ _ (by decide),
      byteAt_map_range _ _ _ (by decide), byteAt_map_range _ _ _ (by decide),
      byteAt_headerRegion _ _ _ (by decide), byteAt_headerRegion _ _ _ (by decide),
      byteAt_headerRegion _ _ _ (by decide), byteAt_headerRegion _ _ _ (by decide)]
    simp

/-- `readApplicationHeader` when both of its reads succeed, in terms of the header region. -/
theorem readApplicationHeader_of_reads (flash : FlashUpdater) (app : MbedApplication)
    (h8 : flash.readFails app._applicationHeaderAddress 8 = false)
    (h112 : flash.readFails app._applicationHeaderAddress 112 = false) :
    readApplicationHeader flash app =
      if parseUint32 ((headerRegion flash app._applicationHeaderAddress).drop 4) ≠ 2 ∨
          parseUint32 (headerRegion flash app._applicationHeaderAddress) ≠ 0x5a51b3d4 then
        (UC_ERR_INVALID_HEADER,
          { app with _applicationHeader :=
              (rejectedHeader app._applicationHeader
                (headerRegion flash app._applicationHeaderAddress)) })
      else if parseUint32 ((headerRegion flash app._applicationHeaderAddress).drop 108) ≠
          crc32 (headerRegion flash app._applicationHeaderAddress) 108 then
        (UC_ERR_INVALID_CHECKSUM,
          { app with _applicationHeader :=
              (rejectedHeader app._applicationHeader
                (headerRegion flash app._applicationHeaderAddress)) })
      else
        (UC_ERR_NONE,
          { app with _applicationHeader :=
              (decodedHeader app._applicationHeader
                (headerRegion flash app._applicationHeaderAddress)) }) := by
  obtain ⟨hm, hv⟩ := parse_version_buffer flash app._applicationHeaderAddress
  have hr : flash.read app._applicationHeaderAddress kHeaderSizeV2 =
      some (headerRegion flash app._applicationHeaderAddress) := by
    rw [kHeaderSizeV2, read_of_not_fails _ _ _ h112]
    simp [headerRegion]
  unfold readApplicationHeader
  rw [read_of_not_fails _ _ _ h8]
  simp only [hr, hm, hv]
  generalize headerRegion flash app._applicationHeaderAddress = region
  by_cases h1 : parseUint32 (List.drop 4 region) = 2
  · by_cases h2 : parseUint32 region = 1515303892
    · by_cases h3 : parseUint32 (region.drop 108) = crc32 region 108
      · simp [h1, h2, h3, parseInternalHeaderV2, finishReadHeader, decodedHeader,
          kHeaderCrcOffsetV2, kFirmwareVersionOffsetV2, kFirmwareSizeOffsetV2, kHashOffsetV2,
          kCampaingOffetV2, SHA256_SIZE, GUID_SIZE, kHeaderVersionV2, KheaderMagicV2]
      · simp [h1, h2, h3, parseInternalHeaderV2, finishReadHeader, rejectedHeader,
          kHeaderCrcOffsetV2, kHeaderVersionV2, KheaderMagicV2]
    · simp [h1, h2, finishReadHeader, rejectedHeader, kHeaderVersionV2, KheaderMagicV2]
  · simp [h1, finishReadHeader, rejectedHeader, kHeaderVersionV2]

/-- C7: when both reads of the 112-byte header region succeed, header decoding returns
`InvalidHeader` iff the big-endian u32 at offset 4 is not 2 or the big-endian u32 at offset 0
is not `0x5a51b3d4`; otherwise it returns `InvalidChecksum` iff the big-endian u32 at offset
108 differs from `crc32` of bytes 0..107; otherwise it succeeds with firmwareVersion and
firmwareSize the big-endian u64 at offsets 8 and 16, hash the bytes 24..55 and campaign the
bytes 88..103. -/
theorem readApplicationHeader_decodes (flash : FlashUpdater) (app : MbedApplication)
    (h8 : flash.readFails app._applicationHeaderAddress 8 = false)
    (h112 : flash.readFails app._applicationHeaderAddress 112 = false) :
    (((readApplicationHeader flash app).1 = UC_ERR_INVALID_HEADER) ↔
      (bigEndian (slice (headerRegion flash app._applicationHeaderAddress) 4 4) ≠ 2 ∨
        bigEndian (slice (headerRegion flash app._applicationHeaderAddress) 0 4) ≠ 0x5a51b3d4)) ∧
    (¬ (bigEndian (slice (headerRegion flash app._applicationHeaderAddress) 4 4) ≠ 2 ∨
        bigEndian (slice (headerRegion flash app._applicationHeaderAddress) 0 4) ≠ 0x5a51b3d4) →
      (((readApplicationHeader flash app).1 = UC_ERR_INVALID_CHECKSUM) ↔
        bigEndian (slice (headerRegion flash app._applicationHeaderAddress) 108 4) ≠
          crc32 (headerRegion flash app._applicationHeaderAddress) 108)) ∧
    (¬ (bigEndian (slice (headerRegion flash app._applicationHeaderAddress) 4 4) ≠ 2 ∨
        bigEndian (slice (headerRegion flash app._applicationHeaderAddress) 0 4) ≠ 0x5a51b3d4) →
      ¬ (bigEndian (slice (headerRegion flash app._applicationHeaderAddress) 108 4) ≠
          crc32 (headerRegion flash app._applicationHeaderAddress) 108) →
      (readApplicationHeader flash app).1 = UC_ERR_NONE ∧
      (readApplicationHeader flash app).2._applicationHeader.firmwareVersion =
        bigEndian (slice (headerRegion flash app._applicationHeaderAddress) 8 8) ∧
      (readApplicationHeader flash app).2._applicationHeader.firmwareSize =
        bigEndian (slice (headerRegion flash app._applicationHeaderAddress) 16 8) ∧
      (readApplicationHeader flash app).2._applicationHeader.hash =
        slice (headerRegion flash app._applicationHeaderAddress) 24 32 ∧
      (readApplicationHeader flash app).2._applicationHeader.campaign =
        slice (headerRegion flash app._applicationHeaderAddress) 88 16) := by
  have hb := headerRegion_lt flash app._applicationHeaderAddress
  have hl := headerRegion_length flash app._applicationHeaderAddress
  rw [readApplicationHeader_of_reads flash app h8 h112,
    bigEndian_slice4 _ hb 4 (by omega), bigEndian_slice4 _ hb 0 (by omega),
    bigEndian_slice4 _ hb 108 (by omega), bigEndian_slice8 _ hb 8 (by omega),
    bigEndian_slice8 _ hb 16 (by omega), slice_eq_bytesOf _ hb 24 32 (by omega),
    slice_eq_bytesOf _ hb 88 16 (by omega), List.drop_zero]
  generalize headerRegion flash app._applicationHeaderAddress = region
  by_cases h1 : parseUint32 (List.drop 4 region) ≠ 2 ∨ parseUint32 region ≠ 0x5a51b3d4
  · simp [h1]
  · by_cases h2 : parseUint32 (List.drop 108 region) ≠ crc32 region 108
    · simp [h1, h2]
    · simp [h1, h2, decodedHeader]

/-! ## Single-bit corruption of a header -/

theorem flip_lt (b j : Nat) (hb : b < 256) (hj : j < 8) : b ^^^ 2 ^ j < 256 := by
  have h2 : 2 ^ j < 2 ^ 8 := Nat.pow_lt_pow_right (by decide) hj
  exact Nat.xor_lt_two_pow (n := 8) hb h2

theorem flip_ne (b j : Nat) : b ^^^ 2 ^ j ≠ b := by
  intro h
  have h0 : b ^^^ 2 ^ j = b ^^^ 0 := by simpa using h
  have := Nat.xor_right_injective h0
  exact absurd this (Nat.pos_iff_ne_zero.mp (Nat.two_pow_pos j))

theorem byteAt_headerRegion_flip (flash : FlashUpdater) (addr k j i : Nat) (hi : i < 112)
    (hj : j < 8) :
    byteAt (headerRegion (flipBit flash (addr + k) j) addr) i =
      if i = k then byteAt (headerRegion flash addr) k ^^^ 2 ^ j
      else byteAt (headerRegion flash addr) i := by
  rw [byteAt_headerRegion _ _ _ hi]
  by_cases h : i = k
  · subst h
    rw [byteAt_headerRegion _ _ _ hi]
    simp only [flipBit, if_true]
    exact Nat.mod_eq_of_lt (flip_lt _ _ (Nat.mod_lt _ (by decide)) hj)
  · have h2 : ¬ addr + i = addr + k := by omega
    rw [byteAt_headerRegion _ _ _ hi]
    simp [flipBit, h, h2]

theorem reads_of_ok (flash : FlashUpdater) (app : MbedApplication)
    (hok : (readApplicationHeader flash app).1 = UC_ERR_NONE) :
    flash.readFails app._applicationHeaderAddress 8 = false ∧
      flash.readFails app._applicationHeaderAddress 112 = false := by
  unfold readApplicationHeader FlashUpdater.read at hok
  constructor
  · cases h : flash.readFails app._applicationHeaderAddress 8
    · rfl
    · simp [h, finishReadHeader] at hok
  · cases h8 : flash.readFails app._applicationHeaderAddress 8
    · cases h : flash.readFails app._applicationHeaderAddress 112
      · rfl
      · simp only [h8, kHeaderSizeV2, h] at hok
        simp only [Bool.false_eq_true, if_false, if_true] at hok
        split at hok
        · split at hok <;> simp [finishReadHeader] at hok
        · simp [finishReadHeader] at hok
    · simp [h8, finishReadHeader] at hok

/-- The decoding conditions that hold when `readApplicationHeader` succeeds. -/
theorem conditions_of_ok (flash : FlashUpdater) (app : MbedApplication)
    (hok : (readApplicationHeader flash app).1 = UC_ERR_NONE) :
    parseUint32 ((headerRegion flash app._applicationHeaderAddress).drop 4) = 2 ∧
    parseUint32 (headerRegion flash app._applicationHeaderAddress) = 0x5a51b3d4 ∧
    parseUint32 ((headerRegion flash app._applicationHeaderAddress).drop 108) =
      crc32 (headerRegion flash app._applicationHeaderAddress) 108 := by
  obtain ⟨h8, h112⟩ := reads_of_ok flash app hok
  rw [readApplicationHeader_of_reads flash app h8 h112] at hok
  generalize headerRegion flash app._applicationHeaderAddress = region at hok ⊢
  by_cases h1 : parseUint32 (List.drop 4 region) ≠ 2 ∨ parseUint32 region ≠ 0x5a51b3d4
  · simp [h1] at hok
  · by_cases h2 : parseUint32 (List.drop 108 region) ≠ crc32 region 108
    · simp [h1, h2] at hok
    · simp only [not_or, not_not] at h1 h2
      exact ⟨h1.1, h1.2, h2⟩

theorem bytesOf_getD (p : List Nat) (n i : Nat) (h : i < n) :
    (bytesOf p n).getD i 0 = byteAt p i := by
  simp [bytesOf, List.getD_eq_getElem?_getD, h]

theorem crc32_lt (p : List Nat) (n : Nat) : crc32 p n < 2 ^ 32 := by
  unfold crc32
  have hreg : ∀ (l : List Nat) (c : Nat), (∀ b ∈ l, b < 256) → c < 2 ^ 32 →
      crc32Loop l c < 2 ^ 32 := by
    intro l
    induction l with
    | nil => intro c _ hc; exact hc
    | cons b l ih =>
      intro c hl hc
      exact ih _ (fun x hx => hl x (List.mem_cons_of_mem _ hx))
        (crc32Byte_lt hc (hl b (List.mem_cons_self _ _)))
  exact Nat.xor_lt_two_pow (hreg _ _ (bytesOf_lt p n) (by decide)) (by decide)

/-- A single inverted bit in the first 108 bytes of a region changes its `crc32`. -/
theorem crc32_flip_ne (flash : FlashUpdater) (addr k j : Nat) (hk : k < 108) (hj : j < 8) :
    crc32 (headerRegion (flipBit flash (addr + k) j) addr) 108 ≠
      crc32 (headerRegion flash addr) 108 := by
  unfold crc32
  intro h
  have h2 := Nat.xor_left_injective h
  revert h2
  apply crc32Loop_single_diff _ _ (by simp [bytesOf_length]) k (by simpa [bytesOf_length] using hk)
  · rw [bytesOf_getD _ _ _ hk, bytesOf_getD _ _ _ hk,
      byteAt_headerRegion_flip _ _ _ _ _ (by omega) hj, if_pos rfl]
    exact flip_ne _ _
  · intro i hi
    by_cases hlt : i < 108
    · rw [bytesOf_getD _ _ _ hlt, bytesOf_getD _ _ _ hlt,
        byteAt_headerRegion_flip _ _ _ _ _ (by omega) hj, if_neg hi]
    · have e1 := bytesOf_length (headerRegion (flipBit flash (addr + k) j) addr) 108
      have e2 := bytesOf_length (headerRegion flash addr) 108
      rw [List.getD_eq_default _ _ (by omega), List.getD_eq_default _ _ (by omega)]
  · exact bytesOf_lt _ _
  · exact bytesOf_lt _ _
  · decide

/-- C8 (amended): for every header that decodes successfully, inverting one bit of the bytes
8..107 makes decoding fail with `InvalidChecksum`, and inverting one bit of the bytes 0..7
(magic and header version) makes it fail with `InvalidHeader`. -/
theorem readApplicationHeader_bit_flip (flash : FlashUpdater) (app : MbedApplication)
    (k j : Nat) (hk : k < 108) (hj : j < 8)
    (hok : (readApplicationHeader flash app).1 = UC_ERR_NONE) :
    (readApplicationHeader (flipBit flash (app._applicationHeaderAddress + k) j) app).1 =
      if k < 8 then UC_ERR_INVALID_HEADER else UC_ERR_INVALID_CHECKSUM := by
  obtain ⟨h8, h112⟩ := reads_of_ok flash app hok
  obtain ⟨hv, hm, hc⟩ := conditions_of_ok flash app hok
  have hview := fun i (hi : i < 112) =>
    byteAt_headerRegion_flip flash app._applicationHeaderAddress k j i hi hj
  have hcrc := crc32_flip_ne flash app._applicationHeaderAddress k j hk hj
  have hflip := flip_ne (byteAt (headerRegion flash app._applicationHeaderAddress) k) j
  have hfl := flip_lt (byteAt (headerRegion flash app._applicationHeaderAddress) k) j
    (byteAt_lt _ _) hj
  have hbk := byteAt_lt (headerRegion flash app._applicationHeaderAddress) k
  rw [readApplicationHeader_of_reads (flipBit flash (app._applicationHeaderAddress + k) j) app
    h8 h112]
  generalize headerRegion (flipBit flash (app._applicationHeaderAddress + k) j)
    app._applicationHeaderAddress = region2 at hview hcrc ⊢
  generalize headerRegion flash app._applicationHeaderAddress = region at *
  simp only [parseUint32_eq, byteAt_drop, Nat.reduceAdd, Nat.add_zero] at hv hm hc ⊢
  have b0 := byteAt_lt region 0
  have b1 := byteAt_lt region 1
  have b2 := byteAt_lt region 2
  have b3 := byteAt_lt region 3
  have b4 := byteAt_lt region 4
  have b5 := byteAt_lt region 5
  have b6 := byteAt_lt region 6
  have b7 := byteAt_lt region 7
  have hsame : ∀ i, i < 112 → i ≠ k → byteAt region2 i = byteAt region i := by
    intro i hi hne
    rw [hview i hi, if_neg hne]
  by_cases hk8 : k < 8
  · rw [if_pos hk8, if_pos]
    rw [hview 0 (by omega), hview 1 (by omega), hview 2 (by omega), hview 3 (by omega),
      hview 4 (by omega), hview 5 (by omega), hview 6 (by omega), hview 7 (by omega)]
    interval_cases k <;> simp <;> omega
  · have hk0 : 0 ≠ k := by omega
    have hk1 : 1 ≠ k := by omega
    have hk2 : 2 ≠ k := by omega
    have hk3 : 3 ≠ k := by omega
    have hk4 : 4 ≠ k := by omega
    have hk5 : 5 ≠ k := by omega
    have hk6 : 6 ≠ k := by omega
    have hk7 : 7 ≠ k := by omega
    rw [if_neg hk8, if_neg, if_pos]
    · rw [hsame 108 (by decide) (by omega), hsame 109 (by decide) (by omega),
        hsame 110 (by decide) (by omega), hsame 111 (by decide) (by omega), hc]
      exact fun h => hcrc h.symm
    · rw [hsame 0 (by decide) hk0, hsame 1 (by decide) hk1, hsame 2 (by decide) hk2,
        hsame 3 (by decide) hk3, hsame 4 (by decide) hk4, hsame 5 (by decide) hk5,
        hsame 6 (by decide) hk6, hsame 7 (by decide) hk7]
      omega

/-! ## Encoding followed by decoding -/

theorem encodeBE_length (w n : Nat) : (encodeBE w n).length = w := by simp [encodeBE]

theorem encodeBE_lt (w n : Nat) : ∀ b ∈ encodeBE w n, b < 256 := by
  intro b hb
  simp only [encodeBE, List.mem_map] at hb
  obtain ⟨i, _, rfl⟩ := hb
  exact Nat.mod_lt _ (by decide)

theorem byteAt_append_left (l1 l2 : List Nat) (i : Nat) (h : i < l1.length) :
    byteAt (l1 ++ l2) i = byteAt l1 i := by
  simp [byteAt, List.getD_eq_getElem?_getD, List.getElem?_append_left h]

theorem bytesOf_append_left (l rest : List Nat) (hl : ∀ b ∈ l, b < 256) (n : Nat)
    (hn : l.length = n) : bytesOf (l ++ rest) n = l := by
  subst hn
  conv_rhs => rw [← bytesOf_self l hl]
  simp only [bytesOf]
  apply List.map_congr_left
  intro i hi
  exact byteAt_append_left l rest i (by simpa using hi)

theorem drop_append_ge (l1 l2 : List Nat) (n m : Nat) (h : l1.length = n) (hm : n ≤ m) :
    (l1 ++ l2).drop m = l2.drop (m - n) := by
  subst h
  obtain ⟨k, rfl⟩ := Nat.exists_eq_add_of_le hm
  simp [List.drop_append]

theorem parseUint32_encodeBE (n : Nat) (rest : List Nat) (hn : n < 2 ^ 32) :
    parseUint32 (encodeBE 4 n ++ rest) = n := by
  rw [parseUint32_eq]
  rw [byteAt_append_left _ _ 0 (by simp [encodeBE_length]),
    byteAt_append_left _ _ 1 (by simp [encodeBE_length]),
    byteAt_append_left _ _ 2 (by simp [encodeBE_length]),
    byteAt_append_left _ _ 3 (by simp [encodeBE_length])]
  simp [byteAt, encodeBE, List.range_succ]
  omega

theorem parseUint64_encodeBE (n : Nat) (rest : List Nat) (hn : n < 2 ^ 64) :
    parseUint64 (encodeBE 8 n ++ rest) = n := by
  rw [parseUint64_eq]
  rw [byteAt_append_left _ _ 0 (by simp [encodeBE_length]),
    byteAt_append_left _ _ 1 (by simp [encodeBE_length]),
    byteAt_append_left _ _ 2 (by simp [encodeBE_length]),
    byteAt_append_left _ _ 3 (by simp [encodeBE_length]),
    byteAt_append_left _ _ 4 (by simp [encodeBE_length]),
    byteAt_append_left _ _ 5 (by simp [encodeBE_length]),
    byteAt_append_left _ _ 6 (by simp [encodeBE_length]),
    byteAt_append_left _ _ 7 (by simp [encodeBE_length])]
  simp [byteAt, encodeBE, List.range_succ]
  omega

theorem crc32Reference_lt (data : List Nat) (hd : ∀ b ∈ data, b < 256) :
    crc32Reference data < 2 ^ 32 := by
  have h := crc32_lt data data.length
  unfold crc32 at h
  rw [bytesOf_self data hd, crc32Loop_eq_foldl_reference data hd] at h
  exact h

theorem drop_append_add (l1 l2 : List Nat) (n k : Nat) (h : l1.length = n) :
    (l1 ++ l2).drop (n + k) = l2.drop k := by
  subst h
  simp [List.drop_append]

/-- The suffixes of a version-2 layout at the offsets the decoder reads. -/
theorem layout_drops (m v fvb fsb hash unused campaign sigb crcb : List Nat)
    (hm : m.length = 4) (hv : v.length = 4) (hfv : fvb.length = 8) (hfs : fsb.length = 8)
    (hh : hash.length = 32) (hu : unused.length = 32) (hc : campaign.length = 16)
    (hs : sigb.length = 4) :
    (m ++ (v ++ (fvb ++ (fsb ++ (hash ++ (unused ++ (campaign ++ (sigb ++ crcb)))))))).drop 4 =
      v ++ (fvb ++ (fsb ++ (hash ++ (unused ++ (campaign ++ (sigb ++ crcb)))))) ∧
    (m ++ (v ++ (fvb ++ (fsb ++ (hash ++ (unused ++ (campaign ++ (sigb ++ crcb)))))))).drop 8 =
      fvb ++ (fsb ++ (hash ++ (unused ++ (campaign ++ (sigb ++ crcb))))) ∧
    (m ++ (v ++ (fvb ++ (fsb ++ (hash ++ (unused ++ (campaign ++ (sigb ++ crcb)))))))).drop 16 =
      fsb ++ (hash ++ (unused ++ (campaign ++ (sigb ++ crcb)))) ∧
    (m ++ (v ++ (fvb ++ (fsb ++ (hash ++ (unused ++ (campaign ++ (sigb ++ crcb)))))))).drop 24 =
      hash ++ (unused ++ (campaign ++ (sigb ++ crcb))) ∧
    (m ++ (v ++ (fvb ++ (fsb ++ (hash ++ (unused ++ (campaign ++ (sigb ++ crcb)))))))).drop 88 =
      campaign ++ (sigb ++ crcb) ∧
    (m ++ (v ++ (fvb ++ (fsb ++ (hash ++ (unused ++ (campaign ++ (sigb ++ crcb)))))))).drop 108 =
      crcb := by
  refine ⟨?_, ?_, ?_, ?_, ?_, ?_⟩
  · rw [drop_append_ge _ _ 4 4 hm (by decide)]; rfl
  · rw [drop_append_ge _ _ 4 8 hm (by decide), drop_append_ge _ _ 4 _ hv (by decide)]; rfl
  · rw [drop_append_ge _ _ 4 16 hm (by decide), drop_append_ge _ _ 4 _ hv (by decide),
      drop_append_ge _ _ 8 _ hfv (by decide)]; rfl
  · rw [drop_append_ge _ _ 4 24 hm (by decide), drop_append_ge _ _ 4 _ hv (by decide),
      drop_append_ge _ _ 8 _ hfv (by decide), drop_append_ge _ _ 8 _ hfs (by decide)]; rfl
  · rw [drop_append_ge _ _ 4 88 hm (by decide), drop_append_ge _ _ 4 _ hv (by decide),
      drop_append_ge _ _ 8 _ hfv (by decide), drop_append_ge _ _ 8 _ hfs (by decide),
      drop_append_ge _ _ 32 _ hh (by decide), drop_append_ge _ _ 32 _ hu (by decide)]; rfl
  · rw [drop_append_ge _ _ 4 108 hm (by decide), drop_append_ge _ _ 4 _ hv (by decide),
      drop_append_ge _ _ 8 _ hfv (by decide), drop_append_ge _ _ 8 _ hfs (by decide),
      drop_append_ge _ _ 32 _ hh (by decide), drop_append_ge _ _ 32 _ hu (by decide),
      drop_append_ge _ _ 16 _ hc (by decide), drop_append_ge _ _ 4 _ hs (by decide)]; rfl

/-- The full result of reading a header region that is a version-2 layout. -/
theorem readApplicationHeader_encoded (flash : FlashUpdater) (app : MbedApplication)
    (firmwareVersion firmwareSize signatureSize : Nat) (hash unused campaign : List Nat)
    (hfv : firmwareVersion < 2 ^ 64) (hfs : firmwareSize < 2 ^ 64)
    (hhl : hash.length = 32) (hhb : ∀ b ∈ hash, b < 256)
    (hul : unused.length = 32) (hub : ∀ b ∈ unused, b < 256)
    (hcl : campaign.length = 16) (hcb : ∀ b ∈ campaign, b < 256)
    (h8 : flash.readFails app._applicationHeaderAddress 8 = false)
    (h112 : flash.readFails app._applicationHeaderAddress 112 = false)
    (hregion : headerRegion flash app._applicationHeaderAddress =
      encodeHeaderV2 firmwareVersion firmwareSize hash unused campaign signatureSize) :
    readApplicationHeader flash app =
      (UC_ERR_NONE,
        { app with
          _applicationHeader :=
            { app._applicationHeader with
              initialized := true
              magic := 0x5a51b3d4
              headerVersion := 2
              firmwareVersion := firmwareVersion
              firmwareSize := firmwareSize
              hash := hash
              campaign := campaign
              state := VALID } }) := by
  rw [readApplicationHeader_of_reads flash app h8 h112, hregion]
  have hfl : (encodeBE 4 0x5a51b3d4 ++ (encodeBE 4 2 ++ (encodeBE 8 firmwareVersion ++
      (encodeBE 8 firmwareSize ++ (hash ++ (unused ++ (campaign ++
        encodeBE 4 signatureSize))))))).length = 108 := by
    simp [encodeBE_length, hhl, hul, hcl]
  have hfb : ∀ b ∈ encodeBE 4 0x5a51b3d4 ++ (encodeBE 4 2 ++ (encodeBE 8 firmwareVersion ++
      (encodeBE 8 firmwareSize ++ (hash ++ (unused ++ (campaign ++
        encodeBE 4 signatureSize)))))), b < 256 := by
    intro b hb
    simp only [List.mem_append] at hb
    rcases hb with hb | hb | hb | hb | hb | hb | hb | hb
    · exact encodeBE_lt _ _ b hb
    · exact encodeBE_lt _ _ b hb
    · exact encodeBE_lt _ _ b hb
    · exact encodeBE_lt _ _ b hb
    · exact hhb b hb
    · exact hub b hb
    · exact hcb b hb
    · exact encodeBE_lt _ _ b hb
  have hcrc : crc32 (encodeHeaderV2 firmwareVersion firmwareSize hash unused campaign
      signatureSize) 108 = crc32Reference (encodeBE 4 0x5a51b3d4 ++ (encodeBE 4 2 ++
        (encodeBE 8 firmwareVersion ++ (encodeBE 8 firmwareSize ++ (hash ++ (unused ++
          (campaign ++ encodeBE 4 signatureSize))))))) := by
    unfold crc32 encodeHeaderV2
    simp only []
    rw [bytesOf_append_left _ _ hfb 108 hfl, crc32Loop_eq_foldl_reference _ hfb]
    rfl
  have hlt := crc32Reference_lt _ hfb
  have hE : encodeHeaderV2 firmwareVersion firmwareSize hash unused campaign signatureSize =
      encodeBE 4 0x5a51b3d4 ++ (encodeBE 4 2 ++ (encodeBE 8 firmwareVersion ++
        (encodeBE 8 firmwareSize ++ (hash ++ (unused ++ (campaign ++
          (encodeBE 4 signatureSize ++ encodeBE 4 (crc32Reference
            (encodeBE 4 0x5a51b3d4 ++ (encodeBE 4 2 ++ (encodeBE 8 firmwareVersion ++
              (encodeBE 8 firmwareSize ++ (hash ++ (unused ++ (campaign ++
                encodeBE 4 signatureSize))))))))))))))) := by
    simp [encodeHeaderV2]
  rw [hcrc, hE]
  generalize crc32Reference (encodeBE 4 0x5a51b3d4 ++ (encodeBE 4 2 ++
        (encodeBE 8 firmwareVersion ++ (encodeBE 8 firmwareSize ++ (hash ++ (unused ++
          (campaign ++ encodeBE 4 signatureSize))))))) = crc at hlt ⊢
  obtain ⟨d4, d8, d16, d24, d88, d108⟩ := layout_drops (encodeBE 4 0x5a51b3d4) (encodeBE 4 2)
    (encodeBE 8 firmwareVersion) (encodeBE 8 firmwareSize) hash unused campaign
    (encodeBE 4 signatureSize) (encodeBE 4 crc) (encodeBE_length _ _) (encodeBE_length _ _)
    (encodeBE_length _ _) (encodeBE_length _ _) hhl hul hcl (encodeBE_length _ _)
  have e108 : parseUint32 (encodeBE 4 crc) = crc := by
    have h := parseUint32_encodeBE crc [] hlt
    rwa [List.append_nil] at h
  rw [d4, d108, parseUint32_encodeBE _ _ (by decide), parseUint32_encodeBE _ _ (by decide), e108]
  simp only [ne_eq, not_true_eq_false, or_self, if_false, decodedHeader, d8, d16, d24, d88]
  rw [parseUint64_encodeBE _ _ hfv, parseUint64_encodeBE _ _ hfs,
    bytesOf_append_left hash _ hhb 32 hhl, bytesOf_append_left campaign _ hcb 16 hcl,
    parseUint32_encodeBE _ _ (by decide), d4, parseUint32_encodeBE _ _ (by decide)]

/-- C9: round trip. For every firmwareVersion and firmwareSize below `2 ^ 64`, 32-byte hash,
16-byte campaign and signatureSize, a flash whose header region is the
version-2 layout of these fields followed by the big-endian standard CRC-32 of the first 108
bytes decodes without error (so neither `InvalidHeader` nor `InvalidChecksum`), and the decoded
firmwareVersion, firmwareSize, hash and campaign are the encoded ones. -/
theorem encode_decode_roundtrip (flash : FlashUpdater) (app : MbedApplication)
    (firmwareVersion firmwareSize signatureSize : Nat) (hash unused campaign : List Nat)
    (hfv : firmwareVersion < 2 ^ 64) (hfs : firmwareSize < 2 ^ 64)
    (hhl : hash.length = 32) (hhb : ∀ b ∈ hash, b < 256)
    (hul : unused.length = 32) (hub : ∀ b ∈ unused, b < 256)
    (hcl : campaign.length = 16) (hcb : ∀ b ∈ campaign, b < 256)
    (h8 : flash.readFails app._applicationHeaderAddress 8 = false)
    (h112 : flash.readFails app._applicationHeaderAddress 112 = false)
    (hregion : headerRegion flash app._applicationHeaderAddress =
      encodeHeaderV2 firmwareVersion firmwareSize hash unused campaign signatureSize) :
    (readApplicationHeader flash app).1 = UC_ERR_NONE ∧
    (readApplicationHeader flash app).2._applicationHeader.firmwareVersion = firmwareVersion ∧
    (readApplicationHeader flash app).2._applicationHeader.firmwareSize = firmwareSize ∧
    (readApplicationHeader flash app).2._applicationHeader.hash = hash ∧
    (readApplicationHeader flash app).2._applicationHeader.campaign = campaign := by
  rw [readApplicationHeader_encoded flash app firmwareVersion firmwareSize signatureSize hash
    unused campaign hfv hfs hhl hhb hul hub hcl hcb h8 h112 hregion]
  exact ⟨rfl, rfl, rfl, rfl, rfl⟩

/-! ## Version comparison -/

/-- C5: `isNewerThan` leaves both applications with their headers read (an application whose
header is already read is unchanged) and then returns: false if this application has
headerVersion below 2, firmwareSize 0 or state NotValid; otherwise true if the other one has
headerVersion below 2, firmwareSize 0 or state NotValid; otherwise whether the other
firmwareVersion is strictly below this one. In particular, when both are usable, an equal or
lower version is never newer. -/
theorem isNewerThan_policy (flash : FlashUpdater) (A B : MbedApplication) :
    (isNewerThan flash A B).2.1 =
      (if A._applicationHeader.initialized then A else (readApplicationHeader flash A).2) ∧
    (isNewerThan flash A B).2.2 =
      (if B._applicationHeader.initialized then B else (readApplicationHeader flash B).2) ∧
    (isNewerThan flash A B).1 =
      (if (isNewerThan flash A B).2.1._applicationHeader.headerVersion < 2 ∨
          (isNewerThan flash A B).2.1._applicationHeader.firmwareSize = 0 ∨
          (isNewerThan flash A B).2.1._applicationHeader.state = NOT_VALID then false
       else if (isNewerThan flash A B).2.2._applicationHeader.headerVersion < 2 ∨
          (isNewerThan flash A B).2.2._applicationHeader.firmwareSize = 0 ∨
          (isNewerThan flash A B).2.2._applicationHeader.state = NOT_VALID then true
       else decide ((isNewerThan flash A B).2.2._applicationHeader.firmwareVersion <
          (isNewerThan flash A B).2.1._applicationHeader.firmwareVersion)) ∧
    (¬ ((isNewerThan flash A B).2.2._applicationHeader.headerVersion < 2 ∨
          (isNewerThan flash A B).2.2._applicationHeader.firmwareSize = 0 ∨
          (isNewerThan flash A B).2.2._applicationHeader.state = NOT_VALID) →
      (isNewerThan flash A B).2.1._applicationHeader.firmwareVersion ≤
        (isNewerThan flash A B).2.2._applicationHeader.firmwareVersion →
      (isNewerThan flash A B).1 = false) := by
  refine ⟨rfl, rfl, ?_, ?_⟩
  · simp only [isNewerThan, newerHeader, kHeaderVersionV2]
  · intro hB hle
    simp only [isNewerThan, newerHeader, kHeaderVersionV2] at hB hle ⊢
    rw [if_neg hB]
    split
    · rfl
    · exact decide_eq_false (by omega)

theorem readApplicationHeader_initialized (flash : FlashUpdater) (a : MbedApplication) :
    (readApplicationHeader flash a).2._applicationHeader.initialized = true := by
  unfold readApplicationHeader
  cases flash.read a._applicationHeaderAddress 8 with
  | none => rfl
  | some vb =>
    simp only []
    split_ifs
    · cases flash.read a._applicationHeaderAddress kHeaderSizeV2 <;> rfl
    · rfl
    · rfl

theorem ensureHeader_initialized (flash : FlashUpdater) (a : MbedApplication) :
    (ensureHeader flash a)._applicationHeader.initialized = true := by
  unfold ensureHeader
  split
  · assumption
  · exact readApplicationHeader_initialized flash a

theorem ensureHeader_of_initialized (flash : FlashUpdater) (a : MbedApplication)
    (h : a._applicationHeader.initialized = true) : ensureHeader flash a = a := by
  simp [ensureHeader, h]

theorem ensureHeader_idem (flash : FlashUpdater) (a : MbedApplication) :
    ensureHeader flash (ensureHeader flash a) = ensureHeader flash a :=
  ensureHeader_of_initialized flash _ (ensureHeader_initialized flash a)

/-- C6: `isNewerThan` is anti-symmetric. Whenever `A.isNewerThan(B)` returns true, a following
`B.isNewerThan(A)` returns false; this holds for all applications, in particular for two
structurally valid ones with distinct firmware versions. -/
theorem isNewerThan_antisymmetric (flash : FlashUpdater) (A B : MbedApplication)
    (h : (isNewerThan flash A B).1 = true) :
    (isNewerThan flash (isNewerThan flash A B).2.2 (isNewerThan flash A B).2.1).1 = false := by
  simp only [isNewerThan, ensureHeader_idem] at h ⊢
  generalize (ensureHeader flash A)._applicationHeader = ha at h ⊢
  generalize (ensureHeader flash B)._applicationHeader = hb at h ⊢
  unfold newerHeader at h ⊢
  by_cases h1 : ha.headerVersion < kHeaderVersionV2 ∨ ha.firmwareSize = 0 ∨ ha.state = NOT_VALID
  · simp [h1] at h
  · by_cases h2 : hb.headerVersion < kHeaderVersionV2 ∨ hb.firmwareSize = 0 ∨
        hb.state = NOT_VALID
    · simp [h2]
    · rw [if_neg h1, if_neg h2] at h
      rw [if_neg h2, if_neg h1]
      have := of_decide_eq_true h
      exact decide_eq_false (by omega)

/-! ## Reading and checking again -/

theorem parseInternalHeaderV2_addr (app : MbedApplication) (buf : List Nat) :
    (parseInternalHeaderV2 app buf).2._applicationHeaderAddress = app._applicationHeaderAddress ∧
    (parseInternalHeaderV2 app buf).2._applicationAddress = app._applicationAddress := by
  unfold parseInternalHeaderV2
  simp only []
  split_ifs <;> exact ⟨rfl, rfl⟩

theorem readApplicationHeader_addr (flash : FlashUpdater) (a : MbedApplication) :
    (readApplicationHeader flash a).2._applicationHeaderAddress = a._applicationHeaderAddress ∧
    (readApplicationHeader flash a).2._applicationAddress = a._applicationAddress := by
  unfold readApplicationHeader
  cases flash.read a._applicationHeaderAddress 8 with
  | none => exact ⟨rfl, rfl⟩
  | some vb =>
    simp only []
    split_ifs
    · cases flash.read a._applicationHeaderAddress kHeaderSizeV2 with
      | none => exact ⟨rfl, rfl⟩
      | some rb =>
        simp only [finishReadHeader]
        exact parseInternalHeaderV2_addr _ rb
    · exact ⟨rfl, rfl⟩
    · exact ⟨rfl, rfl⟩

/-- Reading the header a second time from the same flash changes nothing. -/
theorem readApplicationHeader_idem (flash : FlashUpdater) (a : MbedApplication) :
    readApplicationHeader flash (readApplicationHeader flash a).2 =
      readApplicationHeader flash a := by
  have haddr := (readApplicationHeader_addr flash a).1
  generalize hR : readApplicationHeader flash a = R at haddr
  unfold readApplicationHeader at hR ⊢
  rw [haddr]
  cases h8 : flash.read a._applicationHeaderAddress 8 with
  | none =>
    rw [h8] at hR
    simp only [] at hR ⊢
    rw [← hR]
    rfl
  | some vb =>
    rw [h8] at hR
    simp only [] at hR ⊢
    by_cases hv : parseUint32 (List.drop 4 vb) = kHeaderVersionV2
    · by_cases hm : parseUint32 vb = KheaderMagicV2
      · simp only [hv, hm, if_true] at hR ⊢
        cases h112 : flash.read a._applicationHeaderAddress kHeaderSizeV2 with
        | none =>
          rw [h112] at hR
          simp only [] at hR ⊢
          rw [← hR]
          rfl
        | some rb =>
          rw [h112] at hR
          simp only [] at hR ⊢
          rw [← hR]
          unfold parseInternalHeaderV2
          simp only []
          split_ifs <;> rfl
      · simp only [hv, hm, if_true, if_false] at hR ⊢
        rw [← hR]
        rfl
    · simp only [hv, if_false] at hR ⊢
      rw [← hR]
      rfl

theorem checkApplication_after_read (sha256 : List Nat → List Nat) (flash : FlashUpdater)
    (a : MbedApplication) :
    checkApplication sha256 flash (readApplicationHeader flash a).2 =
      checkApplication sha256 flash a := by
  unfold checkApplication
  rw [readApplicationHeader_idem]

theorem readApplicationHeader_shape (flash : FlashUpdater) (a : MbedApplication) :
    ∃ code app1, readApplicationHeader flash a = finishReadHeader code app1 := by
  unfold readApplicationHeader
  cases flash.read a._applicationHeaderAddress 8 with
  | none => exact ⟨_, _, rfl⟩
  | some vb =>
    simp only []
    split_ifs
    · cases flash.read a._applicationHeaderAddress kHeaderSizeV2 with
      | none => exact ⟨_, _, rfl⟩
      | some rb => exact ⟨_, _, rfl⟩
    · exact ⟨_, _, rfl⟩
    · exact ⟨_, _, rfl⟩

theorem readApplicationHeader_state (flash : FlashUpdater) (a : MbedApplication) :
    (readApplicationHeader flash a).2._applicationHeader.state =
      if (readApplicationHeader flash a).1 = UC_ERR_NONE then VALID else NOT_VALID := by
  obtain ⟨code, app1, h⟩ := readApplicationHeader_shape flash a
  rw [h]
  rfl

theorem readApplicationHeader_version (flash : FlashUpdater) (a : MbedApplication)
    (h : (readApplicationHeader flash a).1 = UC_ERR_NONE) :
    (readApplicationHeader flash a).2._applicationHeader.headerVersion = 2 := by
  obtain ⟨h8, h112⟩ := reads_of_ok flash a h
  obtain ⟨hv, hm, hc⟩ := conditions_of_ok flash a h
  rw [readApplicationHeader_of_reads flash a h8 h112]
  simp [hv, hm, hc, decodedHeader]

theorem setState_self (a : MbedApplication) (s : ApplicationState)
    (h : a._applicationHeader.state = s) : a.setState s = a := by
  subst h
  rfl

/-- What a successful `checkApplication` establishes. -/
theorem checkApplication_ok (sha256 : List Nat → List Nat) (flash : FlashUpdater)
    (a : MbedApplication) (h : (checkApplication sha256 flash a).1 = UC_ERR_NONE) :
    (readApplicationHeader flash a).1 = UC_ERR_NONE ∧
    (checkApplication sha256 flash a).2 = (readApplicationHeader flash a).2 ∧
    (readApplicationHeader flash a).2._applicationHeader.headerVersion = 2 ∧
    0 < (readApplicationHeader flash a).2._applicationHeader.firmwareSize ∧
    (readApplicationHeader flash a).2._applicationHeader.hash =
      sha256 (hashedBytes flash (readApplicationHeader flash a).2).2 ∧
    (readApplicationHeader flash a).2._applicationHeader.state = VALID := by
  have hst := readApplicationHeader_state flash a
  unfold checkApplication at h ⊢
  simp only [] at h ⊢
  by_cases hr : (readApplicationHeader flash a).1 = UC_ERR_NONE
  · have hv := readApplicationHeader_version flash a hr
    rw [if_pos hr] at hst
    rw [if_neg (not_not.mpr hr)] at h ⊢
    by_cases hs : (readApplicationHeader flash a).2._applicationHeader.firmwareSize > 0
    · by_cases hh : (readApplicationHeader flash a).2._applicationHeader.hash =
          sha256 (hashedBytes flash (readApplicationHeader flash a).2).2
      · refine ⟨hr, ?_, hv, hs, hh, hst⟩
        rw [if_pos hs, if_pos hh, if_pos rfl]
        exact setState_self _ _ hst
      · rw [if_pos hs, if_neg hh] at h
        simp at h
    · rw [if_neg hs] at h
      simp at h
  · rw [if_pos hr] at h
    exact absurd h hr

/-- The result code of `checkApplication` in terms of the header read. -/
theorem checkApplication_code (sha256 : List Nat → List Nat) (flash : FlashUpdater)
    (a : MbedApplication) :
    (checkApplication sha256 flash a).1 =
      if (readApplicationHeader flash a).1 ≠ UC_ERR_NONE then (readApplicationHeader flash a).1
      else if (readApplicationHeader flash a).2._applicationHeader.firmwareSize > 0 then
        if (readApplicationHeader flash a).2._applicationHeader.hash =
            sha256 (hashedBytes flash (readApplicationHeader flash a).2).2 then UC_ERR_NONE
        else UC_ERR_HASH_INVALID
      else UC_ERR_FIRMWARE_EMPTY := by
  unfold checkApplication
  simp only []
  split_ifs <;> rfl

/-! ## The bytes that are hashed -/

/-- One more turn allowed changes nothing once the allowance covers `remaining`. -/
theorem hashLoop_fuel_succ (flash : FlashUpdater) (appAddr fs : Nat) :
    ∀ (fuel remaining : Nat) (fed : List Nat), remaining ≤ fuel →
      hashLoop flash appAddr fs (fuel + 1) remaining fed =
        hashLoop flash appAddr fs fuel remaining fed := by
  intro fuel
  induction fuel with
  | zero =>
    intro remaining fed h
    have : remaining = 0 := by omega
    subst this
    simp [hashLoop]
  | succ fuel ih =>
    intro remaining fed h
    conv_lhs => unfold hashLoop
    conv_rhs => unfold hashLoop
    by_cases hr : remaining > 0
    · simp only [if_pos hr]
      cases flash.read (((appAddr + (fs - remaining)) % 2 ^ 64) % 2 ^ 32)
          (if remaining > kBufferSize then kBufferSize else remaining) with
      | none => rfl
      | some buffer =>
        simp only []
        apply ih
        unfold kBufferSize
        split <;> omega
    · simp only [if_neg hr]

/-- The hashing loop always runs to its end: every allowance of at least `remaining` turns
gives the result of the allowance `remaining` used by `hashedBytes`. -/
theorem hashLoop_enough_fuel (flash : FlashUpdater) (appAddr fs : Nat) :
    ∀ (extra remaining : Nat) (fed : List Nat),
      hashLoop flash appAddr fs (remaining + extra) remaining fed =
        hashLoop flash appAddr fs remaining remaining fed := by
  intro extra
  induction extra with
  | zero => intro remaining fed; rfl
  | succ extra ih =>
    intro remaining fed
    rw [← Nat.add_assoc, hashLoop_fuel_succ flash appAddr fs _ _ _ (by omega)]
    exact ih remaining fed

theorem hashLoop_reads_ok (flash : FlashUpdater)
    (hok : ∀ addr size, flash.readFails addr size = false) (appAddr fs : Nat)
    (hfit : appAddr + fs ≤ 2 ^ 32) :
    ∀ (fuel remaining : Nat) (fed : List Nat), remaining ≤ fuel → remaining ≤ fs →
      hashLoop flash appAddr fs fuel remaining fed =
        (false, fed ++ (List.range remaining).map
          (fun k => flash.mem (appAddr + (fs - remaining) + k) % 256)) := by
  intro fuel
  induction fuel with
  | zero =>
    intro remaining fed h1 _
    have : remaining = 0 := by omega
    subst this
    simp [hashLoop]
  | succ fuel ih =>
    intro remaining fed h1 h2
    unfold hashLoop
    by_cases hr : remaining > 0
    · rw [if_pos hr]
      simp only []
      have haddr : ((appAddr + (fs - remaining)) % 2 ^ 64) % 2 ^ 32 =
          appAddr + (fs - remaining) := by
        rw [Nat.mod_eq_of_lt (by omega), Nat.mod_eq_of_lt (by omega)]
      rw [haddr, read_of_not_fails _ _ _ (hok _ _)]
      simp only []
      generalize hrs : (if remaining > kBufferSize then kBufferSize else remaining) = readSize
      have hrs1 : 0 < readSize ∧ readSize ≤ remaining := by
        rw [← hrs]
        unfold kBufferSize
        split <;> omega
      rw [ih (remaining - readSize) _ (by omega) (by omega)]
      have hsplit : remaining = readSize + (remaining - readSize) := by omega
      conv_rhs => rw [hsplit, List.range_add, List.map_append, List.map_map]
      have hoff : ∀ k, appAddr + (fs - (remaining - readSize)) + k =
          appAddr + (fs - (readSize + (remaining - readSize))) + (readSize + k) := by
        intro k; omega
      simp only [List.append_assoc, Function.comp_def, hoff]
      rw [← hsplit]
    · have : remaining = 0 := by omega
      subst this
      simp

/-- When no read fails, the declared size fits in 32 bits and the body lies within the 32-bit
address space, the bytes hashed by `checkApplication` are exactly the declared body. -/
theorem hashedBytes_eq_body (flash : FlashUpdater) (app : MbedApplication)
    (hok : ∀ addr size, flash.readFails addr size = false)
    (hsize : app._applicationHeader.firmwareSize < 2 ^ 32)
    (hfit : app._applicationAddress + app._applicationHeader.firmwareSize ≤ 2 ^ 32) :
    hashedBytes flash app = (false, bodyBytes flash app) := by
  unfold hashedBytes bodyBytes
  simp only []
  rw [Nat.mod_eq_of_lt hsize,
    hashLoop_reads_ok flash hok _ _ hfit _ _ [] (Nat.le_refl _) (Nat.le_refl _)]
  simp

/-! ## The scan of `hasValidNewerApplication` -/

theorem getD_set_self (l : List (Option MbedApplication)) (i : Nat) (x y : MbedApplication)
    (h : l.getD i none = some y) : (l.set i (some x)).getD i none = some x := by
  have hlt : i < l.length := by
    by_contra hge
    rw [List.getD_eq_default _ _ (by omega)] at h
    simp at h
  simp [List.getD_eq_getElem?_getD, List.getElem?_set, hlt]

theorem getD_set_other (l : List (Option MbedApplication)) (i j : Nat)
    (x : Option MbedApplication) (h : i ≠ j) : (l.set i x).getD j none = l.getD j none := by
  simp [List.getD_eq_getElem?_getD, List.getElem?_set, h]

theorem ensureHeader_of_not_initialized (flash : FlashUpdater) (a : MbedApplication)
    (h : a._applicationHeader.initialized = false) :
    ensureHeader flash a = (readApplicationHeader flash a).2 := by
  simp [ensureHeader, h]

theorem newerHeader_usable (s o : ApplicationHeader) (h : newerHeader s o = true) : usable s := by
  unfold newerHeader at h
  unfold usable
  intro hs
  rw [if_pos hs] at h
  simp at h

theorem newerHeader_iff (s o : ApplicationHeader) (hs : usable s) :
    newerHeader s o = true ↔ (¬ usable o ∨ o.firmwareVersion < s.firmwareVersion) := by
  unfold usable at hs
  unfold newerHeader usable
  rw [if_neg hs]
  by_cases ho : o.headerVersion < kHeaderVersionV2 ∨ o.firmwareSize = 0 ∨ o.state = NOT_VALID
  · simp [ho]
  · rw [if_neg ho]
    simp [ho]

theorem usable_of_check_ok (sha256 : List Nat → List Nat) (flash : FlashUpdater)
    (a : MbedApplication) (h : (checkApplication sha256 flash a).1 = UC_ERR_NONE) :
    usable (readApplicationHeader flash a).2._applicationHeader := by
  obtain ⟨_, _, hv, hs, _, hst⟩ := checkApplication_ok sha256 flash a h
  unfold usable
  rw [hv, hst]
  simp [kHeaderVersionV2]
  omega

/-- The loop body when no slot has been selected yet. -/
theorem scanStep_first (sha256 : List Nat → List Nat) (flash : FlashUpdater) (n k : Nat)
    (st : ScanState) (a : MbedApplication) (hn : st.newestSlotIndex = n)
    (hk : st.candidates.getD k none = some a)
    (ha : a._applicationHeader.initialized = false) :
    scanStep sha256 flash n st k =
      some (scanCheck sha256 flash
        (newerHeader (readApplicationHeader flash a).2._applicationHeader
          (ensureHeader flash st.active)._applicationHeader)
        (readApplicationHeader flash a).2
        { st with
          candidates := st.candidates.set k (some (readApplicationHeader flash a).2)
          active := ensureHeader flash st.active } k) := by
  unfold scanStep
  rw [if_pos hn, hk]
  simp only [isNewerThan, ensureHeader_of_not_initialized flash a ha]

/-- The loop body when slot `st.newestSlotIndex` is the running best. -/
theorem scanStep_next (sha256 : List Nat → List Nat) (flash : FlashUpdater) (n k : Nat)
    (st : ScanState) (a nb : MbedApplication) (hn : st.newestSlotIndex ≠ n)
    (hb : st.candidates.getD st.newestSlotIndex none = some nb)
    (hbi : nb._applicationHeader.initialized = true)
    (hk : st.candidates.getD k none = some a)
    (ha : a._applicationHeader.initialized = false) :
    scanStep sha256 flash n st k =
      some (scanCheck sha256 flash
        (newerHeader (readApplicationHeader flash a).2._applicationHeader nb._applicationHeader)
        (readApplicationHeader flash a).2
        { st with
          candidates := (st.candidates.set st.newestSlotIndex (some nb)).set k
            (some (readApplicationHeader flash a).2) } k) := by
  unfold scanStep
  rw [if_neg hn, hb, hk]
  simp only [isNewerThan, ensureHeader_of_not_initialized flash a ha,
    ensureHeader_of_initialized flash nb hbi]

theorem scanCheck_true (sha256 : List Nat → List Nat) (flash : FlashUpdater)
    (a : MbedApplication) (st : ScanState) (k : Nat) :
    scanCheck sha256 flash true (readApplicationHeader flash a).2 st k =
      if (checkApplication sha256 flash a).1 ≠ UC_ERR_NONE then
        { st with candidates := st.candidates.set k (some (checkApplication sha256 flash a).2) }
      else
        { st with
          candidates := st.candidates.set k (some (checkApplication sha256 flash a).2)
          newestSlotIndex := k } := by
  unfold scanCheck
  simp only [if_true, checkApplication_after_read]

theorem scanCheck_false (sha256 : List Nat → List Nat) (flash : FlashUpdater)
    (c : MbedApplication) (st : ScanState) (k : Nat) :
    scanCheck sha256 flash false c st k = st := by
  simp [scanCheck]

/-- One turn of the loop keeps the scan property. -/
theorem scanStep_inv (sha256 : List Nat → List Nat) (flash : FlashUpdater) (n : Nat)
    (arr : List (Option MbedApplication)) (act : MbedApplication) (k : Nat) (st : ScanState)
    (a : MbedApplication) (hkn : k < n) (hak : arr.getD k none = some a)
    (hai : a._applicationHeader.initialized = false)
    (inv : ScanInv sha256 flash n arr act k st) :
    ∃ st1, scanStep sha256 flash n st k = some st1 ∧
      ScanInv sha256 flash n arr act (k + 1) st1 := by
  obtain ⟨hrest, hact, hact0, hbest⟩ := inv
  have hck : st.candidates.getD k none = some a := (hrest k (Nat.le_refl k)).trans hak
  have hactidem : ensureHeader flash act = act := by
    rw [← hact]; exact ensureHeader_idem flash st.active
  rcases hbest with ⟨hn, hnone⟩ | ⟨b, ab, hb, hbk, hab, hcb, hokb, hnewb, hmax⟩
  · rw [scanStep_first sha256 flash n k st a hn hck hai, hact]
    refine ⟨_, rfl, ?_⟩
    cases hr : newerHeader (readApplicationHeader flash a).2._applicationHeader
        act._applicationHeader with
    | true =>
      rw [scanCheck_true]
      by_cases hc : (checkApplication sha256 flash a).1 = UC_ERR_NONE
      · rw [if_neg (not_not.mpr hc)]
        have hCR := (checkApplication_ok sha256 flash a hc).2.1
        refine ⟨?_, hactidem, fun _ => rfl, Or.inr ⟨k, a, rfl, Nat.lt_succ_self k, hak, ?_, hc,
          hr, ?_⟩⟩
        · intro j hj
          show ((st.candidates.set k _).set k _).getD j none = _
          rw [getD_set_other _ _ _ _ (by omega), getD_set_other _ _ _ _ (by omega)]
          exact hrest j (by omega)
        · show ((st.candidates.set k _).set k _).getD k none = _
          rw [getD_set_self _ k _ (readApplicationHeader flash a).2
            (getD_set_self _ k _ a hck), hCR]
        · intro j a1 hj ha1 hok1
          by_cases hjk : j = k
          · subst hjk
            rw [hak] at ha1
            cases ha1
            exact ⟨Nat.le_refl _, fun _ => Nat.le_refl _⟩
          · have hn1 := hnone j a1 (by omega) ha1
            have hu1 := usable_of_check_ok sha256 flash a1 hok1
            have hnn : ¬ newerHeader (readApplicationHeader flash a1).2._applicationHeader
                act._applicationHeader = true := fun h => hn1 ⟨h, hok1⟩
            rw [newerHeader_iff _ _ hu1] at hnn
            have hr2 := (newerHeader_iff _ _ (newerHeader_usable _ _ hr)).mp hr
            have hua : usable act._applicationHeader := by
              by_contra h; exact hnn (Or.inl h)
            have h1 : ¬ act._applicationHeader.firmwareVersion <
                (readApplicationHeader flash a1).2._applicationHeader.firmwareVersion :=
              fun h => hnn (Or.inr h)
            rcases hr2 with h | h
            · exact absurd hua h
            · constructor <;> omega
      · rw [if_pos hc]
        refine ⟨?_, hactidem, fun _ => rfl, Or.inl ⟨hn, ?_⟩⟩
        · intro j hj
          show ((st.candidates.set k _).set k _).getD j none = _
          rw [getD_set_other _ _ _ _ (by omega), getD_set_other _ _ _ _ (by omega)]
          exact hrest j (by omega)
        · intro j a1 hj ha1
          by_cases hjk : j = k
          · subst hjk
            rw [hak] at ha1
            cases ha1
            exact fun h => hc h.2
          · exact hnone j a1 (by omega) ha1
    | false =>
      rw [scanCheck_false]
      refine ⟨?_, hactidem, fun _ => rfl, Or.inl ⟨hn, ?_⟩⟩
      · intro j hj
        show (st.candidates.set k _).getD j none = _
        rw [getD_set_other _ _ _ _ (by omega)]
        exact hrest j (by omega)
      · intro j a1 hj ha1
        by_cases hjk : j = k
        · subst hjk
          rw [hak] at ha1
          cases ha1
          rw [hr]
          simp
        · exact hnone j a1 (by omega) ha1
  · have hbi := readApplicationHeader_initialized flash ab
    have hact1 : st.active = act := hact0 (by omega)
    have hub := usable_of_check_ok sha256 flash ab hokb
    subst hb
    rw [scanStep_next sha256 flash n k st a (readApplicationHeader flash ab).2 (by omega) hcb hbi
      hck hai]
    refine ⟨_, rfl, ?_⟩
    have hckb : (st.candidates.set st.newestSlotIndex
        (some (readApplicationHeader flash ab).2)).getD k none = some a := by
      rw [getD_set_other _ _ _ _ (by omega)]; exact hck
    cases hr : newerHeader (readApplicationHeader flash a).2._applicationHeader
        (readApplicationHeader flash ab).2._applicationHeader with
    | true =>
      have hr2 := (newerHeader_iff _ _ (newerHeader_usable _ _ hr)).mp hr
      have hlt : (readApplicationHeader flash ab).2._applicationHeader.firmwareVersion <
          (readApplicationHeader flash a).2._applicationHeader.firmwareVersion := by
        rcases hr2 with h | h
        · exact absurd hub h
        · exact h
      rw [scanCheck_true]
      by_cases hc : (checkApplication sha256 flash a).1 = UC_ERR_NONE
      · rw [if_neg (not_not.mpr hc)]
        have hCR := (checkApplication_ok sha256 flash a hc).2.1
        refine ⟨?_, (by rw [hact1]; exact hactidem), fun _ => hact1,
          Or.inr ⟨k, a, rfl, Nat.lt_succ_self k, hak, ?_, hc, ?_, ?_⟩⟩
        · intro j hj
          show (((st.candidates.set _ _).set k _).set k _).getD j none = _
          rw [getD_set_other _ _ _ _ (by omega), getD_set_other _ _ _ _ (by omega),
            getD_set_other _ _ _ _ (by omega)]
          exact hrest j (by omega)
        · show (((st.candidates.set _ _).set k _).set k _).getD k none = _
          rw [getD_set_self _ k _ (readApplicationHeader flash a).2
            (getD_set_self _ k _ a hckb), hCR]
        · rw [newerHeader_iff _ _ (newerHeader_usable _ _ hr)]
          have hb2 := (newerHeader_iff _ _ hub).mp hnewb
          rcases hb2 with h | h
          · exact Or.inl h
          · exact Or.inr (by omega)
        · intro j a1 hj ha1 hok1
          by_cases hjk : j = k
          · subst hjk
            rw [hak] at ha1
            cases ha1
            exact ⟨Nat.le_refl _, fun _ => Nat.le_refl _⟩
          · have := hmax j a1 (by omega) ha1 hok1
            constructor <;> omega
      · rw [if_pos hc]
        refine ⟨?_, (by rw [hact1]; exact hactidem), fun _ => hact1,
          Or.inr ⟨st.newestSlotIndex, ab, rfl, by omega, hab, ?_, hokb, hnewb, ?_⟩⟩
        · intro j hj
          show (((st.candidates.set _ _).set k _).set k _).getD j none = _
          rw [getD_set_other _ _ _ _ (by omega), getD_set_other _ _ _ _ (by omega),
            getD_set_other _ _ _ _ (by omega)]
          exact hrest j (by omega)
        · show (((st.candidates.set _ _).set k _).set k _).getD st.newestSlotIndex none = _
          rw [getD_set_other _ _ _ _ (by omega), getD_set_other _ _ _ _ (by omega)]
          exact getD_set_self _ _ _ _ hcb
        · intro j a1 hj ha1 hok1
          by_cases hjk : j = k
          · subst hjk
            rw [hak] at ha1
            cases ha1
            exact absurd hok1 hc
          · exact hmax j a1 (by omega) ha1 hok1
    | false =>
      rw [scanCheck_false]
      refine ⟨?_, (by rw [hact1]; exact hactidem), fun _ => hact1,
        Or.inr ⟨st.newestSlotIndex, ab, rfl, by omega, hab, ?_, hokb, hnewb, ?_⟩⟩
      · intro j hj
        show ((st.candidates.set _ _).set k _).getD j none = _
        rw [getD_set_other _ _ _ _ (by omega), getD_set_other _ _ _ _ (by omega)]
        exact hrest j (by omega)
      · show ((st.candidates.set _ _).set k _).getD st.newestSlotIndex none = _
        rw [getD_set_other _ _ _ _ (by omega)]
        exact getD_set_self _ _ _ _ hcb
      · intro j a1 hj ha1 hok1
        by_cases hjk : j = k
        · subst hjk
          rw [hak] at ha1
          cases ha1
          have hu1 := usable_of_check_ok sha256 flash a hok1
          have hnn : ¬ newerHeader (readApplicationHeader flash a).2._applicationHeader
              (readApplicationHeader flash ab).2._applicationHeader = true := by
            rw [hr]; simp
          rw [newerHeader_iff _ _ hu1] at hnn
          have h1 : ¬ (readApplicationHeader flash ab).2._applicationHeader.firmwareVersion <
              (readApplicationHeader flash a).2._applicationHeader.firmwareVersion :=
            fun h => hnn (Or.inr h)
          constructor <;> omega
        · exact hmax j a1 (by omega) ha1 hok1

theorem scanSlots_inv (sha256 : List Nat → List Nat) (flash : FlashUpdater) (n : Nat)
    (arr : List (Option MbedApplication)) (act : MbedApplication)
    (hslots : ∀ j, j < n → ∃ a, arr.getD j none = some a ∧
      a._applicationHeader.initialized = false) :
    ∀ (m k : Nat) (st : ScanState), k + m = n → ScanInv sha256 flash n arr act k st →
      ∃ st1, scanSlots sha256 flash n (List.range' k m) st = some st1 ∧
        ScanInv sha256 flash n arr act n st1 := by
  intro m
  induction m with
  | zero =>
    intro k st hk inv
    have : k = n := by omega
    subst this
    exact ⟨st, rfl, inv⟩
  | succ m ih =>
    intro k st hk inv
    obtain ⟨a, hak, hai⟩ := hslots k (by omega)
    obtain ⟨st1, hstep, inv1⟩ := scanStep_inv sha256 flash n arr act k st a (by omega) hak hai inv
    obtain ⟨st2, hloop, inv2⟩ := ih (k + 1) st1 (by omega) inv1
    refine ⟨st2, ?_, inv2⟩
    show scanSlots sha256 flash n (k :: List.range' (k + 1) m) st = some st2
    simp only [scanSlots, hstep]
    exact hloop

/-- The scan over a collection whose first `_nbrOfSlots` entries are constructed applications
with unread headers: it returns, and its final state has the scan property. -/
theorem hasValidNewerApplication_scan (sha256 : List Nat → List Nat) (flash : FlashUpdater)
    (ca : CandidateApplications) (active : MbedApplication)
    (hslots : ∀ j, j < ca._nbrOfSlots → ∃ a, ca._candidateApplicationArray.getD j none = some a ∧
      a._applicationHeader.initialized = false) :
    ∃ st, hasValidNewerApplication sha256 flash ca active =
        some (decide (st.newestSlotIndex ≠ ca._nbrOfSlots), st.newestSlotIndex, st.candidates,
          st.active) ∧
      ScanInv sha256 flash ca._nbrOfSlots ca._candidateApplicationArray
        (ensureHeader flash active) ca._nbrOfSlots st := by
  have inv0 : ScanInv sha256 flash ca._nbrOfSlots ca._candidateApplicationArray
      (ensureHeader flash active) 0
      { candidates := ca._candidateApplicationArray, active := active,
        newestSlotIndex := ca._nbrOfSlots } :=
    ⟨fun _ _ => rfl, rfl, fun h => absurd h (Nat.lt_irrefl 0),
      Or.inl ⟨rfl, fun j _ hj => absurd hj (Nat.not_lt_zero j)⟩⟩
  obtain ⟨st, hloop, inv⟩ := scanSlots_inv sha256 flash ca._nbrOfSlots
    ca._candidateApplicationArray (ensureHeader flash active) hslots ca._nbrOfSlots 0 _
    (by omega) inv0
  refine ⟨st, ?_, inv⟩
  unfold hasValidNewerApplication
  rw [List.range_eq_range', hloop]

/-! ## The constructed collection -/

theorem constructSlot_spec (flash : FlashUpdater) (headerSize : Nat)
    (this : CandidateApplications) (k : Nat) (hn : this._nbrOfSlots ≠ 0) :
    ∃ addr, constructSlot flash headerSize this k =
      { this with
        _candidateApplicationArray :=
          this._candidateApplicationArray.set k
            (some (MbedApplication.new addr ((addr + headerSize) % 2 ^ 32))) } := by
  unfold constructSlot getCandidateAddress
  rw [if_neg hn]
  exact ⟨_, rfl⟩

theorem construct_loop (flash : FlashUpdater) (headerSize n maxSlots : Nat)
    (this0 : CandidateApplications) (hn : this0._nbrOfSlots = n)
    (hlen : this0._candidateApplicationArray.length = maxSlots) (hmax : n ≤ maxSlots) :
    ∀ k, k ≤ n →
      ((List.range k).foldl (constructSlot flash headerSize) this0)._nbrOfSlots = n ∧
      ((List.range k).foldl (constructSlot flash headerSize)
        this0)._candidateApplicationArray.length = maxSlots ∧
      ∀ j, j < k → ∃ a,
        ((List.range k).foldl (constructSlot flash headerSize)
          this0)._candidateApplicationArray.getD j none = some a ∧
        a._applicationHeader.initialized = false := by
  intro k
  induction k with
  | zero =>
    intro _
    exact ⟨hn, hlen, fun j hj => absurd hj (Nat.not_lt_zero j)⟩
  | succ k ih =>
    intro hk
    obtain ⟨h1, h2, h3⟩ := ih (by omega)
    rw [List.range_succ, List.foldl_append]
    simp only [List.foldl_cons, List.foldl_nil]
    generalize (List.range k).foldl (constructSlot flash headerSize) this0 = this at h1 h2 h3
    obtain ⟨addr, hc⟩ := constructSlot_spec flash headerSize this k (by omega)
    rw [hc]
    refine ⟨h1, by simpa using h2, ?_⟩
    intro j hj
    by_cases hjk : j = k
    · subst hjk
      refine ⟨MbedApplication.new addr ((addr + headerSize) % 2 ^ 32), ?_, rfl⟩
      have hlt : j < this._candidateApplicationArray.length := by omega
      simp [List.getD_eq_getElem?_getD, List.getElem?_set, hlt]
    · obtain ⟨a, ha, hai⟩ := h3 j (by omega)
      refine ⟨a, ?_, hai⟩
      show (this._candidateApplicationArray.set k _).getD j none = _
      rw [getD_set_other _ _ _ _ (fun h => hjk h.symm)]
      exact ha

/-- The constructor leaves `nbrOfSlots` constructed applications with unread headers when
`nbrOfSlots` does not exceed the configured maximum. -/
theorem new_slots (maxSlots : Nat) (flash : FlashUpdater)
    (storageAddress storageSize headerSize nbrOfSlots : Nat) (hmax : nbrOfSlots ≤ maxSlots) :
    (CandidateApplications.new maxSlots flash storageAddress storageSize headerSize
      nbrOfSlots)._nbrOfSlots = nbrOfSlots ∧
    ∀ j, j < nbrOfSlots → ∃ a,
      (CandidateApplications.new maxSlots flash storageAddress storageSize headerSize
        nbrOfSlots)._candidateApplicationArray.getD j none = some a ∧
      a._applicationHeader.initialized = false := by
  unfold CandidateApplications.new
  simp only [if_pos hmax]
  obtain ⟨h1, _, h3⟩ := construct_loop flash headerSize nbrOfSlots maxSlots
    { _storageAddress := storageAddress, _storageSize := storageSize,
      _nbrOfSlots := nbrOfSlots, _candidateApplicationArray := List.replicate maxSlots none }
    rfl (by simp) hmax nbrOfSlots (Nat.le_refl _)
  exact ⟨h1, h3⟩

/-! ## Stored images -/

theorem sumDigest_length (bytes : List Nat) : (sumDigest bytes).length = 32 := by
  simp [sumDigest]

theorem sumDigest_lt (bytes : List Nat) : ∀ b ∈ sumDigest bytes, b < 256 := by
  intro b hb
  simp only [sumDigest, List.mem_replicate] at hb
  rw [hb.2]
  exact Nat.mod_lt _ (by decide)

theorem replicate_zero_lt (n : Nat) : ∀ b ∈ List.replicate n 0, b < 256 := by
  intro b hb
  simp only [List.mem_replicate] at hb
  rw [hb.2]
  decide

theorem encodeHeaderV2_length (firmwareVersion firmwareSize signatureSize : Nat)
    (hash unused campaign : List Nat) (hhl : hash.length = 32) (hul : unused.length = 32)
    (hcl : campaign.length = 16) :
    (encodeHeaderV2 firmwareVersion firmwareSize hash unused campaign signatureSize).length =
      112 := by
  simp [encodeHeaderV2, encodeBE_length, hhl, hul, hcl]

theorem encodeHeaderV2_lt (firmwareVersion firmwareSize signatureSize : Nat)
    (hash unused campaign : List Nat) (hhb : ∀ b ∈ hash, b < 256)
    (hub : ∀ b ∈ unused, b < 256)
    (hcb : ∀ b ∈ campaign, b < 256) :
    ∀ b ∈ encodeHeaderV2 firmwareVersion firmwareSize hash unused campaign signatureSize,
      b < 256 := by
  intro b hb
  simp only [encodeHeaderV2, List.mem_append] at hb
  rcases hb with (hb | hb | hb | hb | hb | hb | hb | hb) | hb
  · exact encodeBE_lt _ _ b hb
  · exact encodeBE_lt _ _ b hb
  · exact encodeBE_lt _ _ b hb
  · exact encodeBE_lt _ _ b hb
  · exact hhb b hb
  · exact hub b hb
  · exact hcb b hb
  · exact encodeBE_lt _ _ b hb
  · exact encodeBE_lt _ _ b hb

theorem imageOf_length (firmwareVersion : Nat) (body : List Nat) :
    (imageOf firmwareVersion body).length = 112 + body.length := by
  unfold imageOf
  rw [List.length_append, encodeHeaderV2_length _ _ _ _ _ _ (sumDigest_length body) (by simp)
    (by simp)]

/-- The header region of a flash whose bytes from `addr` on are those of `hdr ++ body`. -/
theorem headerRegion_of_mem (flash : FlashUpdater) (addr : Nat) (hdr body : List Nat)
    (hl : hdr.length = 112) (hb : ∀ b ∈ hdr, b < 256)
    (hmem : ∀ k, k < 112 → flash.mem (addr + k) = (hdr ++ body).getD k 0) :
    headerRegion flash addr = hdr := by
  apply List.ext_getElem
  · rw [headerRegion_length, hl]
  · intro i h1 h2
    have hi : i < 112 := by rwa [headerRegion_length] at h1
    simp only [headerRegion, List.getElem_map, List.getElem_range]
    rw [hmem i hi, List.getD_eq_getElem?_getD, List.getElem?_append_left h2,
      List.getElem?_eq_getElem h2]
    simp only [Option.getD_some]
    exact Nat.mod_eq_of_lt (hb _ (List.getElem_mem _))

theorem find_image (pre post : List (Nat × List Nat)) (addr : Nat) (img : List Nat) (a : Nat)
    (h1 : addr ≤ a) (h2 : a < addr + img.length)
    (hpre : ∀ im ∈ pre, im.1 + im.2.length ≤ addr) :
    (pre ++ (addr, img) :: post).find?
      (fun im => decide (im.1 ≤ a ∧ a < im.1 + im.2.length)) = some (addr, img) := by
  induction pre with
  | nil => simp [List.find?, h1, h2]
  | cons p rest ih =>
    have hp := hpre p (List.mem_cons_self _ _)
    have hnot : ¬ (p.1 ≤ a ∧ a < p.1 + p.2.length) := by omega
    simp only [List.cons_append, List.find?, hnot, decide_False]
    exact ih (fun im him => hpre im (List.mem_cons_of_mem _ him))

/-- The bytes of the image at `addr` in a flash built by `flashOf`, when the images listed
before it end at or below `addr`. -/
theorem flashOf_mem (pre post : List (Nat × List Nat)) (addr : Nat) (img : List Nat)
    (hpre : ∀ im ∈ pre, im.1 + im.2.length ≤ addr) (k : Nat) (hk : k < img.length) :
    (flashOf (pre ++ (addr, img) :: post)).mem (addr + k) = img.getD k 0 := by
  simp only [flashOf]
  rw [find_image pre post addr img (addr + k) (Nat.le_add_right _ _) (by omega) hpre]
  simp

theorem getD_default (l : List Nat) (k d e : Nat) (h : k < l.length) :
    l.getD k d = l.getD k e := by
  simp [List.getD_eq_getElem?_getD, List.getElem?_eq_getElem h]

/-- The header read of an application constructed at `addr`, on a flash whose 112 bytes from
`addr` on are a version-2 header with a zero campaign. -/
theorem readApplicationHeader_image (flash : FlashUpdater)
    (addr bodyAddr firmwareVersion firmwareSize : Nat) (hashed body : List Nat)
    (hmem : ∀ k, k < 112 → flash.mem (addr + k) =
      (encodeHeaderV2 firmwareVersion firmwareSize (sumDigest hashed) (List.replicate 32 0)
        (List.replicate 16 0) 0 ++ body).getD k 0)
    (h8 : flash.readFails addr 8 = false) (h112 : flash.readFails addr 112 = false)
    (hfv : firmwareVersion < 2 ^ 64) (hfs : firmwareSize < 2 ^ 64) :
    readApplicationHeader flash (MbedApplication.new addr bodyAddr) =
      (UC_ERR_NONE,
        decodedApplication addr bodyAddr firmwareVersion firmwareSize (sumDigest hashed)) := by
  have hl := encodeHeaderV2_length firmwareVersion firmwareSize 0 (sumDigest hashed)
    (List.replicate 32 0) (List.replicate 16 0) (sumDigest_length hashed) (by simp) (by simp)
  have hregion : headerRegion flash addr = encodeHeaderV2 firmwareVersion firmwareSize
      (sumDigest hashed) (List.replicate 32 0) (List.replicate 16 0) 0 :=
    headerRegion_of_mem flash addr _ body hl
      (encodeHeaderV2_lt _ _ _ _ _ _ (sumDigest_lt hashed) (replicate_zero_lt 32)
        (replicate_zero_lt 16)) hmem
  exact readApplicationHeader_encoded flash (MbedApplication.new addr bodyAddr) firmwareVersion
    firmwareSize 0 (sumDigest hashed) (List.replicate 32 0) (List.replicate 16 0) hfv hfs
    (sumDigest_length hashed) (sumDigest_lt hashed) (by simp) (replicate_zero_lt 32) (by simp)
    (replicate_zero_lt 16) h8 h112 hregion

/-- The header read of an application constructed at the address of an image of a flash
whose memory is that of `flashOf`. -/
theorem readApplicationHeader_stored (flash : FlashUpdater) (pre post : List (Nat × List Nat))
    (addr bodyAddr firmwareVersion firmwareSize : Nat) (hashed body : List Nat)
    (hmem : flash.mem = (flashOf (pre ++ (addr, encodeHeaderV2 firmwareVersion firmwareSize
      (sumDigest hashed) (List.replicate 32 0) (List.replicate 16 0) 0 ++ body) :: post)).mem)
    (hpre : ∀ im ∈ pre, im.1 + im.2.length ≤ addr)
    (h8 : flash.readFails addr 8 = false) (h112 : flash.readFails addr 112 = false)
    (hfv : firmwareVersion < 2 ^ 64) (hfs : firmwareSize < 2 ^ 64) :
    readApplicationHeader flash (MbedApplication.new addr bodyAddr) =
      (UC_ERR_NONE,
        decodedApplication addr bodyAddr firmwareVersion firmwareSize (sumDigest hashed)) := by
  have hl := encodeHeaderV2_length firmwareVersion firmwareSize 0 (sumDigest hashed)
    (List.replicate 32 0) (List.replicate 16 0) (sumDigest_length hashed) (by simp) (by simp)
  apply readApplicationHeader_image flash addr bodyAddr firmwareVersion firmwareSize hashed body
    ?_ h8 h112 hfv hfs
  intro k hk
  rw [hmem]
  exact flashOf_mem pre post addr _ hpre k (by rw [List.length_append, hl]; omega)

/-- The bytes of a chunk of the body of an image of a flash whose memory is that of
`flashOf`. -/
theorem body_chunk_stored (flash : FlashUpdater) (pre post : List (Nat × List Nat))
    (addr : Nat) (hdr body : List Nat)
    (hmem : flash.mem = (flashOf (pre ++ (addr, hdr ++ body) :: post)).mem)
    (hpre : ∀ im ∈ pre, im.1 + im.2.length ≤ addr)
    (hl : hdr.length = 112) (hb : ∀ b ∈ body, b < 256) (n : Nat) (hn : n ≤ body.length) :
    (List.range n).map (fun k => flash.mem (addr + 112 + k) % 256) = body.take n := by
  apply List.ext_getElem
  · simp [hn]
  · intro i h1 h2
    have hi : i < n := by simpa using h1
    have hib : i < body.length := by omega
    simp only [List.getElem_map, List.getElem_range, List.getElem_take]
    rw [hmem, Nat.add_assoc,
      flashOf_mem pre post addr _ hpre (112 + i) (by rw [List.length_append, hl]; omega),
      List.getD_eq_getElem?_getD, List.getElem?_append_right (by omega)]
    simp only [hl, Nat.add_sub_cancel_left, List.getElem?_eq_getElem hib, Option.getD_some]
    exact Nat.mod_eq_of_lt (hb _ (List.getElem_mem _))

/-- The declared body of an application read from an image of a flash whose memory is that of
`flashOf`, when the declared size is the length of the stored body. -/
theorem bodyBytes_stored (flash : FlashUpdater) (pre post : List (Nat × List Nat))
    (addr : Nat) (hdr body : List Nat) (app : MbedApplication)
    (hmem : flash.mem = (flashOf (pre ++ (addr, hdr ++ body) :: post)).mem)
    (hpre : ∀ im ∈ pre, im.1 + im.2.length ≤ addr)
    (hl : hdr.length = 112) (hb : ∀ b ∈ body, b < 256)
    (haddr : app._applicationAddress = addr + 112)
    (hsize : app._applicationHeader.firmwareSize = body.length) :
    bodyBytes flash app = body := by
  unfold bodyBytes
  rw [haddr, hsize, body_chunk_stored flash pre post addr hdr body hmem hpre hl hb _
    (Nat.le_refl _), List.take_length]

/-- The hashing loop on a body of more than one and at most two chunks whose second chunk
cannot be read: the failed read is flagged and the first chunk alone is hashed. -/
theorem hashedBytes_second_chunk_fails (flash : FlashUpdater) (app : MbedApplication)
    (h1 : 256 < app._applicationHeader.firmwareSize)
    (h2 : app._applicationHeader.firmwareSize ≤ 512)
    (hfit : app._applicationAddress + app._applicationHeader.firmwareSize ≤ 2 ^ 32)
    (hr1 : flash.readFails app._applicationAddress 256 = false)
    (hr2 : flash.readFails (app._applicationAddress + 256)
      (app._applicationHeader.firmwareSize - 256) = true) :
    hashedBytes flash app =
      (true, (List.range 256).map (fun k => flash.mem (app._applicationAddress + k) % 256)) := by
  unfold hashedBytes
  simp only []
  generalize app._applicationHeader.firmwareSize = s at h1 h2 hfit hr2
  generalize app._applicationAddress = a at hfit hr1 hr2
  have hs : s % 2 ^ 32 = (s - 2) + 1 + 1 := by
    rw [Nat.mod_eq_of_lt (by omega)]
    omega
  have hfirst : (a + (s - s)) % 2 ^ 64 % 2 ^ 32 = a := by
    rw [Nat.sub_self, Nat.add_zero, Nat.mod_eq_of_lt (by omega), Nat.mod_eq_of_lt (by omega)]
  have hsecond : (a + (s - (s - 256))) % 2 ^ 64 % 2 ^ 32 = a + 256 := by
    have : s - (s - 256) = 256 := by omega
    rw [this, Nat.mod_eq_of_lt (by omega), Nat.mod_eq_of_lt (by omega)]
  have hc1 : (if s > kBufferSize then kBufferSize else s) = 256 := by
    unfold kBufferSize
    rw [if_pos h1]
  have hc2 : (if s - 256 > kBufferSize then kBufferSize else s - 256) = s - 256 := by
    unfold kBufferSize
    rw [if_neg (by omega)]
  have hpos1 : s > 0 := by omega
  have hpos2 : s - 256 > 0 := by omega
  rw [Nat.mod_eq_of_lt (show s < 2 ^ 32 by omega)]
  conv_lhs => rw [show s = (s - 2) + 1 + 1 by omega]
  rw [hashLoop]
  rw [show (s - 2) + 1 + 1 = s by omega]
  rw [if_pos hpos1]
  simp only [hc1, hfirst, read_of_not_fails flash a 256 hr1]
  rw [hashLoop, if_pos hpos2]
  simp only [hc2, hsecond]
  rw [FlashUpdater.read, hr2]
  simp

/-- The result of `checkApplication` when the header read succeeds. -/
theorem checkApplication_of_read (sha256 : List Nat → List Nat) (flash : FlashUpdater)
    (app read : MbedApplication) (h : readApplicationHeader flash app = (UC_ERR_NONE, read)) :
    checkApplication sha256 flash app =
      if 0 < read._applicationHeader.firmwareSize ∧
          read._applicationHeader.hash = sha256 (hashedBytes flash read).2 then
        (UC_ERR_NONE, read.setState VALID)
      else if read._applicationHeader.firmwareSize = 0 then
        (UC_ERR_FIRMWARE_EMPTY, read.setState NOT_VALID)
      else (UC_ERR_HASH_INVALID, read.setState NOT_VALID) := by
  unfold checkApplication
  simp only [h, ne_eq, not_true_eq_false, if_false]
  by_cases hs : 0 < read._applicationHeader.firmwareSize
  · by_cases hh : read._applicationHeader.hash = sha256 (hashedBytes flash read).2
    · simp [hs, hh]
    · have hne : read._applicationHeader.firmwareSize ≠ 0 := by omega
      simp [hs, hh, hne]
  · have h0 : read._applicationHeader.firmwareSize = 0 := by omega
    simp [h0]

/-- The result of `checkApplication` on the object left by a header read is its result on the
object before the read. -/
theorem checkApplication_of_read_decoded (sha256 : List Nat → List Nat) (flash : FlashUpdater)
    (app read : MbedApplication) (r : UCError × MbedApplication)
    (h : readApplicationHeader flash app = (UC_ERR_NONE, read))
    (hc : checkApplication sha256 flash app = r) :
    checkApplication sha256 flash read = r := by
  have h1 := checkApplication_after_read sha256 flash app
  rw [h] at h1
  exact h1.trans hc

/-- The results of the operations of a freshly constructed application whose header read
succeeds. -/
theorem constructed_of_read (flash : FlashUpdater) (addr bodyAddr : Nat) (read : MbedApplication)
    (h : readApplicationHeader flash (MbedApplication.new addr bodyAddr) = (UC_ERR_NONE, read)) :
    ensureHeader flash (MbedApplication.new addr bodyAddr) = read ∧
    getFirmwareVersion flash (MbedApplication.new addr bodyAddr) =
      (read._applicationHeader.firmwareVersion, read) ∧
    getFirmwareSize flash (MbedApplication.new addr bodyAddr) =
      (read._applicationHeader.firmwareSize, read) := by
  have hi : (MbedApplication.new addr bodyAddr)._applicationHeader.initialized = false := rfl
  refine ⟨?_, ?_, ?_⟩
  · rw [ensureHeader_of_not_initialized flash _ hi, h]
  · simp [getFirmwareVersion, hi, h]
  · simp [getFirmwareSize, hi, h]

theorem ensureHeader_decoded (flash : FlashUpdater) (a b v s : Nat) (h : List Nat) :
    ensureHeader flash (decodedApplication a b v s h) = decodedApplication a b v s h := rfl

/-- The comparison of two applications from their objects after the header is ensured. -/
theorem isNewerThan_of_ensure (flash : FlashUpdater) (A B A1 B1 : MbedApplication)
    (hA : ensureHeader flash A = A1) (hB : ensureHeader flash B = B1) :
    isNewerThan flash A B = (newerHeader A1._applicationHeader B1._applicationHeader, A1, B1) := by
  simp only [isNewerThan, hA, hB]

theorem applyOps_cons (sha256 : List Nat → List Nat) (flash : FlashUpdater) (op : PublicOp)
    (rest : List (FlashUpdater × PublicOp)) (app : MbedApplication) :
    applyOps sha256 ((flash, op) :: rest) app =
      applyOps sha256 rest (applyOp sha256 flash op app) := rfl

theorem applyOp_getFirmwareVersion (sha256 : List Nat → List Nat) (flash : FlashUpdater)
    (app : MbedApplication) :
    applyOp sha256 flash PublicOp.getFirmwareVersion app = (getFirmwareVersion flash app).2 := rfl

/-! ## The scan, visit by visit -/

theorem scanCheckLog_fst (sha256 : List Nat → List Nat) (flash : FlashUpdater) (newer : Bool)
    (candidate : MbedApplication) (st : ScanState) (slotIndex : Nat) :
    (scanCheckLog sha256 flash newer candidate st slotIndex).1 =
      scanCheck sha256 flash newer candidate st slotIndex := by
  unfold scanCheckLog scanCheck
  cases newer
  · rfl
  · simp only [if_true]
    split_ifs <;> rfl

theorem scanStepLog_fst (sha256 : List Nat → List Nat) (flash : FlashUpdater)
    (nbrOfSlots : Nat) (st : ScanState) (slotIndex : Nat) :
    (scanStepLog sha256 flash nbrOfSlots st slotIndex).map Prod.fst =
      scanStep sha256 flash nbrOfSlots st slotIndex := by
  unfold scanStepLog scanStep
  split_ifs
  · cases st.candidates.getD slotIndex none <;> simp [scanCheckLog_fst]
  · cases st.candidates.getD st.newestSlotIndex none <;>
      cases st.candidates.getD slotIndex none <;> simp [scanCheckLog_fst]

theorem scanSlotsLog_fst (sha256 : List Nat → List Nat) (flash : FlashUpdater)
    (nbrOfSlots : Nat) (l : List Nat) :
    ∀ st, (scanSlotsLog sha256 flash nbrOfSlots l st).map Prod.fst =
      scanSlots sha256 flash nbrOfSlots l st := by
  induction l with
  | nil => intro st; rfl
  | cons i rest ih =>
    intro st
    have h1 := scanStepLog_fst sha256 flash nbrOfSlots st i
    unfold scanSlotsLog scanSlots
    cases hs : scanStepLog sha256 flash nbrOfSlots st i with
    | none =>
      rw [hs] at h1
      rw [← h1]
      rfl
    | some p =>
      obtain ⟨st1, log⟩ := p
      rw [hs] at h1
      rw [← h1]
      have h2 := ih st1
      simp only [Option.map_some']
      rw [← h2]
      cases scanSlotsLog sha256 flash nbrOfSlots rest st1 <;> rfl

/-- A visit while no slot is selected, of a candidate that is newer than the active
application: the candidate is checked and selected when the check succeeds. -/
theorem scanStepLog_first_check (sha256 : List Nat → List Nat) (flash : FlashUpdater)
    (n k idx : Nat) (cands cands1 : List (Option MbedApplication))
    (active a a1 act1 a2 : MbedApplication) (code : UCError)
    (hk : cands.getD k none = some a) (ha : ensureHeader flash a = a1)
    (hact : ensureHeader flash active = act1)
    (hnew : newerHeader a1._applicationHeader act1._applicationHeader = true)
    (hc : checkApplication sha256 flash a1 = (code, a2))
    (hidx : (if code = UC_ERR_NONE then k else n) = idx)
    (hset : (cands.set k (some a1)).set k (some a2) = cands1) :
    scanStepLog sha256 flash n { candidates := cands, active := active, newestSlotIndex := n } k =
      some ({ candidates := cands1, active := act1, newestSlotIndex := idx }, [(k, code)]) := by
  unfold scanStepLog
  simp only [if_true, hk, isNewerThan, ha, hact, hnew, scanCheckLog, hc, hset]
  by_cases hcode : code = UC_ERR_NONE
  · rw [if_pos hcode] at hidx
    simp [hcode, hidx]
  · rw [if_neg hcode] at hidx
    simp [hcode, hidx]

/-- A visit while slot `b` is selected, of a candidate that is not newer than slot `b`:
nothing is checked. -/
theorem scanStepLog_next_skip (sha256 : List Nat → List Nat) (flash : FlashUpdater)
    (n k b : Nat) (cands cands1 : List (Option MbedApplication))
    (active a a1 nb nb1 : MbedApplication) (hb : b ≠ n)
    (hnb : cands.getD b none = some nb) (hk : cands.getD k none = some a)
    (ha : ensureHeader flash a = a1) (hnb1 : ensureHeader flash nb = nb1)
    (hnew : newerHeader a1._applicationHeader nb1._applicationHeader = false)
    (hset : (cands.set b (some nb1)).set k (some a1) = cands1) :
    scanStepLog sha256 flash n { candidates := cands, active := active, newestSlotIndex := b } k =
      some ({ candidates := cands1, active := active, newestSlotIndex := b }, []) := by
  unfold scanStepLog
  simp only [if_neg hb, hnb, hk, isNewerThan, ha, hnb1, hnew, scanCheckLog, Bool.false_eq_true,
    if_false, hset]

/-- A visit while slot `b` is selected, of a candidate that is newer than slot `b`: the
candidate is checked and selected when the check succeeds. -/
theorem scanStepLog_next_check (sha256 : List Nat → List Nat) (flash : FlashUpdater)
    (n k b idx : Nat) (cands cands1 : List (Option MbedApplication))
    (active a a1 nb nb1 a2 : MbedApplication) (code : UCError) (hb : b ≠ n)
    (hnb : cands.getD b none = some nb) (hk : cands.getD k none = some a)
    (ha : ensureHeader flash a = a1) (hnb1 : ensureHeader flash nb = nb1)
    (hnew : newerHeader a1._applicationHeader nb1._applicationHeader = true)
    (hc : checkApplication sha256 flash a1 = (code, a2))
    (hidx : (if code = UC_ERR_NONE then k else b) = idx)
    (hset : ((cands.set b (some nb1)).set k (some a1)).set k (some a2) = cands1) :
    scanStepLog sha256 flash n { candidates := cands, active := active, newestSlotIndex := b } k =
      some ({ candidates := cands1, active := active, newestSlotIndex := idx },
        [(k, code)]) := by
  unfold scanStepLog
  simp only [if_neg hb, hnb, hk, isNewerThan, ha, hnb1, hnew, scanCheckLog, if_true, hc, hset]
  by_cases hcode : code = UC_ERR_NONE
  · rw [if_pos hcode] at hidx
    simp [hcode, hidx]
  · rw [if_neg hcode] at hidx
    simp [hcode, hidx]

/-- A recorded scan is its first visit followed by the recorded scan of the other slots. -/
theorem scanSlotsLog_cons (sha256 : List Nat → List Nat) (flash : FlashUpdater) (n i : Nat)
    (rest : List Nat) (st st1 st2 : ScanState) (log : List (Nat × UCError))
    (visits : List (ScanState × Nat × List (Nat × UCError)))
    (h1 : scanStepLog sha256 flash n st i = some (st1, log))
    (h2 : scanSlotsLog sha256 flash n rest st1 = some (st2, visits)) :
    scanSlotsLog sha256 flash n (i :: rest) st = some (st2, (st, i, log) :: visits) := by
  rw [scanSlotsLog, h1]
  simp only [h2]

/-- The result of `hasValidNewerApplication` from the recorded scan. -/
theorem hasValidNewerApplication_of_log (sha256 : List Nat → List Nat) (flash : FlashUpdater)
    (ca : CandidateApplications) (active : MbedApplication) (n : Nat)
    (cands : List (Option MbedApplication)) (l : List Nat) (stEnd : ScanState)
    (visits : List (ScanState × Nat × List (Nat × UCError)))
    (hn : ca._nbrOfSlots = n) (hc : ca._candidateApplicationArray = cands)
    (hl : List.range n = l)
    (h : scanSlotsLog sha256 flash n l
      { candidates := cands, active := active, newestSlotIndex := n } = some (stEnd, visits)) :
    hasValidNewerApplication sha256 flash ca active =
      some (decide (stEnd.newestSlotIndex ≠ n), stEnd.newestSlotIndex, stEnd.candidates,
        stEnd.active) := by
  have hfst := scanSlotsLog_fst sha256 flash n l
    { candidates := cands, active := active, newestSlotIndex := n }
  rw [h] at hfst
  unfold hasValidNewerApplication
  rw [hn, hc, hl, ← hfst]
  rfl

theorem scanSlotsLog_nil (sha256 : List Nat → List Nat) (flash : FlashUpdater) (n : Nat)
    (st : ScanState) : scanSlotsLog sha256 flash n [] st = some (st, []) := rfl

/-- The scan of a single slot that is newer than the active application and passes
`checkApplication`: slot 0 is returned. -/
theorem scan_one_slot_selected (sha256 : List Nat → List Nat) (flash : FlashUpdater)
    (ca : CandidateApplications) (active a a1 act1 a2 : MbedApplication)
    (hn : ca._nbrOfSlots = 1) (hc : ca._candidateApplicationArray = [some a])
    (ha : ensureHeader flash a = a1) (hact : ensureHeader flash active = act1)
    (hnew : newerHeader a1._applicationHeader act1._applicationHeader = true)
    (hcheck : checkApplication sha256 flash a1 = (UC_ERR_NONE, a2)) :
    hasValidNewerApplication sha256 flash ca active = some (true, 0, [some a2], act1) := by
  have h := hasValidNewerApplication_of_log sha256 flash ca active 1 [some a] [0] _ _ hn hc rfl
    (scanSlotsLog_cons sha256 flash 1 0 [] _ _ _ _ _
      (scanStepLog_first_check sha256 flash 1 0 0 [some a] [some a2] active a a1 act1 a2
        UC_ERR_NONE rfl ha hact hnew hcheck rfl rfl)
      (scanSlotsLog_nil sha256 flash 1 _))
  rw [h]
  rfl

theorem flashOneImage_header :
    readApplicationHeader flashOneImage (MbedApplication.new 0 112) =
      (UC_ERR_NONE, decodedApplication 0 112 5 3 (sumDigest [1, 2, 3])) :=
  readApplicationHeader_stored flashOneImage [] [] 0 112 5 3 [1, 2, 3] [1, 2, 3] rfl
    (by decide) rfl rfl (by decide) (by decide)

theorem flashOneImage_region :
    headerRegion flashOneImage 0 =
      encodeHeaderV2 5 3 (sumDigest [1, 2, 3]) (List.replicate 32 0) (List.replicate 16 0) 0 :=
  headerRegion_of_mem flashOneImage 0 _ [1, 2, 3]
    (encodeHeaderV2_length 5 3 0 _ _ _ (sumDigest_length _) (by decide) (by decide))
    (encodeHeaderV2_lt 5 3 0 _ _ _ (sumDigest_lt _) (replicate_zero_lt 32)
      (replicate_zero_lt 16))
    (fun k hk => flashOf_mem [] [] 0 _ (by decide) k (by rw [imageOf_length]; omega))

theorem flashTwoImages_ensure0 :
    ensureHeader flashTwoImages (MbedApplication.new 0 112) =
      decodedApplication 0 112 5 3 (sumDigest [1, 2, 3]) :=
  (constructed_of_read flashTwoImages 0 112 _
    (readApplicationHeader_stored flashTwoImages [] _ 0 112 5 3 [1, 2, 3] [1, 2, 3] rfl
      (by decide) rfl rfl (by decide) (by decide))).1

theorem flashTwoImages_ensure1 :
    ensureHeader flashTwoImages (MbedApplication.new 4096 4208) =
      decodedApplication 4096 4208 3 1 (sumDigest [9]) :=
  (constructed_of_read flashTwoImages 4096 4208 _
    (readApplicationHeader_stored flashTwoImages [(0, imageOf 5 [1, 2, 3])] _ 4096 4208 3 1 [9]
      [9] rfl (by decide!) rfl rfl (by decide) (by decide))).1

theorem flashThreeSlots_headerActive :
    readApplicationHeader flashThreeSlots (MbedApplication.new 0 112) =
      (UC_ERR_NONE, decodedApplication 0 112 3 1 (sumDigest [9])) :=
  readApplicationHeader_stored flashThreeSlots [] _ 0 112 3 1 [9] [9] rfl
    (by decide) rfl rfl (by decide) (by decide)

theorem flashThreeSlots_header0 :
    readApplicationHeader flashThreeSlots (MbedApplication.new 65536 65648) =
      (UC_ERR_NONE, decodedApplication 65536 65648 5 1 (sumDigest [1, 1])) :=
  readApplicationHeader_stored flashThreeSlots [activeImage] _ 65536 65648 5 1 [1, 1] [1] rfl
    (by decide!) rfl rfl (by decide) (by decide)

theorem flashThreeSlots_header2 :
    readApplicationHeader flashThreeSlots (MbedApplication.new 73728 73840) =
      (UC_ERR_NONE, decodedApplication 73728 73840 6 1 (sumDigest [3])) :=
  readApplicationHeader_stored flashThreeSlots
    [activeImage, (65536, imageWrongHash 5 [1]), (69632, imageOf 4 [2])] _
    73728 73840 6 1 [3] [3] rfl (by decide!) rfl rfl (by decide) (by decide)

theorem flashSlotOlder_header0 :
    readApplicationHeader flashSlotOlder (MbedApplication.new 65536 65648) =
      (UC_ERR_NONE, decodedApplication 65536 65648 2 1 (sumDigest [1])) :=
  readApplicationHeader_stored flashSlotOlder [activeImage] _ 65536 65648 2 1 [1] [1] rfl
    (by decide!) rfl rfl (by decide) (by decide)

theorem flashSlotOlder_check0 :
    checkApplication sumDigest flashSlotOlder (MbedApplication.new 65536 65648) =
      (UC_ERR_NONE, decodedApplication 65536 65648 2 1 (sumDigest [1])) :=
  (checkApplication_of_read sumDigest flashSlotOlder _ _ flashSlotOlder_header0).trans (by decide!)

theorem flashSlotWrongHash_header0 :
    readApplicationHeader flashSlotWrongHash (MbedApplication.new 65536 65648) =
      (UC_ERR_NONE, decodedApplication 65536 65648 5 1 (sumDigest [1, 1])) :=
  readApplicationHeader_stored flashSlotWrongHash [activeImage] _ 65536 65648 5 1 [1, 1] [1] rfl
    (by decide!) rfl rfl (by decide) (by decide)

theorem flashSlotWrongHash_check0 :
    checkApplication sumDigest flashSlotWrongHash (MbedApplication.new 65536 65648) =
      (UC_ERR_HASH_INVALID,
        (decodedApplication 65536 65648 5 1 (sumDigest [1, 1])).setState NOT_VALID) :=
  (checkApplication_of_read sumDigest flashSlotWrongHash _ _
    flashSlotWrongHash_header0).trans (by decide!)

theorem flashSlotNewer_header0 :
    readApplicationHeader flashSlotNewer (MbedApplication.new 65536 65648) =
      (UC_ERR_NONE, decodedApplication 65536 65648 5 1 (sumDigest [1])) :=
  readApplicationHeader_stored flashSlotNewer [activeImage] _ 65536 65648 5 1 [1] [1] rfl
    (by decide!) rfl rfl (by decide) (by decide)

theorem flashSlotNewer_slots :
    (oneSlot flashSlotNewer)._candidateApplicationArray =
      [some (MbedApplication.new 65536 65648)] := by
  decide!

theorem flashSkipSlot_headerActive :
    readApplicationHeader flashSkipSlot (MbedApplication.new 0 112) =
      (UC_ERR_NONE, decodedApplication 0 112 3 1 (sumDigest [9])) :=
  readApplicationHeader_stored flashSkipSlot [] _ 0 112 3 1 [9] [9] rfl
    (by decide) rfl rfl (by decide) (by decide)

theorem flashSkipSlot_header0 :
    readApplicationHeader flashSkipSlot (MbedApplication.new 65536 65648) =
      (UC_ERR_NONE, decodedApplication 65536 65648 5 1 (sumDigest [1])) :=
  readApplicationHeader_stored flashSkipSlot [activeImage] _ 65536 65648 5 1 [1] [1] rfl
    (by decide!) rfl rfl (by decide) (by decide)

theorem flashSkipSlot_header1 :
    readApplicationHeader flashSkipSlot (MbedApplication.new 69632 69744) =
      (UC_ERR_NONE, decodedApplication 69632 69744 4 1 (sumDigest [2])) :=
  readApplicationHeader_stored flashSkipSlot [activeImage, (65536, imageOf 5 [1])] _
    69632 69744 4 1 [2] [2] rfl
    (by decide!) rfl rfl (by decide) (by decide)

theorem flashSkipSlot_header2 :
    readApplicationHeader flashSkipSlot (MbedApplication.new 73728 73840) =
      (UC_ERR_NONE, decodedApplication 73728 73840 6 1 (sumDigest [1, 3])) :=
  readApplicationHeader_stored flashSkipSlot
    [activeImage, (65536, imageOf 5 [1]), (69632, imageOf 4 [2])] _
    73728 73840 6 1 [1, 3] [3] rfl
    (by decide!) rfl rfl (by decide) (by decide)

theorem flashSkipSlot_check0 :
    checkApplication sumDigest flashSkipSlot (MbedApplication.new 65536 65648) =
      (UC_ERR_NONE, decodedApplication 65536 65648 5 1 (sumDigest [1])) :=
  (checkApplication_of_read sumDigest flashSkipSlot _ _ flashSkipSlot_header0).trans (by decide!)

theorem flashSkipSlot_check2 :
    checkApplication sumDigest flashSkipSlot (MbedApplication.new 73728 73840) =
      (UC_ERR_HASH_INVALID,
        (decodedApplication 73728 73840 6 1 (sumDigest [1, 3])).setState NOT_VALID) :=
  (checkApplication_of_read sumDigest flashSkipSlot _ _ flashSkipSlot_header2).trans (by decide!)

theorem flashSkipSlot_slots :
    (CandidateApplications.new 3 flashSkipSlot 65536 12288 112 3)._candidateApplicationArray =
      [some (MbedApplication.new 65536 65648), some (MbedApplication.new 69632 69744),
        some (MbedApplication.new 73728 73840)] := by
  decide!

theorem replicate_lt (n b : Nat) (h : b < 256) : ∀ x ∈ List.replicate n b, x < 256 := by
  intro x hx
  simp only [List.mem_replicate] at hx
  rw [hx.2]
  exact h

theorem flashReadFailure_headerActive :
    readApplicationHeader flashReadFailure (MbedApplication.new 0 112) =
      (UC_ERR_NONE, decodedApplication 0 112 3 1 (sumDigest [9])) :=
  readApplicationHeader_stored flashReadFailure [] _ 0 112 3 1 [9] [9] rfl
    (by decide) (by decide) (by decide) (by decide) (by decide)

theorem flashReadFailure_header0 :
    readApplicationHeader flashReadFailure (MbedApplication.new 65536 65648) =
      (UC_ERR_NONE,
        decodedApplication 65536 65648 5 300 (sumDigest (List.replicate 256 1))) :=
  readApplicationHeader_stored flashReadFailure [activeImage] [] 65536 65648 5 300
    (List.replicate 256 1) (List.replicate 300 1) rfl
    (by decide!) (by decide) (by decide) (by decide) (by decide)

theorem flashReadFailure_hashed :
    hashedBytes flashReadFailure
      (decodedApplication 65536 65648 5 300 (sumDigest (List.replicate 256 1))) =
        (true, List.replicate 256 1) := by
  rw [hashedBytes_second_chunk_fails flashReadFailure _ (by decide) (by decide) (by decide)
    (by decide) (by decide)]
  have h := body_chunk_stored flashReadFailure [activeImage] [] 65536
    (encodeHeaderV2 5 300 (sumDigest (List.replicate 256 1)) (List.replicate 32 0)
      (List.replicate 16 0) 0) (List.replicate 300 1) rfl (by decide!)
    (encodeHeaderV2_length 5 300 0 _ _ _ (sumDigest_length _) (by simp) (by simp))
    (replicate_lt 300 1 (by decide)) 256 (by rw [List.length_replicate]; decide)
  rw [List.take_replicate] at h
  exact congrArg (Prod.mk true) h

theorem flashReadFailure_body :
    bodyBytes flashReadFailure
      (decodedApplication 65536 65648 5 300 (sumDigest (List.replicate 256 1))) =
        List.replicate 300 1 :=
  bodyBytes_stored flashReadFailure [activeImage] [] 65536
    (encodeHeaderV2 5 300 (sumDigest (List.replicate 256 1)) (List.replicate 32 0)
      (List.replicate 16 0) 0) (List.replicate 300 1) _ rfl (by decide!)
    (encodeHeaderV2_length 5 300 0 _ _ _ (sumDigest_length _) (by simp) (by simp))
    (replicate_lt 300 1 (by decide)) rfl (by rw [List.length_replicate]; rfl)

theorem flashReadFailure_check0 :
    checkApplication sumDigest flashReadFailure (MbedApplication.new 65536 65648) =
      (UC_ERR_NONE,
        decodedApplication 65536 65648 5 300 (sumDigest (List.replicate 256 1))) := by
  rw [checkApplication_of_read sumDigest flashReadFailure _ _ flashReadFailure_header0,
    flashReadFailure_hashed]
  decide!

theorem flashReadFailure_slots :
    (oneSlot flashReadFailure)._candidateApplicationArray =
      [some (MbedApplication.new 65536 65648)] := by
  decide!

theorem flashReadFailureValid_header0 :
    readApplicationHeader flashReadFailureValid (MbedApplication.new 65536 65648) =
      (UC_ERR_NONE,
        decodedApplication 65536 65648 5 300 (sumDigest (List.replicate 300 1))) := by
  have h := readApplicationHeader_stored flashReadFailureValid [activeImage] [] 65536 65648 5
    (List.replicate 300 1).length (List.replicate 300 1) (List.replicate 300 1) rfl
    (by decide!) (by decide) (by decide) (by decide) (by rw [List.length_replicate]; decide)
  rw [List.length_replicate] at h
  exact h

theorem flashReadFailureValid_hashed :
    hashedBytes flashReadFailureValid
      (decodedApplication 65536 65648 5 300 (sumDigest (List.replicate 300 1))) =
        (true, List.replicate 256 1) := by
  rw [hashedBytes_second_chunk_fails flashReadFailureValid _ (by decide) (by decide) (by decide)
    (by decide) (by decide)]
  have h := body_chunk_stored flashReadFailureValid [activeImage] [] 65536
    (encodeHeaderV2 5 (List.replicate 300 1).length (sumDigest (List.replicate 300 1))
      (List.replicate 32 0) (List.replicate 16 0) 0) (List.replicate 300 1) rfl (by decide!)
    (encodeHeaderV2_length 5 _ 0 _ _ _ (sumDigest_length _) (by simp) (by simp))
    (replicate_lt 300 1 (by decide)) 256 (by rw [List.length_replicate]; decide)
  rw [List.take_replicate] at h
  exact congrArg (Prod.mk true) h

theorem flashReadFailureValid_check0 :
    checkApplication sumDigest flashReadFailureValid (MbedApplication.new 65536 65648) =
      (UC_ERR_HASH_INVALID,
        (decodedApplication 65536 65648 5 300
          (sumDigest (List.replicate 300 1))).setState NOT_VALID) := by
  rw [checkApplication_of_read sumDigest flashReadFailureValid _ _ flashReadFailureValid_header0,
    flashReadFailureValid_hashed]
  decide!

/-! ## Decoding of the stored headers -/

/-- Witness for C7: the header of a version-5 image at address 0 decodes with
firmwareVersion 5 and firmwareSize 3. -/
theorem readApplicationHeader_decodes_witness :
    flashOneImage.readFails 0 8 = false ∧ flashOneImage.readFails 0 112 = false ∧
    (readApplicationHeader flashOneImage (MbedApplication.new 0 112)).1 = UC_ERR_NONE ∧
    (readApplicationHeader flashOneImage
      (MbedApplication.new 0 112)).2._applicationHeader.firmwareVersion = 5 ∧
    (readApplicationHeader flashOneImage
      (MbedApplication.new 0 112)).2._applicationHeader.firmwareSize = 3 := by
  have hok : (readApplicationHeader flashOneImage (MbedApplication.new 0 112)).1 =
      UC_ERR_NONE := by rw [flashOneImage_header]
  obtain ⟨hv, hm, hc⟩ := conditions_of_ok flashOneImage (MbedApplication.new 0 112) hok
  have hb := headerRegion_lt flashOneImage (MbedApplication.new 0 112)._applicationHeaderAddress
  have hl := headerRegion_length flashOneImage
    (MbedApplication.new 0 112)._applicationHeaderAddress
  have h := (readApplicationHeader_decodes flashOneImage (MbedApplication.new 0 112) rfl rfl).2.2
    (by
      rw [bigEndian_slice4 _ hb 4 (by omega), bigEndian_slice4 _ hb 0 (by omega), List.drop_zero]
      exact fun h => h.elim (fun h4 => h4 hv) (fun h0 => h0 hm))
    (by
      rw [bigEndian_slice4 _ hb 108 (by omega)]
      exact fun h => h hc)
  have hfv : bigEndian (slice (headerRegion flashOneImage 0) 8 8) = 5 := by
    rw [flashOneImage_region]
    decide!
  have hfs : bigEndian (slice (headerRegion flashOneImage 0) 16 8) = 3 := by
    rw [flashOneImage_region]
    decide!
  exact ⟨rfl, rfl, h.1, h.2.1.trans hfv, h.2.2.1.trans hfs⟩

/-- C8 fails as stated: the header at address 0 decodes, and with bit 0 of its byte 0 (a byte
of the magic, before the checksum field) inverted decoding fails with `InvalidHeader`, which
is not `InvalidChecksum`. -/
theorem bit_flip_in_magic_is_invalid_header :
    (readApplicationHeader flashOneImage (MbedApplication.new 0 112)).1 = UC_ERR_NONE ∧
    (readApplicationHeader (flipBit flashOneImage (0 + 0) 0) (MbedApplication.new 0 112)).1 =
      UC_ERR_INVALID_HEADER ∧
    (readApplicationHeader (flipBit flashOneImage (0 + 0) 0) (MbedApplication.new 0 112)).1 ≠
      UC_ERR_INVALID_CHECKSUM := by
  refine ⟨by rw [flashOneImage_header], by decide!, by decide!⟩

/-- Witness for C8 (amended): bit 3 of byte 20 (in the firmware size) inverted. -/
theorem readApplicationHeader_bit_flip_witness :
    (readApplicationHeader flashOneImage (MbedApplication.new 0 112)).1 = UC_ERR_NONE ∧
    (readApplicationHeader (flipBit flashOneImage (0 + 20) 3) (MbedApplication.new 0 112)).1 =
      UC_ERR_INVALID_CHECKSUM :=
  have hok : (readApplicationHeader flashOneImage (MbedApplication.new 0 112)).1 =
      UC_ERR_NONE := by rw [flashOneImage_header]
  ⟨hok,
    readApplicationHeader_bit_flip flashOneImage (MbedApplication.new 0 112) 20 3 (by decide)
      (by decide) hok⟩

/-- Witness for C9: the header of the version-5 image with the body `[1, 2, 3]`. -/
theorem encode_decode_roundtrip_witness :
    (readApplicationHeader flashOneImage (MbedApplication.new 0 112)).1 = UC_ERR_NONE ∧
    (readApplicationHeader flashOneImage
      (MbedApplication.new 0 112)).2._applicationHeader.firmwareVersion = 5 ∧
    (readApplicationHeader flashOneImage
      (MbedApplication.new 0 112)).2._applicationHeader.firmwareSize = 3 ∧
    (readApplicationHeader flashOneImage
      (MbedApplication.new 0 112)).2._applicationHeader.hash = sumDigest [1, 2, 3] ∧
    (readApplicationHeader flashOneImage
      (MbedApplication.new 0 112)).2._applicationHeader.campaign = List.replicate 16 0 :=
  encode_decode_roundtrip flashOneImage (MbedApplication.new 0 112) 5 3 0 (sumDigest [1, 2, 3])
    (List.replicate 32 0) (List.replicate 16 0) (by decide) (by decide) (sumDigest_length _)
    (sumDigest_lt _) (by decide) (replicate_zero_lt 32) (by decide) (replicate_zero_lt 16) rfl rfl
    flashOneImage_region

/-- Witness for C6: the image of version 5 is newer than the image of version 3, and not the
other way round. -/
theorem isNewerThan_antisymmetric_witness :
    (isNewerThan flashTwoImages (MbedApplication.new 0 112) (MbedApplication.new 4096 4208)).1 =
      true ∧
    (isNewerThan flashTwoImages
      (isNewerThan flashTwoImages (MbedApplication.new 0 112)
        (MbedApplication.new 4096 4208)).2.2
      (isNewerThan flashTwoImages (MbedApplication.new 0 112)
        (MbedApplication.new 4096 4208)).2.1).1 = false :=
  have h : (isNewerThan flashTwoImages (MbedApplication.new 0 112)
      (MbedApplication.new 4096 4208)).1 = true := by
    rw [isNewerThan_of_ensure flashTwoImages _ _ _ _ flashTwoImages_ensure0
      flashTwoImages_ensure1]
    decide
  ⟨h,
    isNewerThan_antisymmetric flashTwoImages (MbedApplication.new 0 112)
      (MbedApplication.new 4096 4208) h⟩

/-! ## The scans of the concrete inputs -/

/-- The recorded scan of the three slots of `flashSkipSlot`: slot 0 is checked and selected,
slot 1 is not checked, slot 2 is checked and fails. -/
theorem flashSkipSlot_scan :
    scanSlotsLog sumDigest flashSkipSlot 3 [0, 1, 2]
      { candidates := [some (MbedApplication.new 65536 65648),
          some (MbedApplication.new 69632 69744), some (MbedApplication.new 73728 73840)]
        active := MbedApplication.new 0 112
        newestSlotIndex := 3 } =
      some
        ({ candidates := [some (decodedApplication 65536 65648 5 1 (sumDigest [1])),
              some (decodedApplication 69632 69744 4 1 (sumDigest [2])),
              some ((decodedApplication 73728 73840 6 1 (sumDigest [1, 3])).setState NOT_VALID)]
           active := decodedApplication 0 112 3 1 (sumDigest [9])
           newestSlotIndex := 0 },
         [({ candidates := [some (MbedApplication.new 65536 65648),
                some (MbedApplication.new 69632 69744), some (MbedApplication.new 73728 73840)]
             active := MbedApplication.new 0 112
             newestSlotIndex := 3 }, 0, [(0, UC_ERR_NONE)]),
          ({ candidates := [some (decodedApplication 65536 65648 5 1 (sumDigest [1])),
                some (MbedApplication.new 69632 69744), some (MbedApplication.new 73728 73840)]
             active := decodedApplication 0 112 3 1 (sumDigest [9])
             newestSlotIndex := 0 }, 1, []),
          ({ candidates := [some (decodedApplication 65536 65648 5 1 (sumDigest [1])),
                some (decodedApplication 69632 69744 4 1 (sumDigest [2])),
                some (MbedApplication.new 73728 73840)]
             active := decodedApplication 0 112 3 1 (sumDigest [9])
             newestSlotIndex := 0 }, 2, [(2, UC_ERR_HASH_INVALID)])]) :=
  scanSlotsLog_cons sumDigest flashSkipSlot 3 0 _ _ _ _ _ _
    (scanStepLog_first_check sumDigest flashSkipSlot 3 0 0 _ _ _ _ _ _ _ _ rfl
      (constructed_of_read flashSkipSlot _ _ _ flashSkipSlot_header0).1
      (constructed_of_read flashSkipSlot _ _ _ flashSkipSlot_headerActive).1 (by decide)
      (checkApplication_of_read_decoded sumDigest flashSkipSlot _ _ _ flashSkipSlot_header0
        flashSkipSlot_check0) rfl rfl)
    (scanSlotsLog_cons sumDigest flashSkipSlot 3 1 _ _ _ _ _ _
      (scanStepLog_next_skip sumDigest flashSkipSlot 3 1 0 _ _ _ _ _ _ _ (by decide) rfl rfl
        (constructed_of_read flashSkipSlot _ _ _ flashSkipSlot_header1).1
        (ensureHeader_decoded flashSkipSlot 65536 65648 5 1 (sumDigest [1])) (by decide) rfl)
      (scanSlotsLog_cons sumDigest flashSkipSlot 3 2 _ _ _ _ _ _
        (scanStepLog_next_check sumDigest flashSkipSlot 3 2 0 0 _ _ _ _ _ _ _ _ _ (by decide)
          rfl rfl (constructed_of_read flashSkipSlot _ _ _ flashSkipSlot_header2).1
          (ensureHeader_decoded flashSkipSlot 65536 65648 5 1 (sumDigest [1])) (by decide)
          (checkApplication_of_read_decoded sumDigest flashSkipSlot _ _ _ flashSkipSlot_header2
            flashSkipSlot_check2) rfl rfl)
        (scanSlotsLog_nil sumDigest flashSkipSlot 3 _)))

/-! ## Selection of the newest valid candidate -/

/-- The two outcomes of a scan over a collection whose slots are constructed applications
with unread headers: either no slot is returned and no slot is both newer than the active
application and valid, or slot `b` is returned, it passed `checkApplication`, it is newer
than the active application, and no valid slot has a greater version or the same version at
a lower index. -/
theorem scan_cases (sha256 : List Nat → List Nat) (flash : FlashUpdater)
    (ca : CandidateApplications) (active : MbedApplication)
    (hslots : ∀ j, j < ca._nbrOfSlots → ∃ a, ca._candidateApplicationArray.getD j none = some a ∧
      a._applicationHeader.initialized = false) :
    (∃ cands act1,
      hasValidNewerApplication sha256 flash ca active =
        some (false, ca._nbrOfSlots, cands, act1) ∧
      ∀ j a, j < ca._nbrOfSlots → ca._candidateApplicationArray.getD j none = some a →
        ¬ (newerHeader (readApplicationHeader flash a).2._applicationHeader
              (ensureHeader flash active)._applicationHeader = true ∧
            (checkApplication sha256 flash a).1 = UC_ERR_NONE)) ∨
    (∃ b ab cands,
      hasValidNewerApplication sha256 flash ca active =
        some (true, b, cands, ensureHeader flash active) ∧
      b < ca._nbrOfSlots ∧ ca._candidateApplicationArray.getD b none = some ab ∧
      cands.getD b none = some (readApplicationHeader flash ab).2 ∧
      (checkApplication sha256 flash ab).1 = UC_ERR_NONE ∧
      newerHeader (readApplicationHeader flash ab).2._applicationHeader
        (ensureHeader flash active)._applicationHeader = true ∧
      ∀ j a, j < ca._nbrOfSlots → ca._candidateApplicationArray.getD j none = some a →
        (checkApplication sha256 flash a).1 = UC_ERR_NONE →
        (readApplicationHeader flash a).2._applicationHeader.firmwareVersion ≤
            (readApplicationHeader flash ab).2._applicationHeader.firmwareVersion ∧
          ((readApplicationHeader flash a).2._applicationHeader.firmwareVersion =
              (readApplicationHeader flash ab).2._applicationHeader.firmwareVersion → b ≤ j)) := by
  obtain ⟨st, hres, _, _, hact0, hbest⟩ := hasValidNewerApplication_scan sha256 flash ca active hslots
  rcases hbest with ⟨hn, hnone⟩ | ⟨b, ab, hb, hbk, hab, hcb, hokb, hnewb, hmax⟩
  · left
    refine ⟨st.candidates, st.active, ?_, hnone⟩
    rw [hres, hn]
    simp
  · right
    refine ⟨b, ab, st.candidates, ?_, hbk, hab, hcb, hokb, hnewb, hmax⟩
    rw [hres, hb, hact0 (by omega)]
    have : b ≠ ca._nbrOfSlots := by omega
    simp [this]

/-- The contract of the scan that holds on the code: for a collection built with at most the
configured maximum of slots, the scan returns; when it returns true with `newestSlotIndex = i`
then `i` is a slot index, `checkApplication` succeeded on slot `i` (its header decoded, its
firmwareSize is not 0, the digest of the bytes that were hashed equals the header hash, its
state is Valid), and slot `i` is newer than the active application; when it returns false,
`newestSlotIndex` is the number of slots. -/
theorem hasValidNewerApplication_sound (sha256 : List Nat → List Nat) (flash : FlashUpdater)
    (maxSlots storageAddress storageSize headerSize nbrOfSlots : Nat)
    (active : MbedApplication) (hmax : nbrOfSlots ≤ maxSlots) :
    ∃ found i cands act1,
      hasValidNewerApplication sha256 flash
        (CandidateApplications.new maxSlots flash storageAddress storageSize headerSize
          nbrOfSlots) active = some (found, i, cands, act1) ∧
      (found = false → i = nbrOfSlots) ∧
      (found = true → i < nbrOfSlots ∧ ∃ slot final,
        (CandidateApplications.new maxSlots flash storageAddress storageSize headerSize
          nbrOfSlots)._candidateApplicationArray.getD i none = some slot ∧
        cands.getD i none = some final ∧
        (checkApplication sha256 flash slot).1 = UC_ERR_NONE ∧
        final = (checkApplication sha256 flash slot).2 ∧
        (readApplicationHeader flash slot).1 = UC_ERR_NONE ∧
        0 < final._applicationHeader.firmwareSize ∧
        final._applicationHeader.hash = sha256 (hashedBytes flash final).2 ∧
        final._applicationHeader.state = VALID ∧
        (isNewerThan flash final act1).1 = true) := by
  obtain ⟨hn, hslots⟩ := new_slots maxSlots flash storageAddress storageSize headerSize
    nbrOfSlots hmax
  generalize CandidateApplications.new maxSlots flash storageAddress storageSize headerSize
    nbrOfSlots = ca at hn hslots
  subst hn
  rcases scan_cases sha256 flash ca active hslots with
    ⟨cands, act1, hres, _⟩ | ⟨b, ab, cands, hres, hbk, hab, hcb, hokb, hnewb, _⟩
  · exact ⟨false, _, cands, act1, hres, fun _ => rfl, fun h => by simp at h⟩
  · obtain ⟨hr, hCR, hv, hs, hh, hst⟩ := checkApplication_ok sha256 flash ab hokb
    refine ⟨true, b, cands, _, hres, fun h => by simp at h, fun _ => ⟨hbk, ab, _, hab, hcb, hokb,
      hCR.symm, hr, hs, hh, hst, ?_⟩⟩
    simp only [isNewerThan, ensureHeader_idem,
      ensureHeader_of_initialized flash _ (readApplicationHeader_initialized flash ab)]
    exact hnewb

/-- C1 at a failing input. Slot 0 declares a body of 300 bytes and carries the digest of the
first 256 of them; the read of the second chunk fails. `checkApplication` flags the failed
read, yet returns success and leaves the slot Valid, and `hasValidNewerApplication` returns
slot 0, although the digest of the slot's declared body is not the header hash. -/
theorem selected_slot_with_unverified_body :
    (hashedBytes flashReadFailure
      (readApplicationHeader flashReadFailure (MbedApplication.new 65536 65648)).2).1 = true ∧
    (checkApplication sumDigest flashReadFailure (MbedApplication.new 65536 65648)).1 =
      UC_ERR_NONE ∧
    (checkApplication sumDigest flashReadFailure
      (MbedApplication.new 65536 65648)).2._applicationHeader.state = VALID ∧
    (checkApplication sumDigest flashReadFailure
      (MbedApplication.new 65536 65648)).2._applicationHeader.firmwareSize = 300 ∧
    (checkApplication sumDigest flashReadFailure
      (MbedApplication.new 65536 65648)).2._applicationHeader.hash ≠
        sumDigest (bodyBytes flashReadFailure
          (checkApplication sumDigest flashReadFailure (MbedApplication.new 65536 65648)).2) ∧
    (oneSlot flashReadFailure)._candidateApplicationArray =
      [some (MbedApplication.new 65536 65648)] ∧
    scanOutcome (hasValidNewerApplication sumDigest flashReadFailure (oneSlot flashReadFailure)
      (MbedApplication.new 0 112)) = some (true, 0) := by
  have hc := flashReadFailure_check0
  refine ⟨?_, ?_, ?_, ?_, ?_, flashReadFailure_slots, ?_⟩
  · rw [flashReadFailure_header0]
    exact congrArg Prod.fst flashReadFailure_hashed
  · rw [hc]
  · rw [hc]
    rfl
  · rw [hc]
    rfl
  · rw [hc]
    show (decodedApplication 65536 65648 5 300
      (sumDigest (List.replicate 256 1)))._applicationHeader.hash ≠ _
    rw [flashReadFailure_body]
    decide!
  · rw [scan_one_slot_selected sumDigest flashReadFailure (oneSlot flashReadFailure)
      (MbedApplication.new 0 112) _ _ _ _ rfl flashReadFailure_slots
      (constructed_of_read flashReadFailure _ _ _ flashReadFailure_header0).1
      (constructed_of_read flashReadFailure _ _ _ flashReadFailure_headerActive).1 (by decide)
      (checkApplication_of_read_decoded sumDigest flashReadFailure _ _ _
        flashReadFailure_header0 flashReadFailure_check0)]
    rfl

/-- The causes of a failed header read, on the header region. -/
theorem readApplicationHeader_fails_iff (flash : FlashUpdater) (app : MbedApplication) :
    (readApplicationHeader flash app).1 ≠ UC_ERR_NONE ↔
      (flash.readFails app._applicationHeaderAddress 8 = true ∨
        flash.readFails app._applicationHeaderAddress 112 = true ∨
        parseUint32 ((headerRegion flash app._applicationHeaderAddress).drop 4) ≠ 2 ∨
        parseUint32 (headerRegion flash app._applicationHeaderAddress) ≠ 0x5a51b3d4 ∨
        parseUint32 ((headerRegion flash app._applicationHeaderAddress).drop 108) ≠
          crc32 (headerRegion flash app._applicationHeaderAddress) 108) := by
  constructor
  · intro hne
    by_contra hcause
    simp only [not_or, not_not, Bool.not_eq_true] at hcause
    obtain ⟨h8, h112, hv, hm, hc⟩ := hcause
    apply hne
    rw [readApplicationHeader_of_reads flash app h8 h112]
    simp [hv, hm, hc]
  · intro hcause hok
    obtain ⟨h8, h112⟩ := reads_of_ok flash app hok
    obtain ⟨hv, hm, hc⟩ := conditions_of_ok flash app hok
    rcases hcause with h | h | h | h | h
    · rw [h8] at h; exact absurd h (by decide)
    · rw [h112] at h; exact absurd h (by decide)
    · exact h hv
    · exact h hm
    · exact h hc

/-- C14: for an application whose header has not yet been read: the header read fails exactly
on a flash read error, an unsupported version, a bad magic or a checksum mismatch; when it
fails, `getFirmwareVersion` and `getFirmwareSize` each return 0 and leave the state NotValid;
when it succeeds they return the decoded firmwareVersion and firmwareSize, the big-endian
u64 at offsets 8 and 16 of the header. -/
theorem getFirmwareVersion_getFirmwareSize_unread (flash : FlashUpdater) (app : MbedApplication)
    (h : app._applicationHeader.initialized = false) :
    ((readApplicationHeader flash app).1 ≠ UC_ERR_NONE ↔
      (flash.readFails app._applicationHeaderAddress 8 = true ∨
        flash.readFails app._applicationHeaderAddress 112 = true ∨
        bigEndian (slice (headerRegion flash app._applicationHeaderAddress) 4 4) ≠ 2 ∨
        bigEndian (slice (headerRegion flash app._applicationHeaderAddress) 0 4) ≠ 0x5a51b3d4 ∨
        bigEndian (slice (headerRegion flash app._applicationHeaderAddress) 108 4) ≠
          crc32 (headerRegion flash app._applicationHeaderAddress) 108)) ∧
    ((readApplicationHeader flash app).1 ≠ UC_ERR_NONE →
      (getFirmwareVersion flash app).1 = 0 ∧
      (getFirmwareVersion flash app).2._applicationHeader.state = NOT_VALID ∧
      (getFirmwareSize flash app).1 = 0 ∧
      (getFirmwareSize flash app).2._applicationHeader.state = NOT_VALID) ∧
    ((readApplicationHeader flash app).1 = UC_ERR_NONE →
      (getFirmwareVersion flash app).1 =
        bigEndian (slice (headerRegion flash app._applicationHeaderAddress) 8 8) ∧
      (getFirmwareVersion flash app).2._applicationHeader.state = VALID ∧
      (getFirmwareSize flash app).1 =
        bigEndian (slice (headerRegion flash app._applicationHeaderAddress) 16 8) ∧
      (getFirmwareSize flash app).2._applicationHeader.state = VALID) := by
  have hb := headerRegion_lt flash app._applicationHeaderAddress
  have hl := headerRegion_length flash app._applicationHeaderAddress
  refine ⟨?_, ?_, ?_⟩
  · rw [readApplicationHeader_fails_iff, bigEndian_slice4 _ hb 4 (by omega),
      bigEndian_slice4 _ hb 0 (by omega), bigEndian_slice4 _ hb 108 (by omega), List.drop_zero]
  · intro hne
    simp [getFirmwareVersion, getFirmwareSize, h, hne, MbedApplication.setState]
  · intro hok
    obtain ⟨h8, h112⟩ := reads_of_ok flash app hok
    obtain ⟨hv, hm, hc⟩ := conditions_of_ok flash app hok
    have hst := readApplicationHeader_state flash app
    rw [if_pos hok] at hst
    have hfields : (readApplicationHeader flash app).2._applicationHeader.firmwareVersion =
          parseUint64 ((headerRegion flash app._applicationHeaderAddress).drop 8) ∧
        (readApplicationHeader flash app).2._applicationHeader.firmwareSize =
          parseUint64 ((headerRegion flash app._applicationHeaderAddress).drop 16) := by
      rw [readApplicationHeader_of_reads flash app h8 h112]
      simp [hv, hm, hc, decodedHeader]
    rw [bigEndian_slice8 _ hb 8 (by omega), bigEndian_slice8 _ hb 16 (by omega)]
    simp [getFirmwareVersion, getFirmwareSize, h, hok, hst, hfields.1, hfields.2]

/-- Witness for C14: the unread application on the header of the version-5 image with a
3-byte body. -/
theorem getFirmwareVersion_getFirmwareSize_unread_witness :
    (MbedApplication.new 0 112)._applicationHeader.initialized = false ∧
    (getFirmwareVersion flashOneImage (MbedApplication.new 0 112)).1 = 5 ∧
    (getFirmwareSize flashOneImage (MbedApplication.new 0 112)).1 = 3 :=
  have h := (getFirmwareVersion_getFirmwareSize_unread flashOneImage (MbedApplication.new 0 112)
    rfl).2.2 (by rw [flashOneImage_header])
  have hv : bigEndian (slice (headerRegion flashOneImage 0) 8 8) = 5 := by
    rw [flashOneImage_region]
    decide!
  have hs : bigEndian (slice (headerRegion flashOneImage 0) 16 8) = 3 := by
    rw [flashOneImage_region]
    decide!
  ⟨rfl, h.1.trans hv, h.2.2.1.trans hs⟩

/-- What `isValid` does on an application whose header has not yet been read: the header is
read, the state is then Valid or NotValid, the branch that calls `checkApplication` is not
taken, and the result is whether the header decoded. -/
theorem isValid_unread (sha256 : List Nat → List Nat) (flash : FlashUpdater)
    (app : MbedApplication) (h : app._applicationHeader.initialized = false) :
    isValid sha256 flash app =
      (decide ((readApplicationHeader flash app).1 = UC_ERR_NONE),
        (readApplicationHeader flash app).2) := by
  have hst := readApplicationHeader_state flash app
  unfold isValid
  by_cases hok : (readApplicationHeader flash app).1 = UC_ERR_NONE
  · rw [if_pos hok] at hst
    simp [h, hok, hst]
  · rw [if_neg hok] at hst
    simp [h, hok, hst, setState_self]

/-- C11 at a failing input. On every flash, `isValid` of an application whose header has not
yet been read returns whether the header decodes and never runs the body check. For the
freshly constructed application on the image whose body does not match its digest,
`isValid` returns true and leaves the state Valid although `checkApplication` on the same
flash returns `UC_ERR_HASH_INVALID`. -/
theorem isValid_without_body_check :
    (∀ (sha256 : List Nat → List Nat) (flash : FlashUpdater) (app : MbedApplication),
      app._applicationHeader.initialized = false →
      (isValid sha256 flash app).1 = decide ((readApplicationHeader flash app).1 = UC_ERR_NONE)) ∧
    (isValid sumDigest flashSlotWrongHash (MbedApplication.new 65536 65648)).1 = true ∧
    (isValid sumDigest flashSlotWrongHash
      (MbedApplication.new 65536 65648)).2._applicationHeader.state = VALID ∧
    (checkApplication sumDigest flashSlotWrongHash (MbedApplication.new 65536 65648)).1 =
      UC_ERR_HASH_INVALID := by
  refine ⟨?_, ?_, ?_, ?_⟩
  · intro sha256 flash app h
    rw [isValid_unread sha256 flash app h]
  · rw [isValid_unread sumDigest flashSlotWrongHash _ rfl, flashSlotWrongHash_header0]
    rfl
  · rw [isValid_unread sumDigest flashSlotWrongHash _ rfl, flashSlotWrongHash_header0]
    rfl
  · rw [flashSlotWrongHash_check0]

/-- C13 at failing inputs. Once the header has decoded, `checkApplication` never returns
`UC_ERR_READING_FLASH`. On a valid image of 300 bytes whose second chunk cannot be read, the
failed read is flagged but the returned code is `UC_ERR_HASH_INVALID`; on the image whose
header carries the digest of the first 256 bytes, the returned code is `UC_ERR_NONE` and the
state is Valid. -/
theorem checkApplication_loses_read_error :
    (∀ (sha256 : List Nat → List Nat) (flash : FlashUpdater) (app : MbedApplication),
      (readApplicationHeader flash app).1 = UC_ERR_NONE →
      (checkApplication sha256 flash app).1 ≠ UC_ERR_READING_FLASH) ∧
    ((readApplicationHeader flashReadFailureValid (MbedApplication.new 65536 65648)).1 =
        UC_ERR_NONE ∧
      (readApplicationHeader flashReadFailureValid
        (MbedApplication.new 65536 65648)).2._applicationHeader.firmwareSize = 300 ∧
      (hashedBytes flashReadFailureValid
        (readApplicationHeader flashReadFailureValid (MbedApplication.new 65536 65648)).2).1 =
          true ∧
      (checkApplication sumDigest flashReadFailureValid (MbedApplication.new 65536 65648)).1 =
        UC_ERR_HASH_INVALID) ∧
    ((hashedBytes flashReadFailure
        (readApplicationHeader flashReadFailure (MbedApplication.new 65536 65648)).2).1 = true ∧
      (checkApplication sumDigest flashReadFailure (MbedApplication.new 65536 65648)).1 =
        UC_ERR_NONE ∧
      (checkApplication sumDigest flashReadFailure
        (MbedApplication.new 65536 65648)).2._applicationHeader.state = VALID) := by
  refine ⟨?_, ⟨?_, ?_, ?_, ?_⟩, ⟨?_, ?_, ?_⟩⟩
  · intro sha256 flash app hok
    rw [checkApplication_code, if_neg (not_not.mpr hok)]
    split_ifs <;> decide
  · rw [flashReadFailureValid_header0]
  · rw [flashReadFailureValid_header0]
    rfl
  · rw [flashReadFailureValid_header0]
    exact congrArg Prod.fst flashReadFailureValid_hashed
  · rw [flashReadFailureValid_check0]
  · rw [flashReadFailure_header0]
    exact congrArg Prod.fst flashReadFailure_hashed
  · rw [flashReadFailure_check0]
  · rw [flashReadFailure_check0]
    rfl

/-! ## The declared body and the 32-bit loop counter -/

theorem bodyBytes_length (flash : FlashUpdater) (app : MbedApplication) :
    (bodyBytes flash app).length = app._applicationHeader.firmwareSize := by
  simp [bodyBytes]

/-- The contract of `checkApplication` that holds on the code: when no read fails, the
declared size fits in 32 bits and the body lies within the 32-bit address space, the result
is the header error, `UC_ERR_FIRMWARE_EMPTY` for size 0, `UC_ERR_HASH_INVALID` when the
digest of the declared body differs from the header hash, and `UC_ERR_NONE` otherwise; the
state is Valid on success and NotValid otherwise. -/
theorem checkApplication_contract (sha256 : List Nat → List Nat) (flash : FlashUpdater)
    (app : MbedApplication) (hok : ∀ addr size, flash.readFails addr size = false)
    (hsize : (readApplicationHeader flash app).2._applicationHeader.firmwareSize < 2 ^ 32)
    (hfit : (readApplicationHeader flash app).2._applicationAddress +
      (readApplicationHeader flash app).2._applicationHeader.firmwareSize ≤ 2 ^ 32) :
    (checkApplication sha256 flash app).1 =
      (if (readApplicationHeader flash app).1 ≠ UC_ERR_NONE then (readApplicationHeader flash app).1
       else if (readApplicationHeader flash app).2._applicationHeader.firmwareSize = 0 then
         UC_ERR_FIRMWARE_EMPTY
       else if (readApplicationHeader flash app).2._applicationHeader.hash ≠
           sha256 (bodyBytes flash (readApplicationHeader flash app).2) then UC_ERR_HASH_INVALID
       else UC_ERR_NONE) ∧
    (checkApplication sha256 flash app).2._applicationHeader.state =
      (if (checkApplication sha256 flash app).1 = UC_ERR_NONE then VALID else NOT_VALID) := by
  constructor
  · rw [checkApplication_code, hashedBytes_eq_body flash _ hok hsize hfit]
    by_cases h1 : (readApplicationHeader flash app).1 = UC_ERR_NONE
    · rw [if_neg (not_not.mpr h1), if_neg (not_not.mpr h1)]
      by_cases h2 : (readApplicationHeader flash app).2._applicationHeader.firmwareSize = 0
      · rw [if_neg (by omega), if_pos h2]
      · rw [if_pos (by omega), if_neg h2]
        by_cases h3 : (readApplicationHeader flash app).2._applicationHeader.hash =
            sha256 (bodyBytes flash (readApplicationHeader flash app).2)
        · rw [if_pos h3, if_neg (not_not.mpr h3)]
        · rw [if_neg h3, if_pos h3]
    · rw [if_pos h1, if_pos h1]
  · unfold checkApplication
    simp only []
    split_ifs <;> simp_all [MbedApplication.setState]

theorem foldl_add_tail (f : Nat → Nat) (hf : ∀ k, 2 ≤ k → f k = 255) (n : Nat) :
    ((List.range (n + 2)).map f).foldl (fun acc b => acc + b) 0 = f 0 + f 1 + 255 * n := by
  induction n with
  | zero => simp [List.range_succ]
  | succ n ih =>
    rw [List.range_succ, List.map_append, List.foldl_append, ih]
    simp [hf (n + 2) (by omega)]
    omega

theorem hugeImage_length : hugeImage.length = 114 := by decide!

theorem flashHuge_erased (k : Nat) (hk : 2 ≤ k) : flashHuge.mem (112 + k) % 256 = 255 := by
  show hugeImage.getD (112 + k) 0xFF % 256 = 255
  rw [List.getD_eq_default _ _ (by rw [hugeImage_length]; omega)]

theorem flashHuge_header :
    readApplicationHeader flashHuge (MbedApplication.new 0 112) =
      (UC_ERR_NONE, decodedApplication 0 112 5 (2 ^ 32 + 1) (sumDigest [1])) :=
  readApplicationHeader_image flashHuge 0 112 5 (2 ^ 32 + 1) [1] [1, 1]
    (fun k hk => by
      show hugeImage.getD (0 + k) 0xFF = hugeImage.getD k 0
      rw [Nat.zero_add]
      exact getD_default _ _ _ _ (by rw [hugeImage_length]; omega))
    rfl rfl (by decide) (by decide)

theorem flashHuge_check :
    checkApplication sumDigest flashHuge (MbedApplication.new 0 112) =
      (UC_ERR_NONE, decodedApplication 0 112 5 (2 ^ 32 + 1) (sumDigest [1])) :=
  (checkApplication_of_read sumDigest flashHuge _ _ flashHuge_header).trans (by decide!)

/-- C20 at a failing input. The header at address 0 decodes with firmwareSize `2 ^ 32 + 1`
and no read fails; `checkApplication` feeds the SHA-256 context the single byte at the body
address, not the `2 ^ 32 + 1` bytes of the declared body. -/
theorem hashed_bytes_of_truncated_size :
    (∀ addr size, flashHuge.readFails addr size = false) ∧
    (readApplicationHeader flashHuge (MbedApplication.new 0 112)).1 = UC_ERR_NONE ∧
    (readApplicationHeader flashHuge
      (MbedApplication.new 0 112)).2._applicationHeader.firmwareSize = 2 ^ 32 + 1 ∧
    hashedBytes flashHuge (readApplicationHeader flashHuge (MbedApplication.new 0 112)).2 =
      (false, [1]) ∧
    (bodyBytes flashHuge
      (readApplicationHeader flashHuge (MbedApplication.new 0 112)).2).length = 2 ^ 32 + 1 := by
  refine ⟨fun _ _ => rfl, ?_, ?_, ?_, ?_⟩
  · rw [flashHuge_header]
  · rw [flashHuge_header]
    rfl
  · rw [flashHuge_header]
    decide!
  · rw [bodyBytes_length, flashHuge_header]
    rfl

theorem sumDigest_bodyBytes_tail (flash : FlashUpdater) (app : MbedApplication) (addr n : Nat)
    (hs : app._applicationHeader.firmwareSize = n + 2) (ha : app._applicationAddress = addr)
    (hf : ∀ k, 2 ≤ k → flash.mem (addr + k) % 256 = 255) :
    sumDigest (bodyBytes flash app) =
      List.replicate 32
        ((flash.mem (addr + 0) % 256 + flash.mem (addr + 1) % 256 + 255 * n) % 256) := by
  unfold sumDigest bodyBytes
  rw [hs, ha, foldl_add_tail _ hf]

/-- C12 at a failing input. No read of `flashHuge` fails and the header at address 0 decodes
with firmwareSize `2 ^ 32 + 1`; the digest of the declared body is not the header hash, yet
`checkApplication` returns `UC_ERR_NONE` and leaves the state Valid, because the digest it
compares is that of the first byte alone. -/
theorem checkApplication_truncated_size :
    (∀ addr size, flashHuge.readFails addr size = false) ∧
    (readApplicationHeader flashHuge (MbedApplication.new 0 112)).1 = UC_ERR_NONE ∧
    (readApplicationHeader flashHuge
      (MbedApplication.new 0 112)).2._applicationHeader.firmwareSize = 2 ^ 32 + 1 ∧
    (readApplicationHeader flashHuge (MbedApplication.new 0 112)).2._applicationHeader.hash ≠
      sumDigest (bodyBytes flashHuge
        (readApplicationHeader flashHuge (MbedApplication.new 0 112)).2) ∧
    (checkApplication sumDigest flashHuge (MbedApplication.new 0 112)).1 = UC_ERR_NONE ∧
    (checkApplication sumDigest flashHuge
      (MbedApplication.new 0 112)).2._applicationHeader.state = VALID := by
  have h0 : flashHuge.mem (112 + 0) % 256 = 1 := by decide!
  have h1 : flashHuge.mem (112 + 1) % 256 = 1 := by decide!
  refine ⟨fun _ _ => rfl, ?_, ?_, ?_, ?_, ?_⟩
  · rw [flashHuge_header]
  · rw [flashHuge_header]
    rfl
  · rw [flashHuge_header,
      sumDigest_bodyBytes_tail flashHuge _ 112 (2 ^ 32 - 1) rfl rfl flashHuge_erased, h0, h1]
    decide
  · rw [flashHuge_check]
  · rw [flashHuge_check]
    rfl

theorem new_over_maximum (maxSlots : Nat) (flash : FlashUpdater)
    (storageAddress storageSize headerSize nbrOfSlots : Nat) (hmax : maxSlots < nbrOfSlots) :
    CandidateApplications.new maxSlots flash storageAddress storageSize headerSize nbrOfSlots =
      { _storageAddress := storageAddress
        _storageSize := storageSize
        _nbrOfSlots := nbrOfSlots
        _candidateApplicationArray := List.replicate maxSlots none } := by
  unfold CandidateApplications.new
  simp only [if_neg (Nat.not_le.mpr hmax)]

theorem getD_replicate_none (n j : Nat) :
    (List.replicate n (none : Option MbedApplication)).getD j none = none := by
  rw [List.getD_eq_getElem?_getD]
  by_cases h : j < n
  · simp [List.getElem?_replicate, h]
  · simp [List.getElem?_replicate, h]

/-- C16, the constructor called with more slots than the configured maximum: the collection
built with `maxSlots + 1 + k` slots reports `getNbrOfSlots = maxSlots + 1 + k`, above the
maximum, holds no constructed application at all, and `hasValidNewerApplication` dereferences
an entry that is not a constructed application at the first index it visits. -/
theorem getNbrOfSlots_above_maximum (maxSlots k : Nat) (flash : FlashUpdater)
    (storageAddress storageSize headerSize : Nat) :
    maxSlots < getNbrOfSlots (CandidateApplications.new maxSlots flash storageAddress
      storageSize headerSize (maxSlots + 1 + k)) ∧
    (CandidateApplications.new maxSlots flash storageAddress storageSize headerSize
      (maxSlots + 1 + k))._candidateApplicationArray = List.replicate maxSlots none ∧
    ∀ (sha256 : List Nat → List Nat) (activeApplication : MbedApplication),
      hasValidNewerApplication sha256 flash
        (CandidateApplications.new maxSlots flash storageAddress storageSize headerSize
          (maxSlots + 1 + k)) activeApplication = none := by
  rw [new_over_maximum maxSlots flash storageAddress storageSize headerSize (maxSlots + 1 + k)
    (by omega)]
  refine ⟨by unfold getNbrOfSlots; simp only; omega, rfl, ?_⟩
  intro sha256 activeApplication
  unfold hasValidNewerApplication
  simp only
  rw [show maxSlots + 1 + k = (maxSlots + k) + 1 by omega, List.range_succ_eq_map]
  simp only [scanSlots, scanStep, if_true, getD_replicate_none]

/-! ## The recorded scan -/

theorem scanSlotsLog_indices (sha256 : List Nat → List Nat) (flash : FlashUpdater)
    (nbrOfSlots : Nat) (l : List Nat) :
    ∀ st stEnd visits, scanSlotsLog sha256 flash nbrOfSlots l st = some (stEnd, visits) →
      visits.map (fun v => v.2.1) = l := by
  induction l with
  | nil =>
    intro st stEnd visits h
    simp only [scanSlotsLog, Option.some.injEq, Prod.mk.injEq] at h
    rw [← h.2]
    rfl
  | cons i rest ih =>
    intro st stEnd visits h
    unfold scanSlotsLog at h
    cases hs : scanStepLog sha256 flash nbrOfSlots st i with
    | none => rw [hs] at h; cases h
    | some p =>
      rw [hs] at h
      cases hr : scanSlotsLog sha256 flash nbrOfSlots rest p.1 with
      | none => simp only [hr] at h; cases h
      | some q =>
        simp only [hr, Option.some.injEq, Prod.mk.injEq] at h
        rw [← h.2]
        simp only [List.map_cons, List.cons.injEq, true_and]
        exact ih p.1 q.1 q.2 hr

theorem scanSlotsLog_visit (sha256 : List Nat → List Nat) (flash : FlashUpdater)
    (nbrOfSlots : Nat) (l : List Nat) :
    ∀ st stEnd visits, scanSlotsLog sha256 flash nbrOfSlots l st = some (stEnd, visits) →
      ∀ v ∈ visits, ∃ st1, scanStepLog sha256 flash nbrOfSlots v.1 v.2.1 = some (st1, v.2.2) := by
  induction l with
  | nil =>
    intro st stEnd visits h
    simp only [scanSlotsLog, Option.some.injEq, Prod.mk.injEq] at h
    rw [← h.2]
    intro v hv
    cases hv
  | cons i rest ih =>
    intro st stEnd visits h
    unfold scanSlotsLog at h
    cases hs : scanStepLog sha256 flash nbrOfSlots st i with
    | none => rw [hs] at h; cases h
    | some p =>
      rw [hs] at h
      cases hr : scanSlotsLog sha256 flash nbrOfSlots rest p.1 with
      | none => simp only [hr] at h; cases h
      | some q =>
        simp only [hr, Option.some.injEq, Prod.mk.injEq] at h
        rw [← h.2]
        intro v hv
        rcases List.mem_cons.mp hv with hv | hv
        · rw [hv]
          exact ⟨p.1, hs⟩
        · exact ih p.1 q.1 q.2 hr v hv

theorem scanStepLog_spec (sha256 : List Nat → List Nat) (flash : FlashUpdater)
    (nbrOfSlots : Nat) (st : ScanState) (slotIndex : Nat) (st1 : ScanState)
    (log : List (Nat × UCError))
    (h : scanStepLog sha256 flash nbrOfSlots st slotIndex = some (st1, log)) :
    ∃ best candidate, runningBest nbrOfSlots st = some best ∧
      st.candidates.getD slotIndex none = some candidate ∧
      ((isNewerThan flash candidate best).1 = false →
        log = [] ∧ st1.newestSlotIndex = st.newestSlotIndex) ∧
      ((isNewerThan flash candidate best).1 = true →
        log = [(slotIndex,
          (checkApplication sha256 flash (isNewerThan flash candidate best).2.1).1)] ∧
        ((checkApplication sha256 flash (isNewerThan flash candidate best).2.1).1 ≠ UC_ERR_NONE →
          st1.newestSlotIndex = st.newestSlotIndex) ∧
        ((checkApplication sha256 flash (isNewerThan flash candidate best).2.1).1 = UC_ERR_NONE →
          st1.newestSlotIndex = slotIndex)) := by
  unfold scanStepLog at h
  unfold runningBest
  by_cases hn : st.newestSlotIndex = nbrOfSlots
  · rw [if_pos hn] at h
    rw [if_pos hn]
    cases hc : st.candidates.getD slotIndex none with
    | none => rw [hc] at h; cases h
    | some candidate =>
      rw [hc] at h
      simp only [Option.some.injEq] at h
      refine ⟨st.active, candidate, rfl, rfl, ?_, ?_⟩
      · intro hf
        rw [hf] at h
        simp only [scanCheckLog, Bool.false_eq_true, if_false, Prod.mk.injEq] at h
        exact ⟨h.2.symm, by rw [← h.1]⟩
      · intro ht
        rw [ht] at h
        simp only [scanCheckLog, if_true] at h
        split_ifs at h with hcode
        · simp only [Prod.mk.injEq] at h
          exact ⟨h.2.symm, fun _ => by rw [← h.1], fun hz => absurd hz hcode⟩
        · simp only [Prod.mk.injEq] at h
          exact ⟨h.2.symm, fun hz => absurd (not_not.mp hcode) hz, fun _ => by rw [← h.1]⟩
  · rw [if_neg hn] at h
    rw [if_neg hn]
    cases hb : st.candidates.getD st.newestSlotIndex none with
    | none => rw [hb] at h; cases h
    | some best =>
      cases hc : st.candidates.getD slotIndex none with
      | none => rw [hb, hc] at h; cases h
      | some candidate =>
        rw [hb, hc] at h
        simp only [Option.some.injEq] at h
        refine ⟨best, candidate, rfl, rfl, ?_, ?_⟩
        · intro hf
          rw [hf] at h
          simp only [scanCheckLog, Bool.false_eq_true, if_false, Prod.mk.injEq] at h
          exact ⟨h.2.symm, by rw [← h.1]⟩
        · intro ht
          rw [ht] at h
          simp only [scanCheckLog, if_true] at h
          split_ifs at h with hcode
          · simp only [Prod.mk.injEq] at h
            exact ⟨h.2.symm, fun _ => by rw [← h.1], fun hz => absurd hz hcode⟩
          · simp only [Prod.mk.injEq] at h
            exact ⟨h.2.symm, fun hz => absurd (not_not.mp hcode) hz, fun _ => by rw [← h.1]⟩
/-- C19. In every scan of `hasValidNewerApplication` that returns, the slots are visited once
each in index order, and at the visit of slot i: the candidate is compared with the running
best (the active application while no slot is selected, the selected slot afterwards); when
the comparison `isNewerThan` is false, `checkApplication` is not called and `newestSlotIndex`
is unchanged; when it is true, `checkApplication` is called once, on slot i, and
`newestSlotIndex` is unchanged if it fails and becomes i if it succeeds. -/
theorem hasValidNewerApplication_checks_only_newer (sha256 : List Nat → List Nat)
    (flash : FlashUpdater) (ca : CandidateApplications) (activeApplication : MbedApplication)
    (h : (hasValidNewerApplication sha256 flash ca activeApplication).isSome = true) :
    ∃ stEnd visits,
      scanSlotsLog sha256 flash ca._nbrOfSlots (List.range ca._nbrOfSlots)
        { candidates := ca._candidateApplicationArray
          active := activeApplication
          newestSlotIndex := ca._nbrOfSlots } = some (stEnd, visits) ∧
      hasValidNewerApplication sha256 flash ca activeApplication =
        some (decide (stEnd.newestSlotIndex ≠ ca._nbrOfSlots), stEnd.newestSlotIndex,
          stEnd.candidates, stEnd.active) ∧
      visits.map (fun v => v.2.1) = List.range ca._nbrOfSlots ∧
      ∀ v ∈ visits, ∃ best candidate st1,
        runningBest ca._nbrOfSlots v.1 = some best ∧
        v.1.candidates.getD v.2.1 none = some candidate ∧
        scanStep sha256 flash ca._nbrOfSlots v.1 v.2.1 = some st1 ∧
        ((isNewerThan flash candidate best).1 = false →
          v.2.2 = [] ∧ st1.newestSlotIndex = v.1.newestSlotIndex) ∧
        ((isNewerThan flash candidate best).1 = true →
          v.2.2 = [(v.2.1,
            (checkApplication sha256 flash (isNewerThan flash candidate best).2.1).1)] ∧
          ((checkApplication sha256 flash (isNewerThan flash candidate best).2.1).1 ≠
              UC_ERR_NONE → st1.newestSlotIndex = v.1.newestSlotIndex) ∧
          ((checkApplication sha256 flash (isNewerThan flash candidate best).2.1).1 =
              UC_ERR_NONE → st1.newestSlotIndex = v.2.1)) := by
  have hfst := scanSlotsLog_fst sha256 flash ca._nbrOfSlots (List.range ca._nbrOfSlots)
    { candidates := ca._candidateApplicationArray
      active := activeApplication
      newestSlotIndex := ca._nbrOfSlots }
  unfold hasValidNewerApplication at h ⊢
  rw [← hfst] at h ⊢
  cases hlog : scanSlotsLog sha256 flash ca._nbrOfSlots (List.range ca._nbrOfSlots)
    { candidates := ca._candidateApplicationArray
      active := activeApplication
      newestSlotIndex := ca._nbrOfSlots } with
  | none =>
    rw [hlog] at h
    simp at h
  | some p =>
    obtain ⟨stEnd, visits⟩ := p
    refine ⟨stEnd, visits, rfl, rfl, scanSlotsLog_indices _ _ _ _ _ _ _ hlog, ?_⟩
    intro v hv
    obtain ⟨st1, hstep⟩ := scanSlotsLog_visit _ _ _ _ _ _ _ hlog v hv
    obtain ⟨best, candidate, hb, hc, hfalse, htrue⟩ := scanStepLog_spec _ _ _ _ _ _ _ hstep
    have hs := scanStepLog_fst sha256 flash ca._nbrOfSlots v.1 v.2.1
    rw [hstep] at hs
    exact ⟨best, candidate, st1, hb, hc, hs.symm, hfalse, htrue⟩

/-- Witness for C19: the active image is version 3, slot 0 holds a valid version 5, slot 1 a
valid version 4 and slot 2 a version 6 with a wrong hash. Slot 0 is checked and selected,
slot 1 is not checked, slot 2 is checked, fails, and slot 0 stays selected. -/
theorem hasValidNewerApplication_checks_only_newer_witness :
    (hasValidNewerApplication sumDigest flashSkipSlot
      (CandidateApplications.new 3 flashSkipSlot 65536 12288 112 3)
      (MbedApplication.new 0 112)).isSome = true ∧
    ∃ stEnd visits,
      scanSlotsLog sumDigest flashSkipSlot 3 (List.range 3)
        { candidates := (CandidateApplications.new 3 flashSkipSlot 65536 12288 112
            3)._candidateApplicationArray
          active := MbedApplication.new 0 112
          newestSlotIndex := 3 } = some (stEnd, visits) ∧
      stEnd.newestSlotIndex = 0 ∧
      visits.map (fun v => v.2.2) = [[(0, UC_ERR_NONE)], [], [(2, UC_ERR_HASH_INVALID)]] := by
  have hn : (CandidateApplications.new 3 flashSkipSlot 65536 12288 112 3)._nbrOfSlots = 3 :=
    (new_slots 3 flashSkipSlot 65536 12288 112 3 (Nat.le_refl 3)).1
  have hsome : (hasValidNewerApplication sumDigest flashSkipSlot
      (CandidateApplications.new 3 flashSkipSlot 65536 12288 112 3)
      (MbedApplication.new 0 112)).isSome = true := by
    rw [hasValidNewerApplication_of_log sumDigest flashSkipSlot _ _ 3 _ [0, 1, 2] _ _ hn
      flashSkipSlot_slots rfl flashSkipSlot_scan]
    rfl
  refine ⟨hsome, ?_⟩
  obtain ⟨stEnd, visits, hlog, _, _, _⟩ :=
    hasValidNewerApplication_checks_only_newer sumDigest flashSkipSlot
      (CandidateApplications.new 3 flashSkipSlot 65536 12288 112 3)
      (MbedApplication.new 0 112) hsome
  rw [hn] at hlog
  have hout := flashSkipSlot_scan
  rw [← flashSkipSlot_slots, show [0, 1, 2] = List.range 3 from rfl, hlog] at hout
  simp only [Option.some.injEq, Prod.mk.injEq] at hout
  refine ⟨stEnd, visits, hlog, ?_, ?_⟩
  · rw [hout.1]
  · rw [hout.2]
    rfl

theorem readPage_ok (flash : PagedFlash) (pageSize addr : Nat)
    (h : flash.readPageCode addr = UC_ERR_NONE) :
    readPage flash pageSize addr = (UC_ERR_NONE, (addr + pageSize) % 2 ^ 32) := by
  unfold readPage
  rw [if_pos h]

theorem writePage_ok (flash : PagedFlash) (pageSize : Nat) (w : WriteCursor)
    (he : ∀ a, flash.eraseCode a = UC_ERR_NONE) (hp : ∀ a, flash.programCode a = UC_ERR_NONE) :
    (writePage flash pageSize w).1 = UC_ERR_NONE ∧
    (writePage flash pageSize w).2.addr = (w.addr + pageSize) % 2 ^ 32 := by
  unfold writePage
  simp only [he, hp, ite_self, ne_eq, not_true_eq_false, if_false]
  split_ifs <;> exact ⟨rfl, rfl⟩

theorem split_after_success (x : PageOp) (ops pre post : List PageOp) (op : PageOp)
    (hx : x.code = UC_ERR_NONE) (h : x :: ops = pre ++ op :: post)
    (hop : op.code ≠ UC_ERR_NONE) : ∃ rest, pre = x :: rest ∧ ops = rest ++ op :: post := by
  cases pre with
  | nil =>
    simp only [List.nil_append, List.cons.injEq] at h
    rw [← h.1] at hop
    exact absurd hx hop
  | cons y rest =>
    simp only [List.cons_append, List.cons.injEq] at h
    exact ⟨rest, by rw [h.1], h.2⟩

theorem split_singleton (x op : PageOp) (pre post : List PageOp)
    (h : [x] = pre ++ op :: post) : pre = [] ∧ op = x ∧ post = [] := by
  cases pre with
  | nil =>
    simp only [List.nil_append, List.cons.injEq] at h
    exact ⟨rfl, h.1.symm, h.2.symm⟩
  | cons y rest =>
    simp only [List.cons_append, List.cons.injEq] at h
    have := h.2
    simp at this

/-- The page operations of the copy loop: the operations made are appended to the trace, an
operation that reports a failure is the last one made and its code is the returned code, and
a returned failure code is the code of the last operation made. -/
theorem copyLoop_trace (flash : PagedFlash) (pageSize copySize : Nat) :
    ∀ fuel st, ∃ ops,
      (copyLoop flash pageSize copySize fuel st).2.trace = st.trace ++ ops ∧
      (∀ pre op post, ops = pre ++ op :: post → op.code ≠ UC_ERR_NONE →
        post = [] ∧ (copyLoop flash pageSize copySize fuel st).1 = some op.code) ∧
      (∀ code, (copyLoop flash pageSize copySize fuel st).1 = some code → code ≠ UC_ERR_NONE →
        ∃ pre last, ops = pre ++ [last] ∧ last.code = code) := by
  intro fuel
  induction fuel with
  | zero =>
    intro st
    refine ⟨[], ?_, ?_, ?_⟩
    · unfold copyLoop
      split_ifs <;> simp
    · intro pre op post h
      simp at h
    · intro code h hne
      unfold copyLoop at h
      split_ifs at h
      · simp only [Option.some.injEq] at h
        exact absurd h.symm hne
  | succ fuel ih =>
    intro st
    unfold copyLoop
    by_cases hlt : st.nbrOfBytes < copySize
    · simp only [if_pos hlt]
      by_cases hr : (readPage flash pageSize st.sourceAddr).1 ≠ UC_ERR_NONE
      · simp only [if_pos hr]
        refine ⟨[PageOp.read st.sourceAddr (readPage flash pageSize st.sourceAddr).1],
          rfl, ?_, ?_⟩
        · intro pre op post h _
          obtain ⟨_, h2, h3⟩ := split_singleton _ _ _ _ h
          rw [h2]
          exact ⟨h3, rfl⟩
        · intro code h _
          simp only [Option.some.injEq] at h
          exact ⟨[], _, rfl, h⟩
      · simp only [if_neg hr]
        have hr0 : (readPage flash pageSize st.sourceAddr).1 = UC_ERR_NONE := not_not.mp hr
        by_cases hw : (writePage flash pageSize st.dest).1 ≠ UC_ERR_NONE
        · simp only [if_pos hw]
          refine ⟨[PageOp.read st.sourceAddr (readPage flash pageSize st.sourceAddr).1,
            PageOp.write st.dest.addr (writePage flash pageSize st.dest).1], ?_, ?_, ?_⟩
          · simp
          · intro pre op post h hop
            obtain ⟨rest, _, h2⟩ := split_after_success (PageOp.read _ _) _ _ _ _ hr0 h hop
            obtain ⟨_, h3, h4⟩ := split_singleton _ _ _ _ h2
            rw [h3]
            exact ⟨h4, rfl⟩
          · intro code h _
            simp only [Option.some.injEq] at h
            exact ⟨[_], _, rfl, h⟩
        · simp only [if_neg hw]
          have hw0 : (writePage flash pageSize st.dest).1 = UC_ERR_NONE := not_not.mp hw
          obtain ⟨ops, h1, h2, h3⟩ := ih
            { sourceAddr := (readPage flash pageSize st.sourceAddr).2
              dest := (writePage flash pageSize st.dest).2
              nbrOfBytes := (st.nbrOfBytes + pageSize) % 2 ^ 32
              trace := (st.trace ++
                [PageOp.read st.sourceAddr (readPage flash pageSize st.sourceAddr).1]) ++
                [PageOp.write st.dest.addr (writePage flash pageSize st.dest).1] }
          refine ⟨PageOp.read st.sourceAddr (readPage flash pageSize st.sourceAddr).1 ::
            PageOp.write st.dest.addr (writePage flash pageSize st.dest).1 :: ops, ?_, ?_, ?_⟩
          · rw [h1]
            simp
          · intro pre op post h hop
            obtain ⟨rest, _, h4⟩ := split_after_success (PageOp.read _ _) _ _ _ _ hr0 h hop
            obtain ⟨rest2, _, h5⟩ := split_after_success (PageOp.write _ _) _ _ _ _ hw0 h4 hop
            exact h2 rest2 op post h5 hop
          · intro code h hne
            obtain ⟨pre, last, h4, h5⟩ := h3 code h hne
            exact ⟨_ :: _ :: pre, last, by rw [h4]; rfl, h5⟩
    · simp only [if_neg hlt]
      refine ⟨[], by simp, ?_, ?_⟩
      · intro pre op post h
        simp at h
      · intro code h hne
        simp only [Option.some.injEq] at h
        exact absurd h.symm hne
theorem getCandidateAddress_code (flash : FlashUpdater) (ca : CandidateApplications)
    (slotIndex : Nat) (r : UCError × Nat × Nat)
    (h : getCandidateAddress flash ca slotIndex = some r) : r.1 = UC_ERR_NONE := by
  unfold getCandidateAddress at h
  split_ifs at h
  simp only [Option.some.injEq] at h
  rw [← h]

/-- C18. For every flash, collection, slot, destination and number of loop turns, the page
operations `installApplication` has made satisfy: while the copy loop is still running no
operation has reported a failure; when the call has returned, an operation that reported a
failure is the last operation made and its code is the returned code; and a returned failure
code is the code of the last operation made. -/
theorem installApplication_aborts_on_first_failure (flash : PagedFlash)
    (ca : CandidateApplications) (headerSize fuel slotIndex destHeaderAddress : Nat) :
    (∀ trace, installApplication flash ca headerSize fuel slotIndex destHeaderAddress =
        InstallOutcome.running trace → ∀ op ∈ trace, op.code = UC_ERR_NONE) ∧
    (∀ code trace, installApplication flash ca headerSize fuel slotIndex destHeaderAddress =
        InstallOutcome.returned code trace →
      (∀ pre op post, trace = pre ++ op :: post → op.code ≠ UC_ERR_NONE →
        post = [] ∧ code = op.code) ∧
      (code ≠ UC_ERR_NONE → ∃ pre last, trace = pre ++ [last] ∧ last.code = code)) := by
  unfold installApplication
  cases hga : getCandidateAddress flash.toFlashUpdater ca slotIndex with
  | none => exact ⟨fun _ h => (by cases h), fun _ _ h => (by cases h)⟩
  | some r =>
    obtain ⟨result, sourceAddr, slotSize⟩ := r
    have hres : result = UC_ERR_NONE := getCandidateAddress_code _ _ _ _ hga
    subst hres
    simp only [ne_eq, not_true_eq_false, if_false]
    cases hc : ca._candidateApplicationArray.getD slotIndex none with
    | none => exact ⟨fun _ h => (by cases h), fun _ _ h => (by cases h)⟩
    | some candidate =>
      simp only
      generalize hst : ({ sourceAddr := sourceAddr
                          dest := { addr := destHeaderAddress
                                    sectorErased := false
                                    pagesFlashed := 0
                                    nextSectorAddress :=
                                      (destHeaderAddress +
                                        flash.get_sector_size destHeaderAddress) % 2 ^ 32 }
                          nbrOfBytes := 0
                          trace := [] } : CopyState) = st0
      have htr : st0.trace = [] := by rw [← hst]
      obtain ⟨ops, h1, h2, h3⟩ := copyLoop_trace flash flash.get_page_size
        (((getFirmwareSize flash.toFlashUpdater candidate).1 + headerSize) % 2 ^ 64) fuel st0
      rw [htr, List.nil_append] at h1
      generalize copyLoop flash flash.get_page_size
        (((getFirmwareSize flash.toFlashUpdater candidate).1 + headerSize) % 2 ^ 64) fuel st0 = r
        at h1 h2 h3
      obtain ⟨code0, st⟩ := r
      simp only at h1 h2 h3
      cases code0 with
      | none =>
        refine ⟨?_, fun _ _ h => (by cases h)⟩
        intro trace h op hop
        simp only [InstallOutcome.running.injEq] at h
        rw [← h, h1] at hop
        by_contra hne
        obtain ⟨pre, post, hsplit⟩ := List.append_of_mem hop
        have := (h2 pre op post hsplit hne).2
        cases this
      | some code1 =>
        refine ⟨fun _ h => (by cases h), ?_⟩
        intro code trace h
        simp only [InstallOutcome.returned.injEq] at h
        rw [← h.1, ← h.2, h1]
        refine ⟨?_, ?_⟩
        · intro pre op post hsplit hne
          obtain ⟨hp, hcode⟩ := h2 pre op post hsplit hne
          simp only [Option.some.injEq] at hcode
          exact ⟨hp, hcode⟩
        · intro hne
          exact h3 code1 rfl hne

/-- The outcome of `installApplication` from the outcome of its copy loop, when the slot
address is computed and the slot is a constructed application. -/
theorem installApplication_of_copy (flash : PagedFlash) (ca : CandidateApplications)
    (headerSize fuel slotIndex destHeaderAddress sourceAddr slotEnd size : Nat)
    (candidate : MbedApplication)
    (hga : getCandidateAddress flash.toFlashUpdater ca slotIndex =
      some (UC_ERR_NONE, sourceAddr, slotEnd))
    (hc : ca._candidateApplicationArray.getD slotIndex none = some candidate)
    (hsize : (getFirmwareSize flash.toFlashUpdater candidate).1 = size) :
    installApplication flash ca headerSize fuel slotIndex destHeaderAddress =
      match copyLoop flash flash.get_page_size ((size + headerSize) % 2 ^ 64) fuel
        { sourceAddr := sourceAddr
          dest := { addr := destHeaderAddress
                    sectorErased := false
                    pagesFlashed := 0
                    nextSectorAddress :=
                      (destHeaderAddress + flash.get_sector_size destHeaderAddress) % 2 ^ 32 }
          nbrOfBytes := 0
          trace := [] } with
      | (none, st) => InstallOutcome.running st.trace
      | (some code, st) => InstallOutcome.returned code st.trace := by
  unfold installApplication
  simp only [hga, hc, hsize, ne_eq, not_true_eq_false, if_false]

theorem pagedOf_slot_size (readPageCode : Nat → UCError) (pageSize : Nat) :
    (getFirmwareSize (pagedOf flashSlotNewer pageSize readPageCode).toFlashUpdater
      (MbedApplication.new 65536 65648)).1 = 1 :=
  congrArg Prod.fst (constructed_of_read flashSlotNewer _ _ _ flashSlotNewer_header0).2.2

theorem flashSlotNewer_slot0 :
    (oneSlot flashSlotNewer)._candidateApplicationArray.getD 0 none =
      some (MbedApplication.new 65536 65648) :=
  (congrArg (fun l => l.getD 0 none) flashSlotNewer_slots).trans rfl

/-- Witness for C18: slot 0 at address 65536 holds an image of 113 bytes, pages are 64 bytes
and the page read at 65600 fails. The first page is read and written, the second read fails,
its code is returned and nothing is read or written afterwards, however many loop turns are
allowed. -/
theorem installApplication_aborts_on_first_failure_witness :
    installApplication pagedReadFailure (oneSlot flashSlotNewer) 112 5 0 1048576 =
      InstallOutcome.returned UC_ERR_READING_FLASH
        [PageOp.read 65536 UC_ERR_NONE, PageOp.write 1048576 UC_ERR_NONE,
          PageOp.read 65600 UC_ERR_READING_FLASH] ∧
    (PageOp.read 65600 UC_ERR_READING_FLASH).code ≠ UC_ERR_NONE ∧
    ([] : List PageOp) = [] ∧ UC_ERR_READING_FLASH = (PageOp.read 65600 UC_ERR_READING_FLASH).code :=
  have h : installApplication pagedReadFailure (oneSlot flashSlotNewer) 112 5 0 1048576 =
      InstallOutcome.returned UC_ERR_READING_FLASH
        [PageOp.read 65536 UC_ERR_NONE, PageOp.write 1048576 UC_ERR_NONE,
          PageOp.read 65600 UC_ERR_READING_FLASH] :=
    (installApplication_of_copy pagedReadFailure (oneSlot flashSlotNewer) 112 5 0 1048576 65536
      4096 1 (MbedApplication.new 65536 65648) (by decide!) flashSlotNewer_slot0
      (pagedOf_slot_size _ 64)).trans (by decide!)
  have hne : (PageOp.read 65600 UC_ERR_READING_FLASH).code ≠ UC_ERR_NONE := by decide
  have h2 := ((installApplication_aborts_on_first_failure pagedReadFailure
    (oneSlot flashSlotNewer) 112 5 0 1048576).2 _ _ h).1
      [PageOp.read 65536 UC_ERR_NONE, PageOp.write 1048576 UC_ERR_NONE]
      (PageOp.read 65600 UC_ERR_READING_FLASH) [] rfl hne
  ⟨h, hne, h2.1, h2.2⟩

/-- The copy loop with a copy size of `2 ^ 32` or more, on a flash whose page operations all
succeed: the 32-bit counter stays below the copy size, so after any number of turns the loop
has not ended and has made one read and one write per turn. -/
theorem copyLoop_never_ends (flash : PagedFlash) (pageSize copySize : Nat)
    (hr : ∀ a, flash.readPageCode a = UC_ERR_NONE) (he : ∀ a, flash.eraseCode a = UC_ERR_NONE)
    (hp : ∀ a, flash.programCode a = UC_ERR_NONE) (hsize : 2 ^ 32 ≤ copySize) :
    ∀ fuel st, st.nbrOfBytes < 2 ^ 32 →
      (copyLoop flash pageSize copySize fuel st).1 = none ∧
      (copyLoop flash pageSize copySize fuel st).2.trace.length =
        st.trace.length + 2 * fuel := by
  intro fuel
  induction fuel with
  | zero =>
    intro st hst
    unfold copyLoop
    rw [if_pos (by omega)]
    exact ⟨rfl, rfl⟩
  | succ fuel ih =>
    intro st hst
    unfold copyLoop
    have hw := (writePage_ok flash pageSize st.dest he hp).1
    simp only [if_pos (show st.nbrOfBytes < copySize by omega), readPage_ok _ _ _ (hr _), hw,
      ne_eq, not_true_eq_false, if_false]
    obtain ⟨h1, h2⟩ := ih
      { sourceAddr := (st.sourceAddr + pageSize) % 2 ^ 32
        dest := (writePage flash pageSize st.dest).2
        nbrOfBytes := (st.nbrOfBytes + pageSize) % 2 ^ 32
        trace := (st.trace ++ [PageOp.read st.sourceAddr UC_ERR_NONE]) ++
          [PageOp.write st.dest.addr UC_ERR_NONE] }
      (Nat.mod_lt _ (by norm_num))
    refine ⟨h1, ?_⟩
    rw [h2]
    simp only [List.length_append, List.length_singleton]
    omega

/-- The copy loop when the page-rounded copy size fits the 32-bit counter, on a flash whose
page operations all succeed: from page `k` on, the loop makes the remaining reads and writes
in page order and ends with success. -/
theorem copyLoop_run (flash : PagedFlash) (pageSize copySize src dst pages : Nat)
    (hr : ∀ a, flash.readPageCode a = UC_ERR_NONE) (he : ∀ a, flash.eraseCode a = UC_ERR_NONE)
    (hp : ∀ a, flash.programCode a = UC_ERR_NONE)
    (hfit : pages * pageSize < 2 ^ 32) (hend : copySize ≤ pages * pageSize)
    (hbefore : ∀ k, k < pages → k * pageSize < copySize) :
    ∀ count k st, k + count = pages → st.nbrOfBytes = k * pageSize →
      st.sourceAddr = (src + k * pageSize) % 2 ^ 32 →
      st.dest.addr = (dst + k * pageSize) % 2 ^ 32 →
      ∀ fuel, count ≤ fuel →
        (copyLoop flash pageSize copySize fuel st).1 = some UC_ERR_NONE ∧
        (copyLoop flash pageSize copySize fuel st).2.trace =
          st.trace ++ copyTrace src dst pageSize count k := by
  intro count
  induction count with
  | zero =>
    intro k st hk hn _ _ fuel _
    have hge : ¬ st.nbrOfBytes < copySize := by
      rw [hn, show k = pages by omega]
      omega
    cases fuel with
    | zero =>
      unfold copyLoop
      rw [if_neg hge]
      exact ⟨rfl, by simp [copyTrace]⟩
    | succ fuel =>
      unfold copyLoop
      rw [if_neg hge]
      exact ⟨rfl, by simp [copyTrace]⟩
  | succ count ih =>
    intro k st hk hn hs hd fuel hfuel
    have hlt : st.nbrOfBytes < copySize := by
      rw [hn]
      exact hbefore k (by omega)
    have hk1 : (k + 1) * pageSize ≤ pages * pageSize :=
      Nat.mul_le_mul_right _ (by omega)
    cases fuel with
    | zero => omega
    | succ fuel =>
      unfold copyLoop
      have hw := writePage_ok flash pageSize st.dest he hp
      simp only [if_pos hlt, readPage_ok _ _ _ (hr _), hw.1, ne_eq, not_true_eq_false,
        if_false]
      obtain ⟨h1, h2⟩ := ih (k + 1)
        { sourceAddr := (st.sourceAddr + pageSize) % 2 ^ 32
          dest := (writePage flash pageSize st.dest).2
          nbrOfBytes := (st.nbrOfBytes + pageSize) % 2 ^ 32
          trace := (st.trace ++ [PageOp.read st.sourceAddr UC_ERR_NONE]) ++
            [PageOp.write st.dest.addr UC_ERR_NONE] }
        (by omega)
        (by
          simp only
          rw [hn, Nat.mod_eq_of_lt (by rw [Nat.add_mul] at hk1; omega), Nat.add_mul, Nat.one_mul])
        (by
          simp only
          rw [hs, Nat.mod_add_mod, Nat.add_mul, Nat.one_mul, Nat.add_assoc])
        (by
          simp only
          rw [hw.2, hd, Nat.mod_add_mod, Nat.add_mul, Nat.one_mul, Nat.add_assoc])
        fuel (by omega)
      refine ⟨h1, ?_⟩
      rw [h2, hs, hd]
      simp [copyTrace]

theorem pages_cover (c p : Nat) (hp : 0 < p) : c ≤ (c + p - 1) / p * p := by
  have h1 := Nat.div_add_mod (c + p - 1) p
  have h2 := Nat.mod_lt (c + p - 1) hp
  rw [Nat.mul_comm] at h1
  omega

theorem pages_needed (c p k : Nat) (hk : k < (c + p - 1) / p) : k * p < c := by
  have h1 : (k + 1) * p ≤ (c + p - 1) / p * p := Nat.mul_le_mul_right _ hk
  have h2 := Nat.div_mul_le_self (c + p - 1) p
  rw [Nat.add_mul, Nat.one_mul] at h1
  have hp : 0 < p := by
    rcases Nat.eq_zero_or_pos p with h0 | h0
    · rw [h0, Nat.div_zero] at hk
      omega
    · exact h0
  omega

theorem getCandidateAddress_lt (flash : FlashUpdater) (ca : CandidateApplications)
    (slotIndex : Nat) (r : UCError × Nat × Nat)
    (h : getCandidateAddress flash ca slotIndex = some r) : r.2.1 < 2 ^ 32 := by
  unfold getCandidateAddress at h
  split_ifs at h
  simp only [Option.some.injEq] at h
  rw [← h]
  exact Nat.mod_lt _ (by norm_num)

/-- The contract of `installApplication` when the page-rounded copy length fits the 32-bit
counter: on a flash whose page operations all succeed and with a page size that is not 0,
the call returns success after exactly `ceil ((firmwareSize + headerSize) / pageSize)` pairs
of a page read and a page write, in increasing page order, the first read at the address of
`getCandidateAddress` and the first write at `destHeaderAddress`. -/
theorem installApplication_copies (flash : PagedFlash) (ca : CandidateApplications)
    (headerSize slotIndex destHeaderAddress : Nat) (candidate : MbedApplication)
    (sourceAddr slotSize : Nat)
    (hr : ∀ a, flash.readPageCode a = UC_ERR_NONE) (he : ∀ a, flash.eraseCode a = UC_ERR_NONE)
    (hp : ∀ a, flash.programCode a = UC_ERR_NONE) (hpage : 0 < flash.get_page_size)
    (hdest : destHeaderAddress < 2 ^ 32)
    (hga : getCandidateAddress flash.toFlashUpdater ca slotIndex =
      some (UC_ERR_NONE, sourceAddr, slotSize))
    (hc : ca._candidateApplicationArray.getD slotIndex none = some candidate)
    (hfit : ((getFirmwareSize flash.toFlashUpdater candidate).1 + headerSize +
      flash.get_page_size - 1) / flash.get_page_size * flash.get_page_size < 2 ^ 32)
    (fuel : Nat)
    (hfuel : ((getFirmwareSize flash.toFlashUpdater candidate).1 + headerSize +
      flash.get_page_size - 1) / flash.get_page_size ≤ fuel) :
    installApplication flash ca headerSize fuel slotIndex destHeaderAddress =
      InstallOutcome.returned UC_ERR_NONE
        (copyTrace sourceAddr destHeaderAddress flash.get_page_size
          (((getFirmwareSize flash.toFlashUpdater candidate).1 + headerSize +
            flash.get_page_size - 1) / flash.get_page_size) 0) := by
  have hcover := pages_cover ((getFirmwareSize flash.toFlashUpdater candidate).1 + headerSize)
    flash.get_page_size hpage
  have hmod : ((getFirmwareSize flash.toFlashUpdater candidate).1 + headerSize) % 2 ^ 64 =
      (getFirmwareSize flash.toFlashUpdater candidate).1 + headerSize :=
    Nat.mod_eq_of_lt (by omega)
  obtain ⟨h1, h2⟩ := copyLoop_run flash flash.get_page_size
    ((getFirmwareSize flash.toFlashUpdater candidate).1 + headerSize) sourceAddr
    destHeaderAddress _ hr he hp hfit hcover (fun k hk => pages_needed _ _ k hk) _ 0
    { sourceAddr := sourceAddr
      dest := { addr := destHeaderAddress
                sectorErased := false
                pagesFlashed := 0
                nextSectorAddress :=
                  (destHeaderAddress + flash.get_sector_size destHeaderAddress) % 2 ^ 32 }
      nbrOfBytes := 0
      trace := [] }
    (Nat.zero_add _) (by simp)
    (by
      simp only [Nat.zero_mul, Nat.add_zero]
      have := getCandidateAddress_lt flash.toFlashUpdater ca slotIndex _ hga
      exact (Nat.mod_eq_of_lt this).symm)
    (by
      simp only [Nat.zero_mul, Nat.add_zero]
      exact (Nat.mod_eq_of_lt hdest).symm)
    fuel hfuel
  unfold installApplication
  simp only [hga, hc, hmod, ne_eq, not_true_eq_false, if_false]
  generalize copyLoop flash flash.get_page_size
    ((getFirmwareSize flash.toFlashUpdater candidate).1 + headerSize) fuel _ = r at h1 h2
  obtain ⟨code, st⟩ := r
  simp only [List.nil_append] at h1 h2
  rw [h1]
  simp only [h2]

/-- The copy of the 113-byte image of slot 0 of `flashSlotNewer` in pages of 64 bytes: two
pairs of a page read and a page write. -/
theorem installApplication_copies_two_pages :
    installApplication pagedSlotNewer (oneSlot flashSlotNewer) 112 2 0 1048576 =
      InstallOutcome.returned UC_ERR_NONE
        [PageOp.read 65536 UC_ERR_NONE, PageOp.write 1048576 UC_ERR_NONE,
          PageOp.read 65600 UC_ERR_NONE, PageOp.write 1048640 UC_ERR_NONE] :=
  (installApplication_of_copy pagedSlotNewer (oneSlot flashSlotNewer) 112 2 0 1048576 65536
    4096 1 (MbedApplication.new 65536 65648) (by decide!) flashSlotNewer_slot0
    (pagedOf_slot_size _ 64)).trans (by decide!)

/-- C17 at a failing input. Slot 0 at address 0 of `pagedHuge` holds a header that decodes
with firmwareSize `2 ^ 32 + 1`; the page size is 256 and every page operation succeeds. The
copy length `2 ^ 32 + 113` is never reached by the 32-bit counter: after every number of
loop turns `installApplication` is still in the copy loop, having made one read and one
write per turn, and so never returns. -/
theorem installApplication_never_returns :
    (∀ a, pagedHuge.readPageCode a = UC_ERR_NONE ∧ pagedHuge.eraseCode a = UC_ERR_NONE ∧
      pagedHuge.programCode a = UC_ERR_NONE) ∧
    pagedHuge.get_page_size = 256 ∧
    getCandidateAddress flashHuge (CandidateApplications.new 1 flashHuge 0 8192 112 1) 0 =
      some (UC_ERR_NONE, 0, 8192) ∧
    (CandidateApplications.new 1 flashHuge 0 8192 112 1)._candidateApplicationArray.getD 0
      none = some (MbedApplication.new 0 112) ∧
    (getFirmwareSize flashHuge (MbedApplication.new 0 112)).1 = 2 ^ 32 + 1 ∧
    ∀ fuel, ∃ trace,
      installApplication pagedHuge (CandidateApplications.new 1 flashHuge 0 8192 112 1) 112
        fuel 0 1048576 = InstallOutcome.running trace ∧
      trace.length = 2 * fuel := by
  have hga : getCandidateAddress flashHuge (CandidateApplications.new 1 flashHuge 0 8192 112 1)
      0 = some (UC_ERR_NONE, 0, 8192) := by decide!
  have hc : (CandidateApplications.new 1 flashHuge 0 8192 112
      1)._candidateApplicationArray.getD 0 none = some (MbedApplication.new 0 112) := by decide!
  have hfs : (getFirmwareSize flashHuge (MbedApplication.new 0 112)).1 = 2 ^ 32 + 1 :=
    congrArg Prod.fst (constructed_of_read flashHuge _ _ _ flashHuge_header).2.2
  refine ⟨fun _ => ⟨rfl, rfl, rfl⟩, rfl, hga, hc, hfs, ?_⟩
  intro fuel
  have hflash : pagedHuge.toFlashUpdater = flashHuge := rfl
  have hrun := copyLoop_never_ends pagedHuge 256 ((2 ^ 32 + 1 + 112) % 2 ^ 64)
    (fun _ => rfl) (fun _ => rfl) (fun _ => rfl) (by norm_num) fuel
    { sourceAddr := 0
      dest := { addr := 1048576
                sectorErased := false
                pagesFlashed := 0
                nextSectorAddress := (1048576 + pagedHuge.get_sector_size 1048576) % 2 ^ 32 }
      nbrOfBytes := 0
      trace := [] }
    (by norm_num)
  unfold installApplication
  simp only [hflash, hga, hc, hfs, ne_eq, not_true_eq_false, if_false]
  have hpage : pagedHuge.get_page_size = 256 := rfl
  rw [hpage]
  generalize copyLoop pagedHuge 256 ((2 ^ 32 + 1 + 112) % 2 ^ 64) fuel _ = r at hrun
  obtain ⟨code, st⟩ := r
  simp only [List.length_nil, Nat.zero_add] at hrun
  rw [hrun.1]
  exact ⟨st.trace, rfl, hrun.2⟩

theorem alignDownFrom_ge (secs : List Nat) : ∀ b a, b ≤ alignDownFrom b secs a := by
  induction secs with
  | nil => intro b a; exact Nat.le_refl _
  | cons s rest ih =>
    intro b a
    unfold alignDownFrom
    split_ifs
    · exact Nat.le_trans (Nat.le_add_right b s) (ih (b + s) a)
    · exact Nat.le_refl _

theorem alignUpFrom_ge (secs : List Nat) : ∀ b a, b ≤ alignUpFrom b secs a := by
  induction secs with
  | nil => intro b a; exact Nat.le_refl _
  | cons s rest ih =>
    intro b a
    unfold alignUpFrom
    split_ifs
    · exact Nat.le_refl _
    · exact Nat.le_trans (Nat.le_add_right b s) (ih (b + s) a)

theorem alignDownFrom_le_top (secs : List Nat) : ∀ b a, alignDownFrom b secs a ≤ b + secs.sum := by
  induction secs with
  | nil => intro b a; exact Nat.le_add_right _ _
  | cons s rest ih =>
    intro b a
    unfold alignDownFrom
    rw [List.sum_cons]
    split_ifs
    · have := ih (b + s) a
      omega
    · omega

theorem alignUpFrom_le_top (secs : List Nat) : ∀ b a, alignUpFrom b secs a ≤ b + secs.sum := by
  induction secs with
  | nil => intro b a; exact Nat.le_add_right _ _
  | cons s rest ih =>
    intro b a
    unfold alignUpFrom
    rw [List.sum_cons]
    split_ifs
    · omega
    · have := ih (b + s) a
      omega

theorem alignDownFrom_le (secs : List Nat) : ∀ b a, b ≤ a → alignDownFrom b secs a ≤ a := by
  induction secs with
  | nil => intro b a h; exact h
  | cons s rest ih =>
    intro b a h
    unfold alignDownFrom
    split_ifs with h1
    · exact ih (b + s) a h1
    · exact h

theorem alignDownFrom_mono (secs : List Nat) :
    ∀ b a1 a2, a1 ≤ a2 → alignDownFrom b secs a1 ≤ alignDownFrom b secs a2 := by
  induction secs with
  | nil => intro b a1 a2 _; exact Nat.le_refl _
  | cons s rest ih =>
    intro b a1 a2 h
    unfold alignDownFrom
    by_cases h1 : b + s ≤ a1
    · rw [if_pos h1, if_pos (Nat.le_trans h1 h)]
      exact ih (b + s) a1 a2 h
    · rw [if_neg h1]
      split_ifs
      · exact Nat.le_trans (Nat.le_add_right b s) (alignDownFrom_ge rest (b + s) a2)
      · exact Nat.le_refl _

theorem alignDownFrom_self (secs : List Nat) : ∀ b, alignDownFrom b secs b = b := by
  induction secs with
  | nil => intro b; rfl
  | cons s rest ih =>
    intro b
    unfold alignDownFrom
    split_ifs with h1
    · have hs : b + s = b := by omega
      rw [hs]
      exact ih b
    · rfl

theorem alignDownFrom_idem (secs : List Nat) :
    ∀ b a, alignDownFrom b secs (alignDownFrom b secs a) = alignDownFrom b secs a := by
  induction secs with
  | nil => intro b a; rfl
  | cons s rest ih =>
    intro b a
    by_cases h1 : b + s ≤ a
    · have hx : alignDownFrom b (s :: rest) a = alignDownFrom (b + s) rest a := by
        rw [alignDownFrom, if_pos h1]
      rw [hx]
      rw [alignDownFrom, if_pos (alignDownFrom_ge rest (b + s) a)]
      exact ih (b + s) a
    · have hx : alignDownFrom b (s :: rest) a = b := by
        rw [alignDownFrom, if_neg h1]
      rw [hx]
      exact alignDownFrom_self (s :: rest) b

theorem alignDownFrom_alignUpFrom (secs : List Nat) :
    ∀ b a, alignDownFrom b secs (alignUpFrom b secs a) = alignUpFrom b secs a := by
  induction secs with
  | nil => intro b a; rfl
  | cons s rest ih =>
    intro b a
    by_cases h1 : a ≤ b
    · have hx : alignUpFrom b (s :: rest) a = b := by
        rw [alignUpFrom, if_pos h1]
      rw [hx]
      exact alignDownFrom_self (s :: rest) b
    · have hx : alignUpFrom b (s :: rest) a = alignUpFrom (b + s) rest a := by
        rw [alignUpFrom, if_neg h1]
      rw [hx]
      rw [alignDownFrom, if_pos (alignUpFrom_ge rest (b + s) a)]
      exact ih (b + s) a

/-- The value of `getCandidateAddress` on a flash whose `alignAddressToSector` is the walk
over the given sectors, for a storage region whose rounded start is not above its rounded
end: no 32-bit operation wraps, the slot starts at the nominal start rounded down and ends at
the boundary at or below the slot start plus the nominal size. -/
theorem getCandidateAddress_walk (flash : FlashUpdater) (ca : CandidateApplications)
    (origin : Nat) (sectors : List Nat)
    (hal : ∀ a rd, flash.alignAddressToSector a rd = alignToSector origin sectors a rd)
    (htop : origin + sectors.sum < 2 ^ 32)
    (hreg : ca._storageAddress + ca._storageSize < 2 ^ 32)
    (hne : alignUpFrom origin sectors ca._storageAddress ≤
      alignDownFrom origin sectors (ca._storageAddress + ca._storageSize))
    (i : Nat) (hi : i < ca._nbrOfSlots) :
    getCandidateAddress flash ca i =
      some (UC_ERR_NONE,
        alignDownFrom origin sectors
          (alignUpFrom origin sectors ca._storageAddress +
            i * ((alignDownFrom origin sectors (ca._storageAddress + ca._storageSize) -
              alignUpFrom origin sectors ca._storageAddress) / ca._nbrOfSlots)),
        alignDownFrom origin sectors
          (alignDownFrom origin sectors
            (alignUpFrom origin sectors ca._storageAddress +
              i * ((alignDownFrom origin sectors (ca._storageAddress + ca._storageSize) -
                alignUpFrom origin sectors ca._storageAddress) / ca._nbrOfSlots)) +
            (alignDownFrom origin sectors (ca._storageAddress + ca._storageSize) -
              alignUpFrom origin sectors ca._storageAddress) / ca._nbrOfSlots) -
        alignDownFrom origin sectors
          (alignUpFrom origin sectors ca._storageAddress +
            i * ((alignDownFrom origin sectors (ca._storageAddress + ca._storageSize) -
              alignUpFrom origin sectors ca._storageAddress) / ca._nbrOfSlots))) := by
  have hU : ∀ a, flash.alignAddressToSector a false = alignUpFrom origin sectors a := by
    intro a
    rw [hal]
    simp [alignToSector]
  have hD : ∀ a, flash.alignAddressToSector a true = alignDownFrom origin sectors a := by
    intro a
    rw [hal]
    simp [alignToSector]
  have hDlt : ∀ a, alignDownFrom origin sectors a < 2 ^ 32 := fun a =>
    Nat.lt_of_le_of_lt (alignDownFrom_le_top sectors origin a) htop
  have hUlt : ∀ a, alignUpFrom origin sectors a < 2 ^ 32 := fun a =>
    Nat.lt_of_le_of_lt (alignUpFrom_le_top sectors origin a) htop
  unfold getCandidateAddress
  rw [if_neg (by omega)]
  simp only [hU, hD, Nat.mod_eq_of_lt (hDlt _), Nat.mod_eq_of_lt (hUlt _),
    Nat.mod_eq_of_lt hreg]
  generalize hE : alignDownFrom origin sectors (ca._storageAddress + ca._storageSize) = E
    at hne ⊢
  generalize hS : alignUpFrom origin sectors ca._storageAddress = St at hne ⊢
  have hElt : E < 2 ^ 32 := by rw [← hE]; exact hDlt _
  have hdiff : (E + 2 ^ 32 - St) % 2 ^ 32 = E - St := by
    rw [show E + 2 ^ 32 - St = (E - St) + 2 ^ 32 by omega, Nat.add_mod_right]
    exact Nat.mod_eq_of_lt (by omega)
  rw [hdiff]
  generalize hm : (E - St) / ca._nbrOfSlots = m
  have hNm : m * ca._nbrOfSlots ≤ E - St := by
    rw [← hm]
    exact Nat.div_mul_le_self _ _
  have him : (i + 1) * m ≤ ca._nbrOfSlots * m := Nat.mul_le_mul_right m hi
  rw [Nat.add_mul, Nat.one_mul, Nat.mul_comm ca._nbrOfSlots m] at him
  have h1 : (i * m) % 2 ^ 32 = i * m := Nat.mod_eq_of_lt (by omega)
  have h2 : (St + i * m) % 2 ^ 32 = St + i * m := Nat.mod_eq_of_lt (by omega)
  rw [h1, h2]
  generalize hs : alignDownFrom origin sectors (St + i * m) = s
  have hoS : origin ≤ St := by rw [← hS]; exact alignUpFrom_ge _ _ _
  have hsle : s ≤ St + i * m := by
    rw [← hs]
    exact alignDownFrom_le _ _ _ (by omega)
  have h3 : (s + m) % 2 ^ 32 = s + m := Nat.mod_eq_of_lt (by omega)
  rw [h3]
  have hse : s ≤ alignDownFrom origin sectors (s + m) := by
    have := alignDownFrom_mono sectors origin s (s + m) (by omega)
    rw [← hs, alignDownFrom_idem] at this
    rw [← hs]
    exact this
  generalize he : alignDownFrom origin sectors (s + m) = e at hse
  have helt : e < 2 ^ 32 := by rw [← he]; exact hDlt _
  have h4 : (e + 2 ^ 32 - s) % 2 ^ 32 = e - s := by
    rw [show e + 2 ^ 32 - s = (e - s) + 2 ^ 32 by omega, Nat.add_mod_right]
    exact Nat.mod_eq_of_lt (by omega)
  rw [h4]

/-- C15 (amended). On a flash whose `alignAddressToSector` walks the sectors of the given
sizes from `origin`, with the flash inside the 32-bit address space, for a storage region
with `S + L < 2 ^ 32` whose rounded start `alignUp(S)` is not above its rounded end
`alignDown(S + L)`: every slot `i < N` has a range `[addr, addr + size)` with
`alignUp(S) ≤ addr` and `addr + size ≤ alignDown(S + L)`, and for every later slot `j` the
range of slot `i` ends at or before the start of slot `j`. -/
theorem getCandidateAddress_ranges (flash : FlashUpdater) (ca : CandidateApplications)
    (origin : Nat) (sectors : List Nat)
    (hal : ∀ a rd, flash.alignAddressToSector a rd = alignToSector origin sectors a rd)
    (htop : origin + sectors.sum < 2 ^ 32)
    (hreg : ca._storageAddress + ca._storageSize < 2 ^ 32)
    (hne : flash.alignAddressToSector ca._storageAddress false ≤
      flash.alignAddressToSector (ca._storageAddress + ca._storageSize) true)
    (i : Nat) (hi : i < ca._nbrOfSlots) :
    ∃ addr size, getCandidateAddress flash ca i = some (UC_ERR_NONE, addr, size) ∧
      flash.alignAddressToSector ca._storageAddress false ≤ addr ∧
      addr + size ≤ flash.alignAddressToSector (ca._storageAddress + ca._storageSize) true ∧
      ∀ j, i < j → j < ca._nbrOfSlots →
        ∃ addr2 size2, getCandidateAddress flash ca j = some (UC_ERR_NONE, addr2, size2) ∧
          addr + size ≤ addr2 := by
  have hU : ∀ a, flash.alignAddressToSector a false = alignUpFrom origin sectors a := by
    intro a
    rw [hal]
    simp [alignToSector]
  have hD : ∀ a, flash.alignAddressToSector a true = alignDownFrom origin sectors a := by
    intro a
    rw [hal]
    simp [alignToSector]
  rw [hU, hD] at hne
  have hwalk := getCandidateAddress_walk flash ca origin sectors hal htop hreg hne
  rw [hU, hD]
  have hSt : alignDownFrom origin sectors (alignUpFrom origin sectors ca._storageAddress) =
      alignUpFrom origin sectors ca._storageAddress := alignDownFrom_alignUpFrom _ _ _
  have hoS : origin ≤ alignUpFrom origin sectors ca._storageAddress := alignUpFrom_ge _ _ _
  generalize alignDownFrom origin sectors (ca._storageAddress + ca._storageSize) = E
    at hne hwalk ⊢
  generalize alignUpFrom origin sectors ca._storageAddress = St at hne hwalk hSt hoS ⊢
  generalize hm : (E - St) / ca._nbrOfSlots = m at hwalk
  have hNm : m * ca._nbrOfSlots ≤ E - St := by
    rw [← hm]
    exact Nat.div_mul_le_self _ _
  have hpos : ∀ k, k < ca._nbrOfSlots → k * m + m ≤ m * ca._nbrOfSlots := by
    intro k hk
    have := Nat.mul_le_mul_right m (show k + 1 ≤ ca._nbrOfSlots from hk)
    rw [Nat.add_mul, Nat.one_mul, Nat.mul_comm ca._nbrOfSlots m] at this
    exact this
  have hstart : ∀ k, St ≤ alignDownFrom origin sectors (St + k * m) := by
    intro k
    have := alignDownFrom_mono sectors origin St (St + k * m) (Nat.le_add_right _ _)
    rw [hSt] at this
    exact this
  have hle : ∀ k, alignDownFrom origin sectors (St + k * m) ≤ St + k * m := fun k =>
    alignDownFrom_le _ _ _ (by omega)
  have hend : ∀ k, alignDownFrom origin sectors (St + k * m) ≤
      alignDownFrom origin sectors (alignDownFrom origin sectors (St + k * m) + m) := by
    intro k
    have := alignDownFrom_mono sectors origin (alignDownFrom origin sectors (St + k * m))
      (alignDownFrom origin sectors (St + k * m) + m) (Nat.le_add_right _ _)
    rw [alignDownFrom_idem] at this
    exact this
  have hendle : ∀ k, alignDownFrom origin sectors
      (alignDownFrom origin sectors (St + k * m) + m) ≤ St + k * m + m := by
    intro k
    have h1 := alignDownFrom_le sectors origin (alignDownFrom origin sectors (St + k * m) + m)
      (by have := hstart k; omega)
    have h2 := hle k
    omega
  refine ⟨_, _, hwalk i hi, hstart i, ?_, ?_⟩
  · have h1 := hend i
    have h2 := hendle i
    have h3 := hpos i hi
    omega
  · intro j hij hj
    refine ⟨_, _, hwalk j hj, ?_⟩
    have h1 := hend i
    rw [Nat.add_sub_cancel' h1]
    have h2 : alignDownFrom origin sectors (St + i * m) + m ≤ St + j * m := by
      have h3 := hle i
      have h4 : (i + 1) * m ≤ j * m := Nat.mul_le_mul_right m hij
      rw [Nat.add_mul, Nat.one_mul] at h4
      omega
    exact alignDownFrom_mono sectors origin _ _ h2

/-- Witness for C15: a flash of four sectors of 16384 bytes, one of 65536 and two of 131072
from address 0, the storage region `[0, 262144)` and two slots: slot 0 is
`[0, 131072)`. -/
theorem getCandidateAddress_ranges_witness :
    ∃ addr size,
      getCandidateAddress (sectorFlash 0 [16384, 16384, 16384, 16384, 65536, 131072, 131072])
        (CandidateApplications.new 2
          (sectorFlash 0 [16384, 16384, 16384, 16384, 65536, 131072, 131072]) 0 262144 112 2)
        0 = some (UC_ERR_NONE, addr, size) ∧ 0 ≤ addr ∧ addr + size ≤ 262144 := by
  obtain ⟨addr, size, h1, h2, h3, _⟩ := getCandidateAddress_ranges
    (sectorFlash 0 [16384, 16384, 16384, 16384, 65536, 131072, 131072])
    (CandidateApplications.new 2
      (sectorFlash 0 [16384, 16384, 16384, 16384, 65536, 131072, 131072]) 0 262144 112 2)
    0 [16384, 16384, 16384, 16384, 65536, 131072, 131072] (fun _ _ => rfl) (by decide!)
    (by decide!) (by decide!) 0 (by decide!)
  have e1 : (sectorFlash 0 [16384, 16384, 16384, 16384, 65536, 131072, 131072]).alignAddressToSector
      ((CandidateApplications.new 2
        (sectorFlash 0 [16384, 16384, 16384, 16384, 65536, 131072, 131072]) 0 262144 112
          2)._storageAddress +
        (CandidateApplications.new 2
          (sectorFlash 0 [16384, 16384, 16384, 16384, 65536, 131072, 131072]) 0 262144 112
            2)._storageSize) true = 262144 := by decide!
  rw [e1] at h3
  exact ⟨addr, size, h1, Nat.zero_le _, h3⟩

/-- Counterexample to C15 as stated: with uniform 4096-byte sectors from address 0, the
storage region `[100, 200)` and one slot, `alignUp(S) = 4096` and `alignDown(S + L) = 0`, and
the slot computed by `getCandidateAddress` is `[4096, 2 ^ 32)`, which does not lie within
`[4096, 0)`. -/
theorem slot_outside_storage_region :
    (sectorFlash 0 [4096, 4096]).alignAddressToSector 100 false = 4096 ∧
    (sectorFlash 0 [4096, 4096]).alignAddressToSector (100 + 100) true = 0 ∧
    getCandidateAddress (sectorFlash 0 [4096, 4096])
      (CandidateApplications.new 1 (sectorFlash 0 [4096, 4096]) 100 100 112 1) 0 =
      some (UC_ERR_NONE, 4096, 2 ^ 32 - 4096) ∧
    ¬ (4096 + (2 ^ 32 - 4096) ≤ 0) := by
  refine ⟨by decide!, by decide!, by decide!, by decide⟩

/-! ## Slots on a flash with sectors of one size -/

/-- On a flash with sectors of one size, a storage region at least one sector long has its
rounded start at or below its rounded end. -/
theorem uniform_region_not_empty (Z L S n : Nat) (hL : Z ≤ L) :
    ∀ o, alignUpFrom o (List.replicate n Z) S ≤ alignDownFrom o (List.replicate n Z) (S + L) := by
  induction n with
  | zero => intro o; simp [alignUpFrom, alignDownFrom]
  | succ n ih =>
    intro o
    rw [List.replicate_succ, alignUpFrom]
    by_cases h : S ≤ o
    · rw [if_pos h]
      exact alignDownFrom_ge _ _ _
    · rw [if_neg h, alignDownFrom, if_pos (by omega)]
      exact ih (o + Z)

theorem alignToSector_up (flash : FlashUpdater) (origin : Nat) (sectors : List Nat)
    (hal : ∀ a rd, flash.alignAddressToSector a rd = alignToSector origin sectors a rd)
    (a : Nat) : flash.alignAddressToSector a false = alignUpFrom origin sectors a := by
  rw [hal]
  simp [alignToSector]

theorem alignToSector_down (flash : FlashUpdater) (origin : Nat) (sectors : List Nat)
    (hal : ∀ a rd, flash.alignAddressToSector a rd = alignToSector origin sectors a rd)
    (a : Nat) : flash.alignAddressToSector a true = alignDownFrom origin sectors a := by
  rw [hal]
  simp [alignToSector]

/-- C22 (amended). On a flash whose `alignAddressToSector` walks the sectors of the given
sizes from `origin`, inside the 32-bit address space, for a storage region with
`S + L < 2 ^ 32` and `start = alignUp(S) ≤ end = alignDown(S + L)`, with
`m = (end - start) / N` and a slot `i < N`: `getCandidateAddress` returns
`candidateAddress = alignDown(start + i * m)`, and the slot end
`candidateAddress + slotSize` is `alignDown(candidateAddress + m)`, the slot start plus the
nominal size rounded down, which is at or below `alignDown(start + (i + 1) * m)`. -/
theorem getCandidateAddress_slot_end (flash : FlashUpdater) (ca : CandidateApplications)
    (origin : Nat) (sectors : List Nat)
    (hal : ∀ a rd, flash.alignAddressToSector a rd = alignToSector origin sectors a rd)
    (htop : origin + sectors.sum < 2 ^ 32)
    (hreg : ca._storageAddress + ca._storageSize < 2 ^ 32)
    (hne : flash.alignAddressToSector ca._storageAddress false ≤
      flash.alignAddressToSector (ca._storageAddress + ca._storageSize) true)
    (i : Nat) (hi : i < ca._nbrOfSlots) :
    ∃ addr size, getCandidateAddress flash ca i = some (UC_ERR_NONE, addr, size) ∧
      addr = flash.alignAddressToSector
        (flash.alignAddressToSector ca._storageAddress false +
          i * ((flash.alignAddressToSector (ca._storageAddress + ca._storageSize) true -
            flash.alignAddressToSector ca._storageAddress false) / ca._nbrOfSlots)) true ∧
      addr + size = flash.alignAddressToSector
        (addr + (flash.alignAddressToSector (ca._storageAddress + ca._storageSize) true -
            flash.alignAddressToSector ca._storageAddress false) / ca._nbrOfSlots) true ∧
      addr + size ≤ flash.alignAddressToSector
        (flash.alignAddressToSector ca._storageAddress false +
          (i + 1) * ((flash.alignAddressToSector (ca._storageAddress + ca._storageSize) true -
            flash.alignAddressToSector ca._storageAddress false) / ca._nbrOfSlots)) true := by
  simp only [alignToSector_up flash origin _ hal, alignToSector_down flash origin _ hal]
    at hne ⊢
  have hwalk := getCandidateAddress_walk flash ca origin sectors hal htop hreg hne i hi
  have hoS : origin ≤ alignUpFrom origin sectors ca._storageAddress := alignUpFrom_ge _ _ _
  generalize alignDownFrom origin sectors (ca._storageAddress + ca._storageSize) = E
    at hne hwalk ⊢
  generalize alignUpFrom origin sectors ca._storageAddress = St at hne hwalk hoS ⊢
  generalize (E - St) / ca._nbrOfSlots = m at hwalk ⊢
  have hend : alignDownFrom origin sectors (St + i * m) ≤
      alignDownFrom origin sectors (alignDownFrom origin sectors (St + i * m) + m) := by
    have := alignDownFrom_mono sectors origin (alignDownFrom origin sectors (St + i * m))
      (alignDownFrom origin sectors (St + i * m) + m) (Nat.le_add_right _ _)
    rw [alignDownFrom_idem] at this
    exact this
  refine ⟨_, _, hwalk, rfl, Nat.add_sub_cancel' hend, ?_⟩
  rw [Nat.add_sub_cancel' hend]
  apply alignDownFrom_mono
  have := alignDownFrom_le sectors origin (St + i * m) (by omega)
  rw [Nat.add_mul, Nat.one_mul]
  omega

/-- Witness for C22 (amended): sixteen sectors of 4096 bytes from address 0, the storage
region `[0, 12288)` and two slots, so that `m = 6144`: slot 1 starts at
`alignDown(6144) = 4096` and ends at `alignDown(4096 + 6144) = 8192`. -/
theorem getCandidateAddress_slot_end_witness :
    ∃ addr size,
      getCandidateAddress (sectorFlash 0 (List.replicate 16 4096))
        (CandidateApplications.new 2 (sectorFlash 0 (List.replicate 16 4096)) 0 12288 112 2)
        1 = some (UC_ERR_NONE, addr, size) ∧
      addr = 4096 ∧ addr + size = 8192 := by
  obtain ⟨addr, size, h1, h2, h3, _⟩ := getCandidateAddress_slot_end
    (sectorFlash 0 (List.replicate 16 4096))
    (CandidateApplications.new 2 (sectorFlash 0 (List.replicate 16 4096)) 0 12288 112 2)
    0 (List.replicate 16 4096) (fun _ _ => rfl) (by decide) (by decide!) (by decide!) 1
    (by decide!)
  have e2 : (sectorFlash 0 (List.replicate 16 4096)).alignAddressToSector
      ((sectorFlash 0 (List.replicate 16 4096)).alignAddressToSector
        (CandidateApplications.new 2 (sectorFlash 0 (List.replicate 16 4096)) 0 12288 112
          2)._storageAddress false +
        1 * (((sectorFlash 0 (List.replicate 16 4096)).alignAddressToSector
          ((CandidateApplications.new 2 (sectorFlash 0 (List.replicate 16 4096)) 0 12288 112
            2)._storageAddress +
            (CandidateApplications.new 2 (sectorFlash 0 (List.replicate 16 4096)) 0 12288 112
              2)._storageSize) true -
          (sectorFlash 0 (List.replicate 16 4096)).alignAddressToSector
            (CandidateApplications.new 2 (sectorFlash 0 (List.replicate 16 4096)) 0 12288
              112 2)._storageAddress false) /
          (CandidateApplications.new 2 (sectorFlash 0 (List.replicate 16 4096)) 0 12288 112
            2)._nbrOfSlots)) true = 4096 := by decide!
  rw [e2] at h2
  subst h2
  have e3 : (sectorFlash 0 (List.replicate 16 4096)).alignAddressToSector
      (4096 + ((sectorFlash 0 (List.replicate 16 4096)).alignAddressToSector
          ((CandidateApplications.new 2 (sectorFlash 0 (List.replicate 16 4096)) 0 12288 112
            2)._storageAddress +
            (CandidateApplications.new 2 (sectorFlash 0 (List.replicate 16 4096)) 0 12288 112
              2)._storageSize) true -
          (sectorFlash 0 (List.replicate 16 4096)).alignAddressToSector
            (CandidateApplications.new 2 (sectorFlash 0 (List.replicate 16 4096)) 0 12288
              112 2)._storageAddress false) /
          (CandidateApplications.new 2 (sectorFlash 0 (List.replicate 16 4096)) 0 12288 112
            2)._nbrOfSlots) true = 8192 := by decide!
  rw [e3] at h3
  exact ⟨4096, size, h1, rfl, h3⟩

/-- Counterexample to C22 as stated: sixteen sectors of 4096 bytes from address 0, the
storage region `[0, 12288)` and two slots, so that `start = 0`, `end = 12288` and
`m = 6144`. Slot 1 is `[4096, 8192)`: its end 8192 is not the nominal end
`start + 2 * m = 12288` rounded down, which is 12288. -/
theorem slot_end_is_not_nominal_end_rounded_down :
    (sectorFlash 0 (List.replicate 16 4096)).alignAddressToSector 0 false = 0 ∧
    (sectorFlash 0 (List.replicate 16 4096)).alignAddressToSector (0 + 12288) true = 12288 ∧
    (12288 - 0) / 2 = 6144 ∧
    getCandidateAddress (sectorFlash 0 (List.replicate 16 4096))
        (CandidateApplications.new 2 (sectorFlash 0 (List.replicate 16 4096)) 0 12288 112 2)
        1 = some (UC_ERR_NONE, 4096, 4096) ∧
    (sectorFlash 0 (List.replicate 16 4096)).alignAddressToSector (0 + (1 + 1) * 6144) true =
      12288 ∧
    4096 + 4096 ≠ 12288 := by
  refine ⟨by decide!, by decide!, by decide, by decide!, by decide!, by decide⟩

/-! ## Single-bit errors in the header payload -/

/-- C21. For every header that decodes successfully and every bit of the bytes 8..107
(firmwareVersion, firmwareSize, hash, campaign, signatureSize and the bytes between them),
the header with that one bit inverted fails to decode with `UC_ERR_INVALID_CHECKSUM` and the
state is NotValid; the `crc32` of the first 108 bytes changes whenever one bit of them is
inverted. -/
theorem readApplicationHeader_payload_bit_flip (flash : FlashUpdater) (app : MbedApplication)
    (k j : Nat) (hk8 : 8 ≤ k) (hk : k < 108) (hj : j < 8)
    (hok : (readApplicationHeader flash app).1 = UC_ERR_NONE) :
    (readApplicationHeader (flipBit flash (app._applicationHeaderAddress + k) j) app).1 =
      UC_ERR_INVALID_CHECKSUM ∧
    (readApplicationHeader (flipBit flash (app._applicationHeaderAddress + k) j)
      app).2._applicationHeader.state = NOT_VALID ∧
    ∀ k2 j2, k2 < 108 → j2 < 8 →
      crc32 (headerRegion (flipBit flash (app._applicationHeaderAddress + k2) j2)
        app._applicationHeaderAddress) 108 ≠
      crc32 (headerRegion flash app._applicationHeaderAddress) 108 := by
  have hcode : (readApplicationHeader (flipBit flash (app._applicationHeaderAddress + k) j)
      app).1 = UC_ERR_INVALID_CHECKSUM := by
    obtain ⟨h8, h112⟩ := reads_of_ok flash app hok
    obtain ⟨hv, hm, hc⟩ := conditions_of_ok flash app hok
    have hcrc := crc32_flip_ne flash app._applicationHeaderAddress k j hk hj
    have hsame : ∀ i, i < 112 → i ≠ k →
        byteAt (headerRegion (flipBit flash (app._applicationHeaderAddress + k) j)
          app._applicationHeaderAddress) i =
        byteAt (headerRegion flash app._applicationHeaderAddress) i := by
      intro i hi hne
      rw [byteAt_headerRegion_flip flash app._applicationHeaderAddress k j i hi hj, if_neg hne]
    rw [readApplicationHeader_of_reads (flipBit flash (app._applicationHeaderAddress + k) j)
      app h8 h112]
    generalize headerRegion (flipBit flash (app._applicationHeaderAddress + k) j)
      app._applicationHeaderAddress = region2 at hsame hcrc ⊢
    generalize headerRegion flash app._applicationHeaderAddress = region at *
    simp only [parseUint32_eq, byteAt_drop, Nat.reduceAdd, Nat.add_zero] at hv hm hc ⊢
    have e0 := hsame 0 (by decide) (by omega)
    have e1 := hsame 1 (by decide) (by omega)
    have e2 := hsame 2 (by decide) (by omega)
    have e3 := hsame 3 (by decide) (by omega)
    have e4 := hsame 4 (by decide) (by omega)
    have e5 := hsame 5 (by decide) (by omega)
    have e6 := hsame 6 (by decide) (by omega)
    have e7 := hsame 7 (by decide) (by omega)
    have c0 := hsame 108 (by decide) (by omega)
    have c1 := hsame 109 (by decide) (by omega)
    have c2 := hsame 110 (by decide) (by omega)
    have c3 := hsame 111 (by decide) (by omega)
    rw [e0, e1, e2, e3, e4, e5, e6, e7, c0, c1, c2, c3, hc]
    rw [if_neg (by rw [hv, hm]; simp), if_pos (fun h => hcrc h.symm)]
  refine ⟨hcode, ?_, fun k2 j2 hk2 hj2 => crc32_flip_ne flash _ k2 j2 hk2 hj2⟩
  rw [readApplicationHeader_state, hcode]
  rfl

/-- Witness for C21: bit 5 of byte 40 (in the hash) of the header of `flashOneImage`
inverted. -/
theorem readApplicationHeader_payload_bit_flip_witness :
    (readApplicationHeader flashOneImage (MbedApplication.new 0 112)).1 = UC_ERR_NONE ∧
    (readApplicationHeader (flipBit flashOneImage (0 + 40) 5) (MbedApplication.new 0 112)).1 =
      UC_ERR_INVALID_CHECKSUM :=
  have hok : (readApplicationHeader flashOneImage (MbedApplication.new 0 112)).1 =
      UC_ERR_NONE := by rw [flashOneImage_header]
  ⟨hok,
    (readApplicationHeader_payload_bit_flip flashOneImage (MbedApplication.new 0 112) 40 5
      (by decide) (by decide) (by decide) hok).1⟩

/-! ## Checking twice -/

/-- The header read does not depend on the cached state. -/
theorem readApplicationHeader_setState (flash : FlashUpdater) (a : MbedApplication)
    (s : ApplicationState) :
    readApplicationHeader flash (a.setState s) = readApplicationHeader flash a := by
  unfold readApplicationHeader MbedApplication.setState
  simp only []
  cases flash.read a._applicationHeaderAddress 8 with
  | none => rfl
  | some vb =>
    simp only []
    split_ifs
    · cases flash.read a._applicationHeaderAddress kHeaderSizeV2 with
      | none => rfl
      | some rb =>
        simp only [parseInternalHeaderV2]
        split_ifs <;> rfl
    · rfl
    · rfl

theorem checkApplication_setState (sha256 : List Nat → List Nat) (flash : FlashUpdater)
    (a : MbedApplication) (s : ApplicationState) :
    checkApplication sha256 flash (a.setState s) = checkApplication sha256 flash a := by
  unfold checkApplication
  rw [readApplicationHeader_setState]

/-- C24. On an unchanged flash, a second call of `checkApplication` returns the same code as
the first and leaves the application exactly as the first call left it (header fields and
validation state); and the outcome of a call does not depend on the state cached before
it. -/
theorem checkApplication_idempotent (sha256 : List Nat → List Nat) (flash : FlashUpdater)
    (app : MbedApplication) :
    (checkApplication sha256 flash (checkApplication sha256 flash app).2).1 =
      (checkApplication sha256 flash app).1 ∧
    (checkApplication sha256 flash (checkApplication sha256 flash app).2).2 =
      (checkApplication sha256 flash app).2 ∧
    ∀ s, checkApplication sha256 flash (app.setState s) = checkApplication sha256 flash app := by
  have h : checkApplication sha256 flash (checkApplication sha256 flash app).2 =
      checkApplication sha256 flash app := by
    have hshape : ∃ s, (checkApplication sha256 flash app).2 =
        (readApplicationHeader flash app).2.setState s := by
      unfold checkApplication
      simp only []
      split_ifs <;> exact ⟨_, rfl⟩
    obtain ⟨s, hs⟩ := hshape
    rw [hs, checkApplication_setState, checkApplication_after_read]
  exact ⟨by rw [h], by rw [h], fun s => checkApplication_setState sha256 flash app s⟩

/-! ## Big-endian integers -/

/-- C25. For bytes `b0 .. b7` (values below 256): `parseUint32` of `b0 .. b3` is
`b0 * 2 ^ 24 + b1 * 2 ^ 16 + b2 * 2 ^ 8 + b3` and `parseUint64` of `b0 .. b7` is the sum of
`b_k * 256 ^ (7 - k)`; the results are below `2 ^ 32` and `2 ^ 64`, and no shift loses a
bit. Both invert the big-endian encoding: `parseUint32 (encodeBE 4 x) = x` for
`x < 2 ^ 32` and `parseUint64 (encodeBE 8 x) = x` for `x < 2 ^ 64`; and encoding the parsed
value gives the bytes back. -/
theorem parseUint_big_endian (b0 b1 b2 b3 b4 b5 b6 b7 : Nat)
    (hb : ∀ b ∈ [b0, b1, b2, b3, b4, b5, b6, b7], b < 256) :
    parseUint32 [b0, b1, b2, b3] = b0 * 2 ^ 24 + b1 * 2 ^ 16 + b2 * 2 ^ 8 + b3 ∧
    parseUint64 [b0, b1, b2, b3, b4, b5, b6, b7] =
      b0 * 256 ^ 7 + b1 * 256 ^ 6 + b2 * 256 ^ 5 + b3 * 256 ^ 4 + b4 * 256 ^ 3 +
        b5 * 256 ^ 2 + b6 * 256 ^ 1 + b7 * 256 ^ 0 ∧
    parseUint32 [b0, b1, b2, b3] < 2 ^ 32 ∧
    parseUint64 [b0, b1, b2, b3, b4, b5, b6, b7] < 2 ^ 64 ∧
    encodeBE 4 (parseUint32 [b0, b1, b2, b3]) = [b0, b1, b2, b3] ∧
    encodeBE 8 (parseUint64 [b0, b1, b2, b3, b4, b5, b6, b7]) =
      [b0, b1, b2, b3, b4, b5, b6, b7] ∧
    (∀ x, x < 2 ^ 32 → parseUint32 (encodeBE 4 x) = x) ∧
    (∀ x, x < 2 ^ 64 → parseUint64 (encodeBE 8 x) = x) := by
  have h0 : b0 < 256 := hb b0 (by simp)
  have h1 : b1 < 256 := hb b1 (by simp)
  have h2 : b2 < 256 := hb b2 (by simp)
  have h3 : b3 < 256 := hb b3 (by simp)
  have h4 : b4 < 256 := hb b4 (by simp)
  have h5 : b5 < 256 := hb b5 (by simp)
  have h6 : b6 < 256 := hb b6 (by simp)
  have h7 : b7 < 256 := hb b7 (by simp)
  have e32 : parseUint32 [b0, b1, b2, b3] = b0 * 2 ^ 24 + b1 * 2 ^ 16 + b2 * 2 ^ 8 + b3 := by
    rw [parseUint32_eq]
    simp [byteAt, Nat.mod_eq_of_lt, h0, h1, h2, h3]
  have e64 : parseUint64 [b0, b1, b2, b3, b4, b5, b6, b7] =
      b0 * 256 ^ 7 + b1 * 256 ^ 6 + b2 * 256 ^ 5 + b3 * 256 ^ 4 + b4 * 256 ^ 3 +
        b5 * 256 ^ 2 + b6 * 256 ^ 1 + b7 * 256 ^ 0 := by
    rw [parseUint64_eq]
    simp [byteAt, Nat.mod_eq_of_lt, h0, h1, h2, h3, h4, h5, h6, h7]
  refine ⟨e32, e64, by rw [e32]; omega, by rw [e64]; omega, ?_, ?_, ?_, ?_⟩
  · rw [e32]
    simp [encodeBE, List.range_succ]
    omega
  · rw [e64]
    simp [encodeBE, List.range_succ]
    omega
  · intro x hx
    have := parseUint32_encodeBE x [] hx
    rwa [List.append_nil] at this
  · intro x hx
    have := parseUint64_encodeBE x [] hx
    rwa [List.append_nil] at this

/-- Witness for C25: the bytes `0x5a 0x51 0xb3 0xd4` of the header magic and the bytes of
`2 ^ 32 + 1`. -/
theorem parseUint_big_endian_witness :
    parseUint32 [0x5a, 0x51, 0xb3, 0xd4] = 0x5a51b3d4 ∧
    parseUint64 [0x5a, 0x51, 0xb3, 0xd4, 0, 0, 0, 1] = 0x5a51b3d400000001 :=
  have h := parseUint_big_endian 0x5a 0x51 0xb3 0xd4 0 0 0 1 (by decide)
  ⟨h.1.trans (by decide), h.2.1.trans (by decide)⟩

/-! ## The order of `isNewerThan` -/

theorem newerHeader_irrefl (a : ApplicationHeader) : newerHeader a a = false := by
  unfold newerHeader
  split_ifs <;> simp

theorem newerHeader_trans (a b c : ApplicationHeader) (hab : newerHeader a b = true)
    (hbc : newerHeader b c = true) : newerHeader a c = true := by
  unfold newerHeader at hab hbc ⊢
  by_cases ha : a.headerVersion < kHeaderVersionV2 ∨ a.firmwareSize = 0 ∨ a.state = NOT_VALID
  · simp [ha] at hab
  · by_cases hb : b.headerVersion < kHeaderVersionV2 ∨ b.firmwareSize = 0 ∨
        b.state = NOT_VALID
    · simp [hb] at hbc
    · rw [if_neg ha, if_neg hb] at hab
      rw [if_neg hb] at hbc
      rw [if_neg ha]
      by_cases hc : c.headerVersion < kHeaderVersionV2 ∨ c.firmwareSize = 0 ∨
          c.state = NOT_VALID
      · rw [if_pos hc]
      · rw [if_neg hc] at hbc ⊢
        have h1 := of_decide_eq_true hab
        have h2 := of_decide_eq_true hbc
        exact decide_eq_true (by omega)

/-- C26. On every flash and for all applications (whether or not their headers are read
yet): `A.isNewerThan(A)` is false, and when `A.isNewerThan(B)` and `B.isNewerThan(C)` are
true then `A.isNewerThan(C)` is true. An application whose header is read is not changed by
`isNewerThan`. A scan of `hasValidNewerApplication` over a collection built with at most the
maximum of slots that returns slot `i` leaves in slot `i` an application that is newer than
the active application. -/
theorem isNewerThan_strict_order (flash : FlashUpdater) (A B C : MbedApplication) :
    (isNewerThan flash A A).1 = false ∧
    ((isNewerThan flash A B).1 = true → (isNewerThan flash B C).1 = true →
      (isNewerThan flash A C).1 = true) ∧
    (A._applicationHeader.initialized = true → B._applicationHeader.initialized = true →
      (isNewerThan flash A B).2.1 = A ∧ (isNewerThan flash A B).2.2 = B) ∧
    ∀ (sha256 : List Nat → List Nat) (maxSlots storageAddress storageSize headerSize
        nbrOfSlots : Nat) (active : MbedApplication) (i : Nat)
        (cands : List (Option MbedApplication)) (act1 : MbedApplication),
      nbrOfSlots ≤ maxSlots →
      hasValidNewerApplication sha256 flash
        (CandidateApplications.new maxSlots flash storageAddress storageSize headerSize
          nbrOfSlots) active = some (true, i, cands, act1) →
      ∃ final, cands.getD i none = some final ∧ (isNewerThan flash final act1).1 = true := by
  refine ⟨?_, ?_, ?_, ?_⟩
  · simp only [isNewerThan]
    exact newerHeader_irrefl _
  · simp only [isNewerThan]
    exact newerHeader_trans _ _ _
  · intro hA hB
    simp only [isNewerThan, ensureHeader_of_initialized flash A hA,
      ensureHeader_of_initialized flash B hB, and_self]
  · intro sha256 maxSlots storageAddress storageSize headerSize nbrOfSlots active i cands act1
      hmax hres
    obtain ⟨found, i2, cands2, act2, hres2, _, htrue⟩ := hasValidNewerApplication_sound sha256
      flash maxSlots storageAddress storageSize headerSize nbrOfSlots active hmax
    rw [hres] at hres2
    simp only [Option.some.injEq, Prod.mk.injEq] at hres2
    obtain ⟨hf, hi, hc, ha⟩ := hres2
    obtain ⟨_, slot, final, _, hfin, _, _, _, _, _, _, hnew⟩ := htrue hf.symm
    rw [hi, hc, ha]
    exact ⟨final, hfin, hnew⟩

/-- Witness for C26: on `flashThreeSlots` the image of version 6 is newer than the image of
version 5, which is newer than the active image of version 3; so version 6 is newer than
version 3. -/
theorem isNewerThan_strict_order_witness :
    (isNewerThan flashThreeSlots (MbedApplication.new 73728 73840)
      (MbedApplication.new 65536 65648)).1 = true ∧
    (isNewerThan flashThreeSlots (MbedApplication.new 65536 65648)
      (MbedApplication.new 0 112)).1 = true ∧
    (isNewerThan flashThreeSlots (MbedApplication.new 73728 73840)
      (MbedApplication.new 0 112)).1 = true :=
  have h1 : (isNewerThan flashThreeSlots (MbedApplication.new 73728 73840)
      (MbedApplication.new 65536 65648)).1 = true := by
    rw [isNewerThan_of_ensure flashThreeSlots _ _ _ _
      (constructed_of_read flashThreeSlots _ _ _ flashThreeSlots_header2).1
      (constructed_of_read flashThreeSlots _ _ _ flashThreeSlots_header0).1]
    decide
  have h2 : (isNewerThan flashThreeSlots (MbedApplication.new 65536 65648)
      (MbedApplication.new 0 112)).1 = true := by
    rw [isNewerThan_of_ensure flashThreeSlots _ _ _ _
      (constructed_of_read flashThreeSlots _ _ _ flashThreeSlots_header0).1
      (constructed_of_read flashThreeSlots _ _ _ flashThreeSlots_headerActive).1]
    decide
  ⟨h1, h2, (isNewerThan_strict_order flashThreeSlots (MbedApplication.new 73728 73840)
    (MbedApplication.new 65536 65648) (MbedApplication.new 0 112)).2.1 h1 h2⟩

/-! ## States reached by public operations -/

theorem readApplicationHeader_state_ne (flash : FlashUpdater) (a : MbedApplication) :
    (readApplicationHeader flash a).2._applicationHeader.state ≠ NOT_CHECKED := by
  rw [readApplicationHeader_state]
  split_ifs <;> decide

theorem checkApplication_state_ne (sha256 : List Nat → List Nat) (flash : FlashUpdater)
    (a : MbedApplication) :
    (checkApplication sha256 flash a).2._applicationHeader.state ≠ NOT_CHECKED := by
  unfold checkApplication
  simp only []
  split_ifs <;> simp [MbedApplication.setState]

theorem ensureHeader_state_ne (flash : FlashUpdater) (a : MbedApplication)
    (h : a._applicationHeader.initialized = true → a._applicationHeader.state ≠ NOT_CHECKED) :
    (ensureHeader flash a)._applicationHeader.state ≠ NOT_CHECKED := by
  unfold ensureHeader
  split_ifs with hi
  · exact h hi
  · exact readApplicationHeader_state_ne flash a

/-- The state tested by the second `if` of `isValid` is never `NOT_CHECKED` when the
application is not initialized or is initialized with a state other than `NOT_CHECKED`. -/
theorem isValidAfterHeader_state_ne (flash : FlashUpdater) (a : MbedApplication)
    (h : a._applicationHeader.initialized = true → a._applicationHeader.state ≠ NOT_CHECKED) :
    (isValidAfterHeader flash a)._applicationHeader.state ≠ NOT_CHECKED := by
  unfold isValidAfterHeader
  cases hi : a._applicationHeader.initialized
  · simp only [Bool.false_eq_true, not_false_eq_true, if_true]
    split_ifs
    · simp [MbedApplication.setState]
    · exact readApplicationHeader_state_ne flash a
  · simp only [not_true_eq_false, if_false]
    exact h hi

/-- The function `isValid` in terms of its first `if`: the second `if` is skipped exactly when the
state after the first one is not `NOT_CHECKED`. -/
theorem isValid_of_state_ne (sha256 : List Nat → List Nat) (flash : FlashUpdater)
    (a : MbedApplication)
    (h : (isValidAfterHeader flash a)._applicationHeader.state ≠ NOT_CHECKED) :
    isValid sha256 flash a =
      (decide ((isValidAfterHeader flash a)._applicationHeader.state ≠ NOT_VALID),
        isValidAfterHeader flash a) := by
  have e : isValid sha256 flash a =
      (decide ((if (isValidAfterHeader flash a)._applicationHeader.state = NOT_CHECKED then
          (if (checkApplication sha256 flash (isValidAfterHeader flash a)).1 ≠ UC_ERR_NONE then
            (checkApplication sha256 flash (isValidAfterHeader flash a)).2.setState NOT_VALID
           else (checkApplication sha256 flash (isValidAfterHeader flash a)).2)
          else isValidAfterHeader flash a)._applicationHeader.state ≠ NOT_VALID),
        if (isValidAfterHeader flash a)._applicationHeader.state = NOT_CHECKED then
          (if (checkApplication sha256 flash (isValidAfterHeader flash a)).1 ≠ UC_ERR_NONE then
            (checkApplication sha256 flash (isValidAfterHeader flash a)).2.setState NOT_VALID
           else (checkApplication sha256 flash (isValidAfterHeader flash a)).2)
        else isValidAfterHeader flash a) := rfl
  rw [e, if_neg h]

theorem applyOp_inv (sha256 : List Nat → List Nat) (flash : FlashUpdater) (op : PublicOp)
    (a : MbedApplication)
    (h : a._applicationHeader.initialized = true → a._applicationHeader.state ≠ NOT_CHECKED) :
    (applyOp sha256 flash op a)._applicationHeader.state ≠ NOT_CHECKED ∨
      applyOp sha256 flash op a = a := by
  cases op with
  | isValid =>
    left
    have hs := isValidAfterHeader_state_ne flash a h
    simp only [applyOp, isValid_of_state_ne sha256 flash a hs]
    exact hs
  | getFirmwareVersion =>
    simp only [applyOp, getFirmwareVersion]
    cases hi : a._applicationHeader.initialized
    · left
      simp only [Bool.false_eq_true, not_false_eq_true, if_true]
      split_ifs
      · simp [MbedApplication.setState]
      · exact readApplicationHeader_state_ne flash a
    · right
      simp only [not_true_eq_false, if_false]
  | getFirmwareSize =>
    simp only [applyOp, getFirmwareSize]
    cases hi : a._applicationHeader.initialized
    · left
      simp only [Bool.false_eq_true, not_false_eq_true, if_true]
      split_ifs
      · simp [MbedApplication.setState]
      · exact readApplicationHeader_state_ne flash a
    · right
      simp only [not_true_eq_false, if_false]
  | isNewerThan other =>
    left
    exact ensureHeader_state_ne flash a h
  | argumentOfIsNewerThan caller =>
    left
    exact ensureHeader_state_ne flash a h
  | checkApplication =>
    left
    exact checkApplication_state_ne sha256 flash a

theorem applyOps_inv (sha256 : List Nat → List Nat) (ops : List (FlashUpdater × PublicOp)) :
    ∀ a : MbedApplication,
      (a._applicationHeader.initialized = true → a._applicationHeader.state ≠ NOT_CHECKED) →
      (applyOps sha256 ops a)._applicationHeader.initialized = true →
      (applyOps sha256 ops a)._applicationHeader.state ≠ NOT_CHECKED := by
  induction ops with
  | nil => intro a h; exact h
  | cons p rest ih =>
    intro a h
    obtain ⟨flash, op⟩ := p
    simp only [applyOps]
    apply ih
    intro hi
    rcases applyOp_inv sha256 flash op a h with h1 | h1
    · exact h1
    · rw [h1] at hi ⊢
      exact h hi

/-- C27. A constructed application has state `NOT_CHECKED` and is not initialized. After any
sequence of the public operations `isValid`, `getFirmwareVersion`, `getFirmwareSize`,
`isNewerThan` (as the caller or as the argument) and `checkApplication`, each on any flash
content, an initialized application has state Valid or NotValid; and a following call of
`isValid`, on any flash, finds a state other than `NOT_CHECKED` at its second `if`, so that
it does not call `checkApplication` and returns whether the state found is not NotValid. -/
theorem reachable_state_never_not_checked (sha256 : List Nat → List Nat)
    (ops : List (FlashUpdater × PublicOp)) (applicationHeaderAddress applicationAddress : Nat) :
    (MbedApplication.new applicationHeaderAddress applicationAddress)._applicationHeader.state =
      NOT_CHECKED ∧
    (MbedApplication.new applicationHeaderAddress
      applicationAddress)._applicationHeader.initialized = false ∧
    ((applyOps sha256 ops (MbedApplication.new applicationHeaderAddress
        applicationAddress))._applicationHeader.initialized = true →
      (applyOps sha256 ops (MbedApplication.new applicationHeaderAddress
          applicationAddress))._applicationHeader.state = VALID ∨
        (applyOps sha256 ops (MbedApplication.new applicationHeaderAddress
          applicationAddress))._applicationHeader.state = NOT_VALID) ∧
    ∀ flash,
      (isValidAfterHeader flash (applyOps sha256 ops (MbedApplication.new
        applicationHeaderAddress applicationAddress)))._applicationHeader.state ≠ NOT_CHECKED ∧
      isValid sha256 flash (applyOps sha256 ops (MbedApplication.new applicationHeaderAddress
          applicationAddress)) =
        (decide ((isValidAfterHeader flash (applyOps sha256 ops (MbedApplication.new
            applicationHeaderAddress applicationAddress)))._applicationHeader.state ≠
              NOT_VALID),
          isValidAfterHeader flash (applyOps sha256 ops (MbedApplication.new
            applicationHeaderAddress applicationAddress))) := by
  have hinv := applyOps_inv sha256 ops
    (MbedApplication.new applicationHeaderAddress applicationAddress) (fun h => by cases h)
  refine ⟨rfl, rfl, ?_, ?_⟩
  · intro hi
    have := hinv hi
    cases hs : (applyOps sha256 ops (MbedApplication.new applicationHeaderAddress
      applicationAddress))._applicationHeader.state with
    | NOT_CHECKED => exact absurd hs this
    | VALID => exact Or.inl rfl
    | NOT_VALID => exact Or.inr rfl
  · intro flash
    have hs := isValidAfterHeader_state_ne flash _ hinv
    exact ⟨hs, isValid_of_state_ne sha256 flash _ hs⟩

/-- Witness for C27: after `getFirmwareVersion` on a flash with a valid header, then
`checkApplication` on a flash with no image, then `isNewerThan`, the application is
initialized and its state is NotValid. -/
theorem reachable_state_never_not_checked_witness :
    (applyOps sumDigest
      [(flashOneImage, PublicOp.getFirmwareVersion), (flashNoActive, PublicOp.checkApplication),
        (flashOneImage, PublicOp.isNewerThan (MbedApplication.new 0 112))]
      (MbedApplication.new 0 112))._applicationHeader.initialized = true ∧
    ((applyOps sumDigest
      [(flashOneImage, PublicOp.getFirmwareVersion), (flashNoActive, PublicOp.checkApplication),
        (flashOneImage, PublicOp.isNewerThan (MbedApplication.new 0 112))]
      (MbedApplication.new 0 112))._applicationHeader.state = VALID ∨
    (applyOps sumDigest
      [(flashOneImage, PublicOp.getFirmwareVersion), (flashNoActive, PublicOp.checkApplication),
        (flashOneImage, PublicOp.isNewerThan (MbedApplication.new 0 112))]
      (MbedApplication.new 0 112))._applicationHeader.state = NOT_VALID) :=
  have hi : (applyOps sumDigest
      [(flashOneImage, PublicOp.getFirmwareVersion), (flashNoActive, PublicOp.checkApplication),
        (flashOneImage, PublicOp.isNewerThan (MbedApplication.new 0 112))]
      (MbedApplication.new 0 112))._applicationHeader.initialized = true := by
    rw [applyOps_cons, applyOp_getFirmwareVersion,
      (constructed_of_read flashOneImage 0 112 _ flashOneImage_header).2.1]
    decide!
  ⟨hi, (reachable_state_never_not_checked sumDigest _ 0 112).2.2.1 hi⟩

/-! ## Header fields after a failed read -/

/-- C28. For every application and every header read that fails: the code is
`UC_ERR_READING_FLASH`, `UC_ERR_INVALID_HEADER` or `UC_ERR_INVALID_CHECKSUM`; the fields
firmwareVersion, firmwareSize, hash and campaign (and signatureSize and the two addresses)
are exactly as they were before the call; the header is initialized and the state is
NotValid. Only magic, headerVersion, initialized and state can differ. -/
theorem readApplicationHeader_failure_keeps_fields (flash : FlashUpdater)
    (app : MbedApplication) (hfail : (readApplicationHeader flash app).1 ≠ UC_ERR_NONE) :
    ((readApplicationHeader flash app).1 = UC_ERR_READING_FLASH ∨
      (readApplicationHeader flash app).1 = UC_ERR_INVALID_HEADER ∨
      (readApplicationHeader flash app).1 = UC_ERR_INVALID_CHECKSUM) ∧
    (readApplicationHeader flash app).2._applicationHeader.firmwareVersion =
      app._applicationHeader.firmwareVersion ∧
    (readApplicationHeader flash app).2._applicationHeader.firmwareSize =
      app._applicationHeader.firmwareSize ∧
    (readApplicationHeader flash app).2._applicationHeader.hash = app._applicationHeader.hash ∧
    (readApplicationHeader flash app).2._applicationHeader.campaign =
      app._applicationHeader.campaign ∧
    (readApplicationHeader flash app).2._applicationHeader.signatureSize =
      app._applicationHeader.signatureSize ∧
    (readApplicationHeader flash app).2._applicationHeaderAddress =
      app._applicationHeaderAddress ∧
    (readApplicationHeader flash app).2._applicationAddress = app._applicationAddress ∧
    (readApplicationHeader flash app).2._applicationHeader.initialized = true ∧
    (readApplicationHeader flash app).2._applicationHeader.state = NOT_VALID := by
  unfold readApplicationHeader at hfail ⊢
  cases h8 : flash.read app._applicationHeaderAddress 8 with
  | none => simp [finishReadHeader]
  | some vb =>
    rw [h8] at hfail
    simp only [] at hfail ⊢
    split_ifs at hfail ⊢ with hv hm
    · cases h112 : flash.read app._applicationHeaderAddress kHeaderSizeV2 with
      | none => simp [finishReadHeader]
      | some rb =>
        rw [h112] at hfail
        simp only [finishReadHeader, parseInternalHeaderV2] at hfail ⊢
        by_cases hc : parseUint32 (List.drop kHeaderCrcOffsetV2 rb) = crc32 rb kHeaderCrcOffsetV2
        · rw [if_pos hc] at hfail
          exact absurd rfl hfail
        · rw [if_neg hc]
          simp
    · simp [finishReadHeader]
    · simp [finishReadHeader]

/-- Witness for C28: an application that holds the decoded header of `flashOneImage`
(version 5, size 3) reads its header again from a flash with no image at address 0; the
read fails with `UC_ERR_INVALID_HEADER` and version and size are still 5 and 3. -/
theorem readApplicationHeader_failure_keeps_fields_witness :
    (readApplicationHeader flashNoActive
      (readApplicationHeader flashOneImage (MbedApplication.new 0 112)).2).1 =
        UC_ERR_INVALID_HEADER ∧
    (readApplicationHeader flashNoActive
      (readApplicationHeader flashOneImage
        (MbedApplication.new 0 112)).2).2._applicationHeader.firmwareVersion = 5 ∧
    (readApplicationHeader flashNoActive
      (readApplicationHeader flashOneImage
        (MbedApplication.new 0 112)).2).2._applicationHeader.firmwareSize = 3 :=
  have hcode : (readApplicationHeader flashNoActive
      (readApplicationHeader flashOneImage (MbedApplication.new 0 112)).2).1 =
        UC_ERR_INVALID_HEADER := by
    rw [flashOneImage_header]
    decide!
  have h := readApplicationHeader_failure_keeps_fields flashNoActive
    (readApplicationHeader flashOneImage (MbedApplication.new 0 112)).2
    (by rw [hcode]; decide)
  ⟨hcode, h.2.1.trans (by rw [flashOneImage_header]; rfl),
    h.2.2.1.trans (by rw [flashOneImage_header]; rfl)⟩

/-! ## The byte counter of the copy loop -/

/-- The byte counter of the copy loop with a copy size of `2 ^ 32` or more, on a flash whose
page operations all succeed: after `fuel` turns it is the 32-bit wrap of the bytes copied. -/
theorem copyLoop_counter (flash : PagedFlash) (pageSize copySize : Nat)
    (hr : ∀ a, flash.readPageCode a = UC_ERR_NONE) (he : ∀ a, flash.eraseCode a = UC_ERR_NONE)
    (hp : ∀ a, flash.programCode a = UC_ERR_NONE) (hsize : 2 ^ 32 ≤ copySize) :
    ∀ fuel st, st.nbrOfBytes < 2 ^ 32 →
      (copyLoop flash pageSize copySize fuel st).2.nbrOfBytes =
        (st.nbrOfBytes + fuel * pageSize) % 2 ^ 32 := by
  intro fuel
  induction fuel with
  | zero =>
    intro st hst
    unfold copyLoop
    rw [if_pos (by omega), Nat.zero_mul, Nat.add_zero, Nat.mod_eq_of_lt hst]
  | succ fuel ih =>
    intro st hst
    unfold copyLoop
    have hw := (writePage_ok flash pageSize st.dest he hp).1
    simp only [if_pos (show st.nbrOfBytes < copySize by omega), readPage_ok _ _ _ (hr _), hw,
      ne_eq, not_true_eq_false, if_false]
    rw [ih _ (Nat.mod_lt _ (by norm_num))]
    simp only [Nat.mod_add_mod]
    rw [Nat.add_mul, Nat.one_mul]
    congr 1
    omega

/-- C29 at failing inputs. For every page size and every flash whose page operations all
succeed, when the copy size is `2 ^ 32` or more the copy loop has not ended after any number
of turns: the 32-bit counter `nbrOfBytes` is then the wrap of the bytes copied and is below
the copy size. In particular for the image of `pagedHuge` with firmwareSize `2 ^ 32 + 1`,
header size 112 and pages of 256 bytes. -/
theorem copyLoop_counter_stays_below_copy_size :
    (∀ (flash : PagedFlash) (pageSize copySize fuel : Nat) (st : CopyState),
      (∀ a, flash.readPageCode a = UC_ERR_NONE) → (∀ a, flash.eraseCode a = UC_ERR_NONE) →
      (∀ a, flash.programCode a = UC_ERR_NONE) → 2 ^ 32 ≤ copySize →
      st.nbrOfBytes < 2 ^ 32 →
      (copyLoop flash pageSize copySize fuel st).1 = none ∧
      (copyLoop flash pageSize copySize fuel st).2.nbrOfBytes =
        (st.nbrOfBytes + fuel * pageSize) % 2 ^ 32 ∧
      (copyLoop flash pageSize copySize fuel st).2.nbrOfBytes < copySize) ∧
    (getFirmwareSize flashHuge (MbedApplication.new 0 112)).1 = 2 ^ 32 + 1 ∧
    ∀ fuel,
      (copyLoop pagedHuge 256 ((2 ^ 32 + 1 + 112) % 2 ^ 64) fuel
        { sourceAddr := 0
          dest := { addr := 1048576, sectorErased := false, pagesFlashed := 0,
                    nextSectorAddress := 1052672 }
          nbrOfBytes := 0
          trace := [] }).1 = none := by
  have hgen : ∀ (flash : PagedFlash) (pageSize copySize fuel : Nat) (st : CopyState),
      (∀ a, flash.readPageCode a = UC_ERR_NONE) → (∀ a, flash.eraseCode a = UC_ERR_NONE) →
      (∀ a, flash.programCode a = UC_ERR_NONE) → 2 ^ 32 ≤ copySize →
      st.nbrOfBytes < 2 ^ 32 →
      (copyLoop flash pageSize copySize fuel st).1 = none ∧
      (copyLoop flash pageSize copySize fuel st).2.nbrOfBytes =
        (st.nbrOfBytes + fuel * pageSize) % 2 ^ 32 ∧
      (copyLoop flash pageSize copySize fuel st).2.nbrOfBytes < copySize := by
    intro flash pageSize copySize fuel st hr he hp hsize hst
    have h1 := (copyLoop_never_ends flash pageSize copySize hr he hp hsize fuel st hst).1
    have h2 := copyLoop_counter flash pageSize copySize hr he hp hsize fuel st hst
    refine ⟨h1, h2, ?_⟩
    rw [h2]
    exact Nat.lt_of_lt_of_le (Nat.mod_lt _ (by norm_num)) hsize
  refine ⟨hgen,
    congrArg Prod.fst (constructed_of_read flashHuge _ _ _ flashHuge_header).2.2, ?_⟩
  intro fuel
  exact (hgen pagedHuge 256 _ fuel _ (fun _ => rfl) (fun _ => rfl) (fun _ => rfl)
    (by norm_num) (by norm_num)).1

end update_client
